import Mathlib

/-!
# i2csfp: shallow embedding of `i2csfp.c`

The program talks to an SFP module through `ioctl(file, I2C_RDWR, ...)`.  The
kernel and the module are the environment: they are modelled as a deterministic
machine `Bus σ` with a state `σ` and one step function for an `I2C_RDWR`
exchange.  The program state that the C functions thread through the global
`file` is the `World`: the state of the bus, the list of exchanges issued so far
(instrumentation for statements about what was put on the wire) and the lines
printed to stdout.

C `int` results are `Int`; `uint8_t` / `uint16_t` parameters are `Nat` truncated
with `u8` / `u16` at the place where C converts them.  The `for` loops are
structural recursions on the number of iterations left, so every function is
total.  `usleep` has no effect on the state and is left out.  A `long` that
`main` stores in an `int` is converted with `long_to_int`.
-/

namespace I2csfp

/-! ## Data model -/

/-- Conversion to `uint8_t`. -/
def u8 (x : Nat) : Nat := x % 256

/-- Conversion to `uint16_t`. -/
def u16 (x : Nat) : Nat := x % 65536

/-- Conversion to `uint32_t` / `unsigned int`. -/
def u32 (x : Nat) : Nat := x % 4294967296

/-- Conversion of an `int` to `uint32_t` (two's complement). -/
def int_to_u32 (x : Int) : Nat := (x % 4294967296).toNat

/-- Conversion of a `long` to `int`, as at `busaddr = strtol(...)` in `main`:
the value modulo `2^32` in the range of `int` (two's complement; `long` has 64
bits on the Linux targets of the tool). -/
def long_to_int (x : Int) : Int := (x + 2147483648) % 4294967296 - 2147483648

/-- Conversion of an `int` to `uint8_t` (two's complement). -/
def int_to_u8 (x : Int) : Nat := (x % 256).toNat

/-- Conversion of an `int` to `uint16_t` (two's complement). -/
def int_to_u16 (x : Int) : Nat := (x % 65536).toNat

/-- Modelled from the spec: the flag `I2C_M_RD` that marks a read message; it
comes from `<linux/i2c.h>`, a header outside the repository, where it is 1. -/
def I2C_M_RD : Nat := 1

/-- Modelled from the spec: the code of the `Timeout` error, `ETIMEDOUT`; it
comes from `<errno.h>`, a header outside the repository, where Linux gives it
the value 110. -/
def ETIMEDOUT : Int := 110

def ROLLBALL_PWD_ADDR : Nat := 0x7b
def ROLLBALL_CMD_ADDR : Nat := 0x80
def ROLLBALL_DATA_ADDR : Nat := 0x81
def ROLLBALL_CMD_WRITE : Nat := 0x01
def ROLLBALL_CMD_READ : Nat := 0x02
def ROLLBALL_CMD_DONE : Nat := 0x04

/-- One `struct i2c_msg`: peripheral address, flags (`0` write, `I2C_M_RD` read),
length and, for a write message, the bytes sent.  The content of a read buffer
before the exchange is not modelled (`buf = []`). -/
structure i2c_msg where
  addr : Nat
  flags : Nat
  len : Nat
  buf : List Nat
deriving DecidableEq, Repr

/-- What one `ioctl(file, I2C_RDWR, &msgset)` gives back: its return value, the
value of `errno` after it, and the content of the buffer of each message after
the exchange (one list per message, in order). -/
structure ioctl_result where
  res : Int
  errno : Int
  bufs : List (List Nat)
deriving DecidableEq, Repr

/-- The environment: the bus with the devices on it, as a deterministic machine. -/
structure Bus (σ : Type) where
  ioctl : σ → List i2c_msg → ioctl_result × σ

/-- Lines the program prints on stdout, with the arguments of the format. -/
inductive Out where
  /-- The line `"Checksum 0x%02x-0x%02x matched %02x\n"` with `start, end, sum`. -/
  | checksum_matched (start end_ sum : Nat)
  /-- The line `"Checksum 0x%02x-0x%02x failed, set at %02x, but should be %02x\n"`
  with `start, end, res, sum`. -/
  | checksum_failed (start end_ res sum : Nat)
  /-- The line `"Writing checksum %02x\n"` with `sum`. -/
  | writing_checksum (sum : Nat)
  /-- The line `"Readback matched at 0xXXXX%02x%02x\n"` with `c, d`. -/
  | readback_matched (c d : Nat)
  /-- The line `"Readback matched at SOMEWHERE!\n"`. -/
  | readback_somewhere
  /-- The line `"Checking 0x%02x%02xXXXX (%d/%d)\n"` with `a, b` and the two
  counters. -/
  | checking (a b count total : Nat)
  /-- The line `"RollBall Password used: 0x%08x\n"` with `password_hex`. -/
  | rollball_password (pw : Nat)
  /-- The line `"Changed Vendor name to: %.16s\n"` with `vendorname`. -/
  | changed_vendor_name (str : List Nat)
  /-- The line `"Changed EXT_CC to: 0x%02x\n"` with `extcc_hex`. -/
  | changed_ext_cc (extcc_hex : Nat)
  /-- The line `"Changed Vendor PN to: %.16s\n"` with `vendorpn`. -/
  | changed_vendor_pn (str : List Nat)
  /-- The line `"0x%02x\n"` or `"0x%04x\n"` with the value a read command read. -/
  | read_value (res : Int)
  /-- The line `"Warning - data mismatch - wrote 0x%02X, read back 0x%02X\n"`. -/
  | verify_mismatch (value res : Int)
  /-- The line `"Value 0x%02X written, readback matched\n"`. -/
  | verify_matched (value : Int)
deriving DecidableEq, Repr

/-- The state the program runs in: the bus behind `file`, every exchange handed
to `i2c_transfer` so far (oldest first) and what was printed on stdout. -/
structure World (σ : Type) where
  dev : σ
  log : List (List i2c_msg)
  out : List Out

/-- Byte `j` of the buffer of message `i` after an exchange, as a `uint8_t`. -/
def byteAt (bufs : List (List Nat)) (i j : Nat) : Nat :=
  u8 ((bufs.getD i []).getD j 0)

/-! ## Bus transport and register codec -/

/-- The function `i2c_transfer`: one `I2C_RDWR` ioctl; `-errno` when it fails,
else its result.  Also gives the buffers after the exchange.  The line it
prints on stderr when the ioctl fails is not modelled. -/
def i2c_transfer {σ : Type} (bus : Bus σ) (w : World σ) (msgs : List i2c_msg) :
    Int × List (List Nat) × World σ :=
  let r := bus.ioctl w.dev msgs
  let w1 : World σ := { w with dev := r.2, log := w.log ++ [msgs] }
  if r.1.res < 0 then (-r.1.errno, r.1.bufs, w1)
  else (r.1.res, r.1.bufs, w1)

/-- The function `i2c_write_byte`: one write message `[reg, val]`. -/
def i2c_write_byte {σ : Type} (bus : Bus σ) (w : World σ) (bus_addr reg val : Nat) :
    Int × World σ :=
  let outbuf := [u8 reg, u8 val]
  let msgs : List i2c_msg := [⟨u8 bus_addr, 0, 2, outbuf⟩]
  let r := i2c_transfer bus w msgs
  (r.1, r.2.2)

/-- The function `i2c_read_byte`: write message `[reg]` then a one-byte read
message, in one exchange. -/
def i2c_read_byte {σ : Type} (bus : Bus σ) (w : World σ) (bus_addr reg : Nat) :
    Int × World σ :=
  let outbuf := [u8 reg]
  let msgs : List i2c_msg :=
    [⟨u8 bus_addr, 0, 1, outbuf⟩, ⟨u8 bus_addr, I2C_M_RD, 1, []⟩]
  let r := i2c_transfer bus w msgs
  if r.1 < 0 then (r.1, r.2.2)
  else ((byteAt r.2.1 1 0 : Nat), r.2.2)

/-! ## Management protocol adapters -/

/-- The function `i2c_mii_write_default_c22`. -/
def i2c_mii_write_default_c22 {σ : Type} (bus : Bus σ) (w : World σ)
    (phy_id reg val : Nat) : Int × World σ :=
  let phy_id := u8 phy_id
  let val := u16 val
  let bus_addr := if phy_id < 0x40 then phy_id + 0x40 else phy_id
  let data := [u8 reg, u8 (val >>> 8), u8 val]
  let msgs : List i2c_msg := [⟨bus_addr, 0, 3, data⟩]
  let r := i2c_transfer bus w msgs
  if r.1 < 0 then (r.1, r.2.2)
  else (0, r.2.2)

/-- The function `i2c_mii_read_default_c22`. -/
def i2c_mii_read_default_c22 {σ : Type} (bus : Bus σ) (w : World σ)
    (phy_id reg : Nat) : Int × World σ :=
  let phy_id := u8 phy_id
  let bus_addr := if phy_id < 0x40 then phy_id + 0x40 else phy_id
  let addr := [u8 reg]
  let msgs : List i2c_msg := [⟨bus_addr, 0, 1, addr⟩, ⟨bus_addr, I2C_M_RD, 2, []⟩]
  let r := i2c_transfer bus w msgs
  if r.1 < 0 then (r.1, r.2.2)
  else (((byteAt r.2.1 1 0 <<< 8 ||| byteAt r.2.1 1 1 : Nat) : Int), r.2.2)

/-- The function `i2c_mii_write_default_c45`. -/
def i2c_mii_write_default_c45 {σ : Type} (bus : Bus σ) (w : World σ)
    (phy_id devad reg val : Nat) : Int × World σ :=
  let phy_id := u8 phy_id
  let reg := u16 reg
  let val := u16 val
  let bus_addr := if phy_id < 0x40 then phy_id + 0x40 else phy_id
  let data := [u8 devad, u8 (reg >>> 8), u8 reg, u8 (val >>> 8), u8 val]
  let msgs : List i2c_msg := [⟨bus_addr, 0, 5, data⟩]
  let r := i2c_transfer bus w msgs
  if r.1 < 0 then (r.1, r.2.2)
  else (0, r.2.2)

/-- The function `i2c_mii_read_default_c45`. -/
def i2c_mii_read_default_c45 {σ : Type} (bus : Bus σ) (w : World σ)
    (phy_id devad reg : Nat) : Int × World σ :=
  let phy_id := u8 phy_id
  let reg := u16 reg
  let bus_addr := if phy_id < 0x40 then phy_id + 0x40 else phy_id
  let addr := [u8 devad, u8 (reg >>> 8), u8 reg]
  let msgs : List i2c_msg := [⟨bus_addr, 0, 3, addr⟩, ⟨bus_addr, I2C_M_RD, 2, []⟩]
  let r := i2c_transfer bus w msgs
  if r.1 < 0 then (r.1, r.2.2)
  else (((byteAt r.2.1 1 0 <<< 8 ||| byteAt r.2.1 1 1 : Nat) : Int), r.2.2)

/-! ## Rollball command engine -/

/-- The function `i2c_transfer_rollball`: save the page register `0x51:0x7f`,
select page 3, do the exchange, write the saved page back.  The buffers given
back are those of the main exchange (none when it was not reached). -/
def i2c_transfer_rollball {σ : Type} (bus : Bus σ) (w : World σ) (msgs : List i2c_msg) :
    Int × List (List Nat) × World σ :=
  let saved_page := i2c_read_byte bus w 0x51 0x7f
  if saved_page.1 < 0 then (saved_page.1, [], saved_page.2)
  else
    let res := i2c_write_byte bus saved_page.2 0x51 0x7f 0x03
    if res.1 < 0 then (res.1, [], res.2)
    else
      let main_res := i2c_transfer bus res.2 msgs
      let res := i2c_write_byte bus main_res.2.2 0x51 0x7f saved_page.1.toNat
      if res.1 < 0 then (res.1, main_res.2.1, res.2)
      else (main_res.1, main_res.2.1, res.2)

/-- The poll loop `for (i = 0; i < 10; ++i)` of `i2c_mii_write_rollball`, with
`n` iterations left. -/
def i2c_mii_write_rollball_poll {σ : Type} (bus : Bus σ) (msgs : List i2c_msg) :
    Nat → World σ → Int × World σ
  | 0, w => (-ETIMEDOUT, w)
  | n + 1, w =>
    let r := i2c_transfer_rollball bus w msgs
    if r.1 < 0 then (r.1, r.2.2)
    else if byteAt r.2.1 1 0 = ROLLBALL_CMD_DONE then (0, r.2.2)
    else i2c_mii_write_rollball_poll bus msgs n r.2.2

/-- The function `i2c_mii_write_rollball`. -/
def i2c_mii_write_rollball {σ : Type} (bus : Bus σ) (w : World σ)
    (devad reg val : Nat) : Int × World σ :=
  let reg := u16 reg
  let val := u16 val
  let buf := [ROLLBALL_DATA_ADDR, u8 devad, u8 (reg >>> 8), u8 reg, u8 (val >>> 8), u8 val]
  let cmdbuf := [ROLLBALL_CMD_ADDR, ROLLBALL_CMD_WRITE]
  let msgs : List i2c_msg := [⟨0x51, 0, 6, buf⟩, ⟨0x51, 0, 2, cmdbuf⟩]
  let r := i2c_transfer_rollball bus w msgs
  if r.1 < 0 then (r.1, r.2.2)
  else
    let cmd_addr := [ROLLBALL_CMD_ADDR]
    let msgs : List i2c_msg := [⟨0x51, 0, 1, cmd_addr⟩, ⟨0x51, I2C_M_RD, 1, []⟩]
    i2c_mii_write_rollball_poll bus msgs 10 r.2.2

/-- The poll loop `for (i = 0; i < 10; ++i)` of `i2c_mii_read_rollball`, with
`n` iterations left. -/
def i2c_mii_read_rollball_poll {σ : Type} (bus : Bus σ) (msgs : List i2c_msg) :
    Nat → World σ → Int × World σ
  | 0, w => (-ETIMEDOUT, w)
  | n + 1, w =>
    let r := i2c_transfer_rollball bus w msgs
    if r.1 < 0 then (r.1, r.2.2)
    else if byteAt r.2.1 1 0 = ROLLBALL_CMD_DONE then
      (((byteAt r.2.1 1 4 <<< 8 ||| byteAt r.2.1 1 5 : Nat) : Int), r.2.2)
    else i2c_mii_read_rollball_poll bus msgs n r.2.2

/-- The function `i2c_mii_read_rollball`. -/
def i2c_mii_read_rollball {σ : Type} (bus : Bus σ) (w : World σ)
    (devad reg : Nat) : Int × World σ :=
  let reg := u16 reg
  let buf := [ROLLBALL_DATA_ADDR, u8 devad, u8 (reg >>> 8), u8 reg]
  let cmdbuf := [ROLLBALL_CMD_ADDR, ROLLBALL_CMD_READ]
  let msgs : List i2c_msg := [⟨0x51, 0, 4, buf⟩, ⟨0x51, 0, 2, cmdbuf⟩]
  let r := i2c_transfer_rollball bus w msgs
  if r.1 < 0 then (r.1, r.2.2)
  else
    let cmd_addr := [ROLLBALL_CMD_ADDR]
    let msgs : List i2c_msg := [⟨0x51, 0, 1, cmd_addr⟩, ⟨0x51, I2C_M_RD, 6, []⟩]
    i2c_mii_read_rollball_poll bus msgs 10 r.2.2

/-- The function `i2c_mii_init_rollball`: one write message
`[0x7b, 0xff, 0xff, 0xff, 0xff]` to `0x51`. -/
def i2c_mii_init_rollball {σ : Type} (bus : Bus σ) (w : World σ) : Int × World σ :=
  let data := [ROLLBALL_PWD_ADDR, 0xff, 0xff, 0xff, 0xff]
  let msgs : List i2c_msg := [⟨0x51, 0, 5, data⟩]
  let r := i2c_transfer bus w msgs
  if r.1 < 0 then (r.1, r.2.2)
  else (0, r.2.2)

/-! ## Integrity: checksums -/

/-- The loop `for (c = start; c <= end; c++)` of `checksum`, with `n` iterations
left; gives the result of the failing read (or `0`), and `c` and `sum` at the
exit of the loop. -/
def checksum_loop {σ : Type} (bus : Bus σ) :
    Nat → Nat → Nat → World σ → Int × Nat × Nat × World σ
  | 0, c, sum, w => (0, c, sum, w)
  | n + 1, c, sum, w =>
    let res := i2c_read_byte bus w 0x50 c
    if res.1 < 0 then (res.1, c, sum, res.2)
    else checksum_loop bus n (c + 1) ((sum + res.1.toNat) &&& 0xff) res.2

/-- The function `checksum`; `start` and `end` are the non-negative constants
its callers pass. -/
def checksum {σ : Type} (bus : Bus σ) (w : World σ) (start end_ : Nat) (fix : Bool) :
    Int × World σ :=
  let l := checksum_loop bus (end_ + 1 - start) start 0 w
  if l.1 < 0 then (l.1, l.2.2.2)
  else
    let c := l.2.1
    let sum := l.2.2.1
    let res := i2c_read_byte bus l.2.2.2 0x50 c
    if res.1 < 0 then (res.1, res.2)
    else if res.1 = (sum : Int) then
      (0, { res.2 with out := res.2.out ++ [Out.checksum_matched start end_ sum] })
    else
      let w1 : World σ :=
        { res.2 with out := res.2.out ++ [Out.checksum_failed start end_ res.1.toNat sum] }
      if fix then
        let w2 : World σ := { w1 with out := w1.out ++ [Out.writing_checksum sum] }
        let res := i2c_write_byte bus w2 0x50 c sum
        if res.1 < 0 then (res.1, res.2)
        else (0, res.2)
      else (0, w1)

/-- The function `checksums`. -/
def checksums {σ : Type} (bus : Bus σ) (w : World σ) (fix : Bool) : Int × World σ :=
  let res := checksum bus w 0x0 0x3e fix
  if res.1 < 0 then (res.1, res.2)
  else
    let res := checksum bus res.2 0x40 0x5e fix
    if res.1 < 0 then (res.1, res.2)
    else (0, res.2)

/-! ## EEPROM fields and password -/

/-- The loop `for (c = start; c < (start + size); c++)` of `fillstring`, with
`n` iterations left; `str` holds the bytes of the C string before its NUL, so
`strlen(str)` is its length. -/
def fillstring_loop {σ : Type} (bus : Bus σ) (str : List Nat) :
    Nat → Nat → Nat → World σ → Int × World σ
  | 0, _, _, w => (0, w)
  | n + 1, c, i, w =>
    let val := if i < str.length then str.getD i 0 else 0x20
    let i := if i < str.length then i + 1 else i
    let res := i2c_write_byte bus w 0x50 c val
    if res.1 < 0 then (res.1, res.2)
    else fillstring_loop bus str n (c + 1) i res.2

/-- The function `fillstring`. -/
def fillstring {σ : Type} (bus : Bus σ) (w : World σ) (str : List Nat) (start size : Nat) :
    Int × World σ :=
  fillstring_loop bus str size start 0 w

/-- The function `fillpassword`. -/
def fillpassword {σ : Type} (bus : Bus σ) (w : World σ) (pw : Nat) : Int × World σ :=
  let pw := u32 pw
  let res := i2c_write_byte bus w 0x51 0x7b ((pw >>> 24) &&& 0xff)
  if res.1 < 0 then (res.1, res.2)
  else
    let res := i2c_write_byte bus res.2 0x51 0x7c ((pw >>> 16) &&& 0xff)
    if res.1 < 0 then (res.1, res.2)
    else
      let res := i2c_write_byte bus res.2 0x51 0x7d ((pw >>> 8) &&& 0xff)
      if res.1 < 0 then (res.1, res.2)
      else
        let res := i2c_write_byte bus res.2 0x51 0x7e (pw &&& 0xff)
        if res.1 < 0 then (res.1, res.2)
        else (0, res.2)

/-- The function `rbpassword`; `pw` is the content of `*pw` at the call, the
second component of the result its content at the return.  The shifts of the
`int` result of a read wrap to 32 bits (two's complement) when they are stored
in the `uint32_t`. -/
def rbpassword {σ : Type} (bus : Bus σ) (w : World σ) (pw : Nat) : Int × Nat × World σ :=
  let saved_page := i2c_read_byte bus w 0x51 0x7f
  if saved_page.1 < 0 then (saved_page.1, pw, saved_page.2)
  else
    let res := i2c_write_byte bus saved_page.2 0x51 0x7f 0x03
    if res.1 < 0 then (res.1, pw, res.2)
    else
      let pw := 0
      let res := i2c_read_byte bus res.2 0x51 0xfc
      let pw := pw ||| int_to_u32 (res.1 * 2 ^ 24)
      let res := i2c_read_byte bus res.2 0x51 0xfd
      let pw := pw ||| int_to_u32 (res.1 * 2 ^ 16)
      let res := i2c_read_byte bus res.2 0x51 0xfe
      let pw := pw ||| int_to_u32 (res.1 * 2 ^ 8)
      let res := i2c_read_byte bus res.2 0x51 0xff
      let pw := pw ||| int_to_u32 res.1
      let res := i2c_write_byte bus res.2 0x51 0x7f saved_page.1.toNat
      (res.1, pw, res.2)

/-! ## Brute force -/

/-- The function `bfread_1`. -/
def bfread_1 {σ : Type} (bus : Bus σ) (w : World σ) : Int × World σ :=
  i2c_read_byte bus w 0x50 0x14

/-- The function `bfwrite_1`. -/
def bfwrite_1 {σ : Type} (bus : Bus σ) (w : World σ) (value : Int) : Int × World σ :=
  i2c_write_byte bus w 0x50 0x14 (int_to_u8 value)

/-- The function `bfmod_1`. -/
def bfmod_1 (value : Int) : Int := Int.xor value 1

/-- The function `bfread_2`. -/
def bfread_2 {σ : Type} (bus : Bus σ) (w : World σ) : Int × World σ :=
  i2c_mii_read_default_c22 bus w 0x50 0x14

/-- The function `bfwrite_2`. -/
def bfwrite_2 {σ : Type} (bus : Bus σ) (w : World σ) (value : Int) : Int × World σ :=
  i2c_mii_write_default_c22 bus w 0x56 8 (int_to_u16 value)

/-- The function `bfmod_2`. -/
def bfmod_2 (value : Int) : Int := Int.xor value 0x20

/-- The loop `for (d = min; d <= max; d++)` of `bruteforcepart`, with `n`
iterations left; `some r` when the function returns `r` from inside the loop. -/
def bruteforcepart_d {σ : Type} (bus : Bus σ) (value : Int) (check : Bool)
    (bfread : Bus σ → World σ → Int × World σ)
    (bfwrite : Bus σ → World σ → Int → Int × World σ) (c : Nat) :
    Nat → Nat → World σ → Option Int × World σ
  | 0, _, w => (none, w)
  | n + 1, d, w =>
    let res := i2c_write_byte bus w 0x51 0x7e d
    if res.1 < 0 then (some res.1, res.2)
    else
      let res := bfwrite bus res.2 value
      if res.1 < 0 then (some res.1, res.2)
      else if check then
        let res := bfread bus res.2
        if res.1 < 0 then (some res.1, res.2)
        else if res.1 = value then
          (some 1, { res.2 with out := res.2.out ++ [Out.readback_matched c d] })
        else bruteforcepart_d bus value check bfread bfwrite c n (d + 1) res.2
      else bruteforcepart_d bus value check bfread bfwrite c n (d + 1) res.2

/-- The loop `for (c = min; c <= max; c++)` of `bruteforcepart`, with `n`
iterations left. -/
def bruteforcepart_c {σ : Type} (bus : Bus σ) (value : Int) (check : Bool) (min max : Nat)
    (bfread : Bus σ → World σ → Int × World σ)
    (bfwrite : Bus σ → World σ → Int → Int × World σ) :
    Nat → Nat → World σ → Option Int × World σ
  | 0, _, w => (none, w)
  | n + 1, c, w =>
    let res := i2c_write_byte bus w 0x51 0x7d c
    if res.1 < 0 then (some res.1, res.2)
    else
      let r := bruteforcepart_d bus value check bfread bfwrite c (max + 1 - min) min res.2
      match r.1 with
      | some v => (some v, r.2)
      | none => bruteforcepart_c bus value check min max bfread bfwrite n (c + 1) r.2

/-- The function `bruteforcepart`; `min` and `max` are bytes (`main` accepts
`0x00..0xff` only). -/
def bruteforcepart {σ : Type} (bus : Bus σ) (w : World σ) (value : Int) (check : Bool)
    (min max : Nat)
    (bfread : Bus σ → World σ → Int × World σ)
    (bfwrite : Bus σ → World σ → Int → Int × World σ)
    (_bfmod : Int → Int) : Int × World σ :=
  let r := bruteforcepart_c bus value check min max bfread bfwrite (max + 1 - min) min w
  match r.1 with
  | some v => (v, r.2)
  | none =>
    if !check then
      let res := bfread bus r.2
      if res.1 < 0 then (res.1, res.2)
      else if res.1 = value then
        (1, { res.2 with out := res.2.out ++ [Out.readback_somewhere] })
      else (0, res.2)
    else (0, r.2)

/-- The loop `for (b = sb; b <= max; b++)` of `runbruteforce`, with `n`
iterations left; `some r` when the function returns `r` from inside the loop. -/
def runbruteforce_b {σ : Type} (bus : Bus σ) (orig : Int) (min max : Nat)
    (bfread : Bus σ → World σ → Int × World σ)
    (bfwrite : Bus σ → World σ → Int → Int × World σ)
    (bfmod : Int → Int) (a : Nat) :
    Nat → Nat → World σ → Option Int × World σ
  | 0, _, w => (none, w)
  | n + 1, b, w =>
    let res := i2c_write_byte bus w 0x51 0x7c b
    if res.1 < 0 then (some res.1, res.2)
    else
      let w1 : World σ := { res.2 with out := res.2.out ++
        [Out.checking a b (1 + (a - min) * (1 + max - min) + (b - min))
          ((1 + max - min) * (1 + max - min))] }
      let res := bruteforcepart bus w1 (bfmod orig) false min max bfread bfwrite bfmod
      if res.1 < 0 then (some res.1, res.2)
      else if res.1 = 1 then
        let res := bruteforcepart bus res.2 orig true min max bfread bfwrite bfmod
        if res.1 < 0 then (some res.1, res.2)
        else (some 1, res.2)
      else runbruteforce_b bus orig min max bfread bfwrite bfmod a n (b + 1) res.2

/-- The loop `for (a = sa; a <= max; a++)` of `runbruteforce`, with `n`
iterations left. -/
def runbruteforce_a {σ : Type} (bus : Bus σ) (orig : Int) (min max sb : Nat)
    (bfread : Bus σ → World σ → Int × World σ)
    (bfwrite : Bus σ → World σ → Int → Int × World σ)
    (bfmod : Int → Int) :
    Nat → Nat → World σ → Option Int × World σ
  | 0, _, w => (none, w)
  | n + 1, a, w =>
    let res := i2c_write_byte bus w 0x51 0x7b a
    if res.1 < 0 then (some res.1, res.2)
    else
      let r := runbruteforce_b bus orig min max bfread bfwrite bfmod a (max + 1 - sb) sb res.2
      match r.1 with
      | some v => (some v, r.2)
      | none => runbruteforce_a bus orig min max sb bfread bfwrite bfmod n (a + 1) r.2

/-- The function `runbruteforce`; `min` and `max` are bytes (`main` accepts
`0x00..0xff` only). -/
def runbruteforce {σ : Type} (bus : Bus σ) (w : World σ) (start min max : Nat)
    (bfread : Bus σ → World σ → Int × World σ)
    (bfwrite : Bus σ → World σ → Int → Int × World σ)
    (bfmod : Int → Int) : Int × World σ :=
  let start := u32 start
  let max := if max < min then min else max
  let sa := u8 (start >>> 24)
  let sa := if sa < min ∨ sa > max then u8 min else sa
  let sb := u8 (start >>> 16)
  let sb := if sb < min ∨ sb > max then u8 min else sb
  let orig := bfread bus w
  if orig.1 < 0 then (orig.1, orig.2)
  else
    let r := runbruteforce_a bus orig.1 min max sb bfread bfwrite bfmod (max + 1 - sa) sa orig.2
    match r.1 with
    | some v => (v, r.2)
    | none => (0, r.2)

/-! ## The commands of `main`

Each command is the branch of `main` for it.  What `main` does before it
reaches the branch (`getopt`, the sysfs files, `open`) issues no exchange on
the bus and is left out; the words of the command line come in as what the
branch reads from them. -/

/-- What `strtol(arg, &end, 0)` gives for one word of the command line: the
number, a `long`, and whether `*end` is non-zero (the word is not a number to
its end). -/
structure strtol_result where
  value : Int
  rest : Bool
deriving DecidableEq, Repr

/-- The messages of `exithelp` and `exiterror`. -/
inductive Fatal where
  /-- The text `"Error: Not enough arguments!!\n"`. -/
  | not_enough_arguments
  /-- The text `"Error: bus address is not a number!\n"`. -/
  | bus_address_not_a_number
  /-- The text `"Error: dregister invalid!\n"`. -/
  | dregister_invalid
  /-- The text `"Error: value invalid!\n"`. -/
  | value_invalid
  /-- The text `"Error: device address is not a number!\n"`. -/
  | device_address_not_a_number
  /-- The text `"Error: Cannot fill in password!\n"`. -/
  | cannot_fill_in_password
deriving DecidableEq, Repr

/-- How a command ends: `exithelp(str)` (message, usage, `exit(1)`),
`exiterror(str)` (message, `exit(1)`), or the `exit(0)` at the end of `main`,
which is reached also after a failed bus access (a line on stderr only). -/
inductive Exit where
  | exithelp (str : Fatal)
  | exiterror (str : Fatal)
  | exit0
deriving DecidableEq, Repr

/-- The branch of `main` for the command `byte`; `nargs` is `argc - optind`,
`mode` the first character of `argv[optind+2]`, `value0` the content of the
uninitialised variable `value`.  The variables `busaddr`, `dregister` and
`value` are `int`: each holds the `long` of `strtol` converted to `int`. -/
def main_byte {σ : Type} (bus : Bus σ) (w : World σ) (nargs : Nat) (mode : Char)
    (verify : Bool) (busaddr dregister value : strtol_result) (value0 : Int) :
    Exit × World σ :=
  if nargs < 5 then (Exit.exithelp Fatal.not_enough_arguments, w)
  else if busaddr.rest ∨ long_to_int busaddr.value < 0 then
    (Exit.exithelp Fatal.bus_address_not_a_number, w)
  else if dregister.rest ∨ long_to_int dregister.value < 0 ∨
      long_to_int dregister.value > 0xff then
    (Exit.exithelp Fatal.dregister_invalid, w)
  else
    let after (value : Int) (w : World σ) : Exit × World σ :=
      if verify then
        let res := i2c_read_byte bus w (long_to_int busaddr.value).toNat
          (long_to_int dregister.value).toNat
        if res.1 < 0 then (Exit.exit0, res.2)
        else if res.1 ≠ value then
          (Exit.exit0, { res.2 with out := res.2.out ++ [Out.verify_mismatch value res.1] })
        else (Exit.exit0, { res.2 with out := res.2.out ++ [Out.verify_matched value] })
      else (Exit.exit0, w)
    if mode = 'r' then
      let res := i2c_read_byte bus w (long_to_int busaddr.value).toNat
        (long_to_int dregister.value).toNat
      if res.1 < 0 then after value0 res.2
      else after value0 { res.2 with out := res.2.out ++ [Out.read_value res.1] }
    else if mode = 'w' then
      if nargs < 6 then (Exit.exithelp Fatal.not_enough_arguments, w)
      else if value.rest ∨ long_to_int value.value < 0 ∨ long_to_int value.value > 0xff then
        (Exit.exithelp Fatal.value_invalid, w)
      else
        let res := i2c_write_byte bus w (long_to_int busaddr.value).toNat
          (long_to_int dregister.value).toNat (long_to_int value.value).toNat
        after (long_to_int value.value) res.2
    else after value0 w

/-- The branch of `main` for the commands `c22m` and `c22r`; `rollball` says
that the fourth character of the command is `r`.  The variables `busaddr`,
`dregister` and `value` are `int`: each holds the `long` of `strtol` converted
to `int`. -/
def main_c22 {σ : Type} (bus : Bus σ) (w : World σ) (nargs : Nat) (rollball : Bool)
    (mode : Char) (busaddr dregister value : strtol_result) : Exit × World σ :=
  if nargs < 5 then (Exit.exithelp Fatal.not_enough_arguments, w)
  else if busaddr.rest ∨ long_to_int busaddr.value < 0 then
    (Exit.exithelp Fatal.bus_address_not_a_number, w)
  else if dregister.rest ∨ long_to_int dregister.value < 0 ∨
      long_to_int dregister.value > 0x1f then
    (Exit.exithelp Fatal.dregister_invalid, w)
  else
    let dregister : Int :=
      if rollball then long_to_int dregister.value * 2 else long_to_int dregister.value
    if mode = 'r' then
      let res := i2c_mii_read_default_c22 bus w (long_to_int busaddr.value).toNat dregister.toNat
      if res.1 < 0 then (Exit.exit0, res.2)
      else (Exit.exit0, { res.2 with out := res.2.out ++ [Out.read_value res.1] })
    else if mode = 'w' then
      if nargs < 6 then (Exit.exithelp Fatal.not_enough_arguments, w)
      else if value.rest ∨ long_to_int value.value < 0 ∨
          long_to_int value.value > 0xffff then
        (Exit.exithelp Fatal.value_invalid, w)
      else
        let res := i2c_mii_write_default_c22 bus w (long_to_int busaddr.value).toNat
          dregister.toNat (long_to_int value.value).toNat
        (Exit.exit0, res.2)
    else (Exit.exit0, w)

/-- The branch of `main` for the command `c45`.  The variables `busaddr`,
`devad`, `dregister` and `value` are `int`: each holds the `long` of `strtol`
converted to `int`. -/
def main_c45 {σ : Type} (bus : Bus σ) (w : World σ) (nargs : Nat)
    (mode : Char) (busaddr devad dregister value : strtol_result) : Exit × World σ :=
  if nargs < 6 then (Exit.exithelp Fatal.not_enough_arguments, w)
  else if busaddr.rest ∨ long_to_int busaddr.value < 0 then
    (Exit.exithelp Fatal.bus_address_not_a_number, w)
  else if devad.rest ∨ long_to_int devad.value < 0 ∨ long_to_int devad.value > 0x1f then
    (Exit.exithelp Fatal.device_address_not_a_number, w)
  else if dregister.rest ∨ long_to_int dregister.value < 0 ∨
      long_to_int dregister.value > 0xffff then
    (Exit.exithelp Fatal.dregister_invalid, w)
  else if mode = 'r' then
    let res := i2c_mii_read_default_c45 bus w (long_to_int busaddr.value).toNat
      (long_to_int devad.value).toNat (long_to_int dregister.value).toNat
    if res.1 < 0 then (Exit.exit0, res.2)
    else (Exit.exit0, { res.2 with out := res.2.out ++ [Out.read_value res.1] })
  else if mode = 'w' then
    if nargs < 7 then (Exit.exithelp Fatal.not_enough_arguments, w)
    else if value.rest ∨ long_to_int value.value < 0 ∨ long_to_int value.value > 0xffff then
      (Exit.exithelp Fatal.value_invalid, w)
    else
      let res := i2c_mii_write_default_c45 bus w (long_to_int busaddr.value).toNat
        (long_to_int devad.value).toNat (long_to_int dregister.value).toNat
        (long_to_int value.value).toNat
      (Exit.exit0, res.2)
  else (Exit.exit0, w)

/-- The branch of `main` for the command `eepromfix`; `password` is the
number of the option `-p` when it is given (`password_hex` is it
`& 0xffffffff`), `extcc` the number of `-E` (`extcc_hex` is it `& 0xff`),
`vendorname` and `vendorpn` the strings of `-V` and `-N`. -/
def main_eepromfix {σ : Type} (bus : Bus σ) (w : World σ) (password : Option Nat)
    (vendorname vendorpn : Option (List Nat)) (extcc : Option Nat) : Exit × World σ :=
  let w := (checksums bus w false).2
  let p : Nat × World σ :=
    match password with
    | some password_hex => (u32 password_hex, w)
    | none =>
      let r := rbpassword bus w 0
      (r.2.1, { r.2.2 with out := r.2.2.out ++ [Out.rollball_password r.2.1] })
  let password_hex := p.1
  let res := fillpassword bus p.2 password_hex
  if res.1 < 0 then (Exit.exiterror Fatal.cannot_fill_in_password, res.2)
  else
    let w := res.2
    let w : World σ :=
      match vendorname with
      | some str =>
        let r := fillstring bus w str 20 16
        { r.2 with out := r.2.out ++ [Out.changed_vendor_name str] }
      | none => w
    let w : World σ :=
      match extcc with
      | some extcc_hex =>
        let r := i2c_write_byte bus w 0x50 36 (extcc_hex % 256)
        { r.2 with out := r.2.out ++ [Out.changed_ext_cc (extcc_hex % 256)] }
      | none => w
    let w : World σ :=
      match vendorpn with
      | some str =>
        let r := fillstring bus w str 40 16
        { r.2 with out := r.2.out ++ [Out.changed_vendor_pn str] }
      | none => w
    let w := (checksums bus w true).2
    let w := (fillpassword bus w 0xffffffff).2
    (Exit.exit0, w)

/-! ## Fake buses

Test doubles for the environment: a byte-addressable store with an
auto-incrementing address pointer per chip, on which every exchange succeeds;
the same store with a scripted status region for the rollball engine; and a bus
that plays back a list of results. -/

/-- A deterministic byte store: the content of every chip (`mem addr offset`)
and the address pointer of every chip. -/
structure Eeprom where
  mem : Nat → Nat → Nat
  ptr : Nat → Nat

/-- The byte a read of `addr:reg` delivers. -/
def Eeprom.peek (e : Eeprom) (addr reg : Nat) : Nat := u8 (e.mem addr reg)

/-- Set the address pointer of chip `a`. -/
def Eeprom.seek (e : Eeprom) (a reg : Nat) : Eeprom :=
  { e with ptr := fun a' => if a' = a then u8 reg else e.ptr a' }

/-- Store one byte at the address pointer of chip `a` and advance the pointer. -/
def Eeprom.store (e : Eeprom) (a b : Nat) : Eeprom :=
  { mem := fun a' r => if a' = a ∧ r = e.ptr a then u8 b else e.mem a' r
    ptr := fun a' => if a' = a then u8 (e.ptr a + 1) else e.ptr a' }

/-- One message on the store: a write message sets the pointer from its first
byte and stores the others; a read message delivers `len` bytes from the
pointer on.  Gives the buffer after the message. -/
def Eeprom.msg (e : Eeprom) (m : i2c_msg) : List Nat × Eeprom :=
  if m.flags = I2C_M_RD then
    ((List.range m.len).map (fun i => e.peek m.addr (u8 (e.ptr m.addr + i))),
      e.seek m.addr (e.ptr m.addr + m.len))
  else
    match m.buf with
    | [] => (m.buf, e)
    | reg :: data => (m.buf, data.foldl (fun e b => e.store m.addr b) (e.seek m.addr reg))

/-- The messages of one exchange, in order. -/
def Eeprom.exchange (e : Eeprom) : List i2c_msg → List (List Nat) × Eeprom
  | [] => ([], e)
  | m :: ms =>
    let r := e.msg m
    let rs := r.2.exchange ms
    (r.1 :: rs.1, rs.2)

/-- The store as a bus: every exchange succeeds with the number of messages. -/
def eepromBus : Bus Eeprom :=
  ⟨fun e msgs => let r := e.exchange msgs; (⟨(msgs.length : Nat), 0, r.1⟩, r.2)⟩

/-- A rollball module: the store, and how many reads of the command region
`0x51:0x80` it has served. -/
structure RollballDev where
  ee : Eeprom
  polls : Nat

/-- An exchange that reads from `0x51:0x80`: write message `[0x80]` then a read
message, both to `0x51`. -/
def isStatusRead : List i2c_msg → Bool
  | [a, b] =>
    a.addr == 0x51 && a.flags == 0 && a.buf == [ROLLBALL_CMD_ADDR] &&
      b.addr == 0x51 && b.flags == I2C_M_RD
  | _ => false

/-- The number of reads from `0x51:0x80` among the exchanges of a log. -/
def pollCount (log : List (List i2c_msg)) : Nat := (log.filter isStatusRead).length

/-- The rollball fake: the `n`-th read of the command region (from 0) delivers
the first `len` bytes of `resp n`; every other exchange goes to the store;
every exchange succeeds. -/
def rollballBus (resp : Nat → List Nat) : Bus RollballDev :=
  ⟨fun d msgs =>
    if isStatusRead msgs then
      (⟨2, 0, [[ROLLBALL_CMD_ADDR],
          (List.range (msgs.getD 1 ⟨0, 0, 0, []⟩).len).map
            (fun i => u8 ((resp d.polls).getD i 0))]⟩,
        { d with polls := d.polls + 1 })
    else
      let r := eepromBus.ioctl d.ee msgs
      (r.1, { d with ee := r.2 })⟩

/-- The content of the page register `0x51:0x7f` of the rollball fake. -/
def RollballDev.page (d : RollballDev) : Nat := d.ee.peek 0x51 0x7f

/-- A bus that plays back a list of results, one per exchange, and succeeds
with no data once the list is used up. -/
def scriptBus : Bus (List ioctl_result) :=
  ⟨fun s msgs =>
    match s with
    | [] => (⟨(msgs.length : Nat), 0, []⟩, [])
    | r :: rest => (r, rest)⟩

/-- A paged module: the page register `0x51:0x7f` and, for every page, the
bytes of the upper half `0x51:0x80..0xff`. -/
structure PagedDev where
  page : Nat
  upper : Nat → Nat → Nat

/-- The paged fake: a read of `0x51:0x7f` gives the page register, a read of
`0x51:reg` with `reg ≥ 0x80` the byte of the selected page, a write of
`0x51:0x7f` sets the page register; every exchange succeeds. -/
def pagedBus : Bus PagedDev :=
  ⟨fun d msgs =>
    match msgs with
    | [⟨0x51, 0, _, [reg]⟩, ⟨0x51, _, _, _⟩] =>
      (⟨2, 0, [[reg], [if reg = 0x7f then u8 d.page
                      else if 0x80 ≤ reg then u8 (d.upper d.page reg) else 0]]⟩, d)
    | [⟨0x51, 0, _, [0x7f, val]⟩] => (⟨1, 0, [[0x7f, val]]⟩, { d with page := u8 val })
    | _ => (⟨(msgs.length : Nat), 0, msgs.map (fun m => m.buf)⟩, d)⟩

/-- The locked fake: the byte store, on which an exchange that writes data to
the chip `0x50` takes effect only while the four password registers
`0x51:0x7b..0x7e` hold `p0, p1, p2, p3`; every exchange succeeds. -/
def lockBus (p0 p1 p2 p3 : Nat) : Bus Eeprom :=
  ⟨fun e msgs =>
    if msgs.any (fun m => m.addr == 0x50 && m.flags != I2C_M_RD && decide (1 < m.buf.length))
        && !(e.peek 0x51 0x7b == p0 && e.peek 0x51 0x7c == p1 &&
             e.peek 0x51 0x7d == p2 && e.peek 0x51 0x7e == p3) then
      (⟨(msgs.length : Nat), 0, msgs.map (fun m => m.buf)⟩, e)
    else eepromBus.ioctl e msgs⟩

/-- An exchange that writes to a device register: one of its write messages
carries bytes after the register address. -/
def writesData (t : List i2c_msg) : Bool :=
  t.any (fun m => m.flags != I2C_M_RD && decide (1 < m.buf.length))

/-! ## Definitions used in the statements -/

/-- A script for C3: page save and page select succeed (page 0 is read), the main
exchange fails with `EIO` (5) and the restore write fails with `EREMOTEIO` (121). -/
def bothFailScript : List ioctl_result :=
  [⟨2, 0, [[0x7f], [0]]⟩, ⟨1, 0, [[0x7f, 3]]⟩, ⟨-1, 5, []⟩, ⟨-1, 121, []⟩]

/-- A script for C4: the page-save read succeeds and reads page 5, the
page-select write fails with `EIO` (5). -/
def selectFailScript : List ioctl_result :=
  [⟨2, 0, [[0x7f], [5]]⟩, ⟨-1, 5, []⟩]

/-- A script on which the first exchange fails with `EIO` (5). -/
def firstFailScript : List ioctl_result := [⟨-1, 5, []⟩]

/-- The exchanges of a log that write data to a device register. -/
def dataWrites (log : List (List i2c_msg)) : List (List i2c_msg) := log.filter writesData

/-- The bytes at `0x50:c`, ..., `0x50:c+n-1` of the store. -/
def regionBytes (e : Eeprom) (c n : Nat) : List Nat :=
  (List.range n).map (fun i => e.peek 0x50 (c + i))

/-- The checksum byte of the region `[start, end]` of the store is the sum of
its bytes modulo 256. -/
def regionOk (e : Eeprom) (start end_ : Nat) : Prop :=
  e.peek 0x50 (end_ + 1) = (regionBytes e start (end_ + 1 - start)).sum % 256

/-- The store of the end-to-end scenario: bytes `0x00..0x3E` are `0x01`, byte
`0x3F` is `b3f`, the other bytes are 0. -/
def scenario (b3f : Nat) : World Eeprom :=
  ⟨⟨fun _ r => if r ≤ 0x3e then 0x01 else if r = 0x3f then b3f else 0, fun _ => 0⟩, [], []⟩

/-- The status byte of a response: its first byte, as a `uint8_t`. -/
def statusByte (bytes : List Nat) : Nat := u8 (bytes.getD 0 0)

/-- The exchange that polls the command region for `len` bytes. -/
def pollMsgs (len : Nat) : List i2c_msg :=
  [⟨0x51, 0, 1, [ROLLBALL_CMD_ADDR]⟩, ⟨0x51, I2C_M_RD, len, []⟩]

/-- A module whose third status read is DONE with the value `0x1234`; the page
register holds 2. -/
def doneOnThird : Nat → List Nat :=
  fun n => if n = 2 then [0x04, 0x00, 0x00, 0x00, 0x12, 0x34] else [0x01]

/-- A rollball module that has not been polled yet; every byte of its store,
the page register too, holds 2. -/
def freshModule : World RollballDev := ⟨⟨⟨fun _ _ => 2, fun _ => 0⟩, 0⟩, [], []⟩

/-- A module whose status byte is always 1 (never DONE). -/
def neverDone : Nat → List Nat := fun _ => [0x01]

/-- Byte `i` of a string field: the byte of the string, or a space after its
end. -/
def fieldByte (str : List Nat) (i : Nat) : Nat :=
  if i < str.length then str.getD i 0 else 0x20

/-- The world after the writes of the first `k` bytes of a string field, byte
`i` to `0x50:c` first, whatever their results. -/
def fieldPrefix {σ : Type} (bus : Bus σ) (str : List Nat) :
    Nat → Nat → Nat → World σ → World σ
  | 0, _, _, w => w
  | k + 1, c, i, w =>
    fieldPrefix bus str k (c + 1) (i + 1) (i2c_write_byte bus w 0x50 c (fieldByte str i)).2

/-- A script for C16: two exchanges succeed, the third fails with `EIO` (5). -/
def thirdFailScript : List ioctl_result := [⟨1, 0, []⟩, ⟨1, 0, []⟩, ⟨-1, 5, []⟩]

/-- The exchanges that write bytes `i, i+1, ..., i+k-1` of a string field to
`0x50:c, c+1, ...`, in this order. -/
def fieldWrites (str : List Nat) (c i k : Nat) : List (List i2c_msg) :=
  (List.range k).map (fun t => [⟨0x50, 0, 2, [u8 (c + t), u8 (fieldByte str (i + t))]⟩])

/-- A paged module on page 2 whose page 3 holds `0x92, 0x34, 0x56, 0x78` at
`0xfc..0xff`. -/
def pagedModule : World PagedDev :=
  ⟨⟨2, fun p r => if p = 3 then
      (if r = 0xfc then 0x92 else if r = 0xfd then 0x34 else if r = 0xfe then 0x56
        else if r = 0xff then 0x78 else 0) else 0⟩, [], []⟩

/-- A script for C12: page save (page 0) and page select succeed, the read of
`0x51:0xfc` fails with `EIO` (5), the reads of `0xfd, 0xfe, 0xff` give
`0x34, 0x56, 0x78`, the restore write succeeds. -/
def readFailScript : List ioctl_result :=
  [⟨2, 0, [[0x7f], [0]]⟩, ⟨1, 0, []⟩, ⟨-1, 5, []⟩, ⟨2, 0, [[0xfd], [0x34]]⟩,
    ⟨2, 0, [[0xfe], [0x56]]⟩, ⟨2, 0, [[0xff], [0x78]]⟩, ⟨1, 0, []⟩]

/-- A script for C17: the first 100 exchanges succeed (the reads deliver 0), the
next one fails with `EIO` (5), the others succeed. -/
def fieldFailScript : List ioctl_result :=
  List.replicate 100 ⟨2, 0, []⟩ ++ [⟨-1, 5, []⟩]

/-- An exchange that writes the second password byte: one write message
`[0x7c, b]` to `0x51`.  Every iteration of the loop over `b` in `runbruteforce`
starts with one. -/
def isOuterStep : List i2c_msg → Bool
  | [m] => m.addr == 0x51 && m.flags == 0 && m.buf.length == 2 && m.buf.head? == some 0x7c
  | _ => false

/-- An exchange of `bfwrite_1`: one write message `[0x14, value]` to `0x50`. -/
def isOracleWrite_1 : List i2c_msg → Bool
  | [m] => m.addr == 0x50 && m.flags == 0 && m.buf.length == 2 && m.buf.head? == some 0x14
  | _ => false

/-- An exchange of `bfwrite_2`: one write message `[8, hi, lo]` to `0x56`. -/
def isOracleWrite_2 : List i2c_msg → Bool
  | [m] => m.addr == 0x56 && m.flags == 0 && m.buf.length == 3 && m.buf.head? == some 8
  | _ => false

/-- The number of exchanges of a log with the property `p`. -/
def countIn (p : List i2c_msg → Bool) (log : List (List i2c_msg)) : Nat :=
  (log.filter p).length

/-- The values of the second password byte written to `0x51:0x7c`, in order. -/
def outerSteps (log : List (List i2c_msg)) : List Nat :=
  (log.filter isOuterStep).map (fun t => (t.headD ⟨0, 0, 0, []⟩).buf.getD 1 0)

/-- A store whose bytes are all 0. -/
def zeroStore : World Eeprom := ⟨⟨fun _ _ => 0, fun _ => 0⟩, [], []⟩

/-- What the pieces of the brute force add to the count of the exchanges with
the property `p`: nothing for a write of the first, third or fourth password
byte and for a read of the oracle, at most `β` for a write of the second
password byte, at most `ω` for a write of the oracle. -/
structure Budget {σ : Type} (bus : Bus σ) (bfread : Bus σ → World σ → Int × World σ)
    (bfwrite : Bus σ → World σ → Int → Int × World σ) (p : List i2c_msg → Bool)
    (β ω : Nat) : Prop where
  pw : ∀ (w : World σ) (r v : Nat), r = 0x7b ∨ r = 0x7d ∨ r = 0x7e →
    countIn p (i2c_write_byte bus w 0x51 r v).2.log ≤ countIn p w.log
  pb : ∀ (w : World σ) (v : Nat),
    countIn p (i2c_write_byte bus w 0x51 0x7c v).2.log ≤ countIn p w.log + β
  rd : ∀ (w : World σ), countIn p (bfread bus w).2.log ≤ countIn p w.log
  wr : ∀ (w : World σ) (v : Int), countIn p (bfwrite bus w v).2.log ≤ countIn p w.log + ω

/-- What the brute force can see of the locked fake: the four password
registers `0x51:0x7b..0x7e` and the oracle register `0x50:0x14`. -/
def view (w : World Eeprom) : Nat × Nat × Nat × Nat × Nat :=
  (w.dev.peek 0x51 0x7b, w.dev.peek 0x51 0x7c, w.dev.peek 0x51 0x7d, w.dev.peek 0x51 0x7e,
    w.dev.peek 0x50 0x14)

/-- The frozen fake, a locked module: the byte store on which an exchange that
writes data to the chip `0x50` or to the chip `0x56`, the targets of
`bfwrite_1` and `bfwrite_2`, has no effect; every exchange succeeds. -/
def frozenBus : Bus Eeprom :=
  ⟨fun e msgs =>
    if msgs.any (fun m => (m.addr == 0x50 || m.addr == 0x56) && m.flags != I2C_M_RD &&
        decide (1 < m.buf.length)) then
      (⟨(msgs.length : Nat), 0, msgs.map (fun m => m.buf)⟩, e)
    else eepromBus.ioctl e msgs⟩

/-- A bus state property `inv` under which the oracle never changes: a write of
a password register and a write of the oracle succeed and keep `inv`, a read
of the oracle gives `orig` and keeps `inv`. -/
structure Frozen {σ : Type} (bus : Bus σ) (bfread : Bus σ → World σ → Int × World σ)
    (bfwrite : Bus σ → World σ → Int → Int × World σ) (inv : σ → Prop) (orig : Int) :
    Prop where
  pw : ∀ (w : World σ) (r v : Nat), inv w.dev →
    0 ≤ (i2c_write_byte bus w 0x51 r v).1 ∧ inv (i2c_write_byte bus w 0x51 r v).2.dev
  wr : ∀ (w : World σ) (v : Int), inv w.dev →
    0 ≤ (bfwrite bus w v).1 ∧ inv (bfwrite bus w v).2.dev
  rd : ∀ (w : World σ), inv w.dev →
    (bfread bus w).1 = orig ∧ inv (bfread bus w).2.dev

/-! ## Theorems -/

set_option maxRecDepth 100000

/-! ### The page bracket of `i2c_transfer_rollball` -/

theorem i2c_transfer_log {σ : Type} (bus : Bus σ) (w : World σ) (msgs : List i2c_msg) :
    (i2c_transfer bus w msgs).2.2.log = w.log ++ [msgs] := by
  simp only [i2c_transfer]
  split <;> rfl

theorem i2c_transfer_dev {σ : Type} (bus : Bus σ) (w : World σ) (msgs : List i2c_msg) :
    (i2c_transfer bus w msgs).2.2.dev = (bus.ioctl w.dev msgs).2 := by
  simp only [i2c_transfer]
  split <;> rfl

theorem i2c_transfer_out {σ : Type} (bus : Bus σ) (w : World σ) (msgs : List i2c_msg) :
    (i2c_transfer bus w msgs).2.2.out = w.out := by
  simp only [i2c_transfer]
  split <;> rfl

theorem i2c_write_byte_log {σ : Type} (bus : Bus σ) (w : World σ) (a r v : Nat) :
    (i2c_write_byte bus w a r v).2.log = w.log ++ [[⟨u8 a, 0, 2, [u8 r, u8 v]⟩]] := by
  simp [i2c_write_byte, i2c_transfer_log]

theorem i2c_read_byte_log {σ : Type} (bus : Bus σ) (w : World σ) (a r : Nat) :
    (i2c_read_byte bus w a r).2.log =
      w.log ++ [[⟨u8 a, 0, 1, [u8 r]⟩, ⟨u8 a, I2C_M_RD, 1, []⟩]] := by
  unfold i2c_read_byte
  simp only []
  split <;> simp [i2c_transfer_log]

/-- C3 (as amended): when page save and page select succeed, a failing restore
write is the result of `i2c_transfer_rollball` whatever the main exchange did;
the result of the main exchange is returned only when the restore write
succeeded. -/
theorem transfer_rollball_restore_result {σ : Type} (bus : Bus σ) (w : World σ)
    (msgs : List i2c_msg)
    (hsave : 0 ≤ (i2c_read_byte bus w 0x51 0x7f).1)
    (hsel : 0 ≤ (i2c_write_byte bus (i2c_read_byte bus w 0x51 0x7f).2 0x51 0x7f 0x03).1) :
    (i2c_transfer_rollball bus w msgs).1 =
      (let saved_page := i2c_read_byte bus w 0x51 0x7f
       let sel := i2c_write_byte bus saved_page.2 0x51 0x7f 0x03
       let main_res := i2c_transfer bus sel.2 msgs
       let restore := i2c_write_byte bus main_res.2.2 0x51 0x7f saved_page.1.toNat
       if restore.1 < 0 then restore.1 else main_res.1) := by
  unfold i2c_transfer_rollball
  simp only [not_lt.mpr hsave, not_lt.mpr hsel, if_false]
  split <;> rfl

theorem transfer_rollball_restore_result_witness :
    (i2c_transfer_rollball scriptBus ⟨bothFailScript, [], []⟩ [⟨0x51, 0, 2, [0x80, 1]⟩]).1 =
      (let saved_page := i2c_read_byte scriptBus ⟨bothFailScript, [], []⟩ 0x51 0x7f
       let sel := i2c_write_byte scriptBus saved_page.2 0x51 0x7f 0x03
       let main_res := i2c_transfer scriptBus sel.2 [⟨0x51, 0, 2, [0x80, 1]⟩]
       let restore := i2c_write_byte scriptBus main_res.2.2 0x51 0x7f saved_page.1.toNat
       if restore.1 < 0 then restore.1 else main_res.1) :=
  transfer_rollball_restore_result scriptBus ⟨bothFailScript, [], []⟩ _ (by decide) (by decide)

/-- C3 (as stated) fails: page save and page select succeed, the main exchange
fails with `-5` and the restore write with `-121`; `i2c_transfer_rollball`
returns `-121`, the error of the restore, not `-5`, the error of the main
exchange. -/
theorem transfer_rollball_both_fail_counterexample :
    let w0 : World (List ioctl_result) := ⟨bothFailScript, [], []⟩
    let msgs : List i2c_msg := [⟨0x51, 0, 2, [0x80, 1]⟩]
    let saved_page := i2c_read_byte scriptBus w0 0x51 0x7f
    let sel := i2c_write_byte scriptBus saved_page.2 0x51 0x7f 0x03
    let main_res := i2c_transfer scriptBus sel.2 msgs
    let restore := i2c_write_byte scriptBus main_res.2.2 0x51 0x7f saved_page.1.toNat
    0 ≤ saved_page.1 ∧ 0 ≤ sel.1 ∧ main_res.1 = -5 ∧ restore.1 = -121 ∧
      (i2c_transfer_rollball scriptBus w0 msgs).1 = -121 ∧
      (i2c_transfer_rollball scriptBus w0 msgs).1 ≠ main_res.1 := by
  decide

/-- C4 (as amended): when the page-save read succeeds, `i2c_transfer_rollball`
issues the page-select write; when that fails the call returns the error of
the select and nothing more is issued (no restore); when it succeeds the call
issues the main exchange and then, as its last exchange and whatever the main
exchange did, the write of the saved page back to `0x51:0x7f`. -/
theorem transfer_rollball_restore_attempted {σ : Type} (bus : Bus σ) (w : World σ)
    (msgs : List i2c_msg)
    (hsave : 0 ≤ (i2c_read_byte bus w 0x51 0x7f).1) :
    (i2c_transfer_rollball bus w msgs).2.2.log =
      (let saved_page := i2c_read_byte bus w 0x51 0x7f
       let sel := i2c_write_byte bus saved_page.2 0x51 0x7f 0x03
       let save_x : List i2c_msg := [⟨0x51, 0, 1, [0x7f]⟩, ⟨0x51, I2C_M_RD, 1, []⟩]
       let select_x : List i2c_msg := [⟨0x51, 0, 2, [0x7f, 0x03]⟩]
       let restore_x : List i2c_msg := [⟨0x51, 0, 2, [0x7f, u8 saved_page.1.toNat]⟩]
       if sel.1 < 0 then w.log ++ [save_x, select_x]
       else w.log ++ [save_x, select_x, msgs, restore_x]) ∧
    ((i2c_write_byte bus (i2c_read_byte bus w 0x51 0x7f).2 0x51 0x7f 0x03).1 < 0 →
      (i2c_transfer_rollball bus w msgs).1 =
        (i2c_write_byte bus (i2c_read_byte bus w 0x51 0x7f).2 0x51 0x7f 0x03).1 ∧
      (i2c_transfer_rollball bus w msgs).2.2 =
        (i2c_write_byte bus (i2c_read_byte bus w 0x51 0x7f).2 0x51 0x7f 0x03).2) ∧
    (0 ≤ (i2c_write_byte bus (i2c_read_byte bus w 0x51 0x7f).2 0x51 0x7f 0x03).1 →
      (i2c_transfer_rollball bus w msgs).2.2 =
        (i2c_write_byte bus
          (i2c_transfer bus
            (i2c_write_byte bus (i2c_read_byte bus w 0x51 0x7f).2 0x51 0x7f 0x03).2 msgs).2.2
          0x51 0x7f (i2c_read_byte bus w 0x51 0x7f).1.toNat).2) := by
  refine ⟨?_, ?_, ?_⟩
  · unfold i2c_transfer_rollball
    simp only [not_lt.mpr hsave, if_false]
    split
    · simp [i2c_write_byte_log, i2c_read_byte_log, u8]
    · split <;> simp [i2c_write_byte_log, i2c_read_byte_log, i2c_transfer_log, u8]
  · intro hsel
    unfold i2c_transfer_rollball
    simp only [not_lt.mpr hsave, if_false, hsel, if_true, and_self]
  · intro hsel
    unfold i2c_transfer_rollball
    simp only [not_lt.mpr hsave, not_lt.mpr hsel, if_false]
    split <;> rfl

theorem transfer_rollball_restore_attempted_witness :
    (i2c_transfer_rollball scriptBus ⟨bothFailScript, [], []⟩ [⟨0x51, 0, 2, [0x80, 1]⟩]).2.2.log =
      [[⟨0x51, 0, 1, [0x7f]⟩, ⟨0x51, I2C_M_RD, 1, []⟩], [⟨0x51, 0, 2, [0x7f, 0x03]⟩],
        [⟨0x51, 0, 2, [0x80, 1]⟩], [⟨0x51, 0, 2, [0x7f, 0]⟩]] ∧
    (i2c_transfer_rollball scriptBus ⟨selectFailScript, [], []⟩ [⟨0x51, 0, 2, [0x80, 1]⟩]).1 =
      -5 :=
  ⟨(transfer_rollball_restore_attempted scriptBus ⟨bothFailScript, [], []⟩
      [⟨0x51, 0, 2, [0x80, 1]⟩] (by decide)).1.trans (by decide),
    ((transfer_rollball_restore_attempted scriptBus ⟨selectFailScript, [], []⟩
      [⟨0x51, 0, 2, [0x80, 1]⟩] (by decide)).2.1 (by decide)).1.trans (by decide)⟩

/-- C4 (as stated) fails: the page-save read succeeds (page 5) and the
page-select write fails; `i2c_transfer_rollball` returns the error of the
select after these two exchanges, and no write of the saved page 5 to
`0x51:0x7f` was issued. -/
theorem transfer_rollball_no_restore_counterexample :
    let w0 : World (List ioctl_result) := ⟨selectFailScript, [], []⟩
    let msgs : List i2c_msg := [⟨0x51, 0, 2, [0x80, 1]⟩]
    (i2c_read_byte scriptBus w0 0x51 0x7f).1 = 5 ∧
      (i2c_transfer_rollball scriptBus w0 msgs).1 = -5 ∧
      (i2c_transfer_rollball scriptBus w0 msgs).2.2.log =
        [[⟨0x51, 0, 1, [0x7f]⟩, ⟨0x51, I2C_M_RD, 1, []⟩], [⟨0x51, 0, 2, [0x7f, 0x03]⟩]] ∧
      [(⟨0x51, 0, 2, [0x7f, 5]⟩ : i2c_msg)] ∉ (i2c_transfer_rollball scriptBus w0 msgs).2.2.log := by
  decide

/-! ### Failure of the first page save -/

/-- C5: when the first page-save read of `0x51:0x7f` fails with `e`, the rollball
write call and the rollball read call both return `e`; the only exchange they
issued is that read (its register-address message `[0x7f]` and its read
message, no message that writes data), and the bus is in the state that failed
exchange left. -/
theorem rollball_page_save_failure {σ : Type} (bus : Bus σ) (w : World σ)
    (devad reg val : Nat) (e : Int) (he : e < 0)
    (hfail : (i2c_transfer bus w
      [⟨0x51, 0, 1, [0x7f]⟩, ⟨0x51, I2C_M_RD, 1, []⟩]).1 = e) :
    let save_x : List i2c_msg := [⟨0x51, 0, 1, [0x7f]⟩, ⟨0x51, I2C_M_RD, 1, []⟩]
    let after : World σ :=
      { w with dev := (bus.ioctl w.dev save_x).2, log := w.log ++ [save_x] }
    i2c_mii_write_rollball bus w devad reg val = (e, after) ∧
      i2c_mii_read_rollball bus w devad reg = (e, after) ∧
      writesData save_x = false := by
  have hrb : i2c_read_byte bus w 0x51 0x7f =
      (e, ⟨(bus.ioctl w.dev [⟨0x51, 0, 1, [0x7f]⟩, ⟨0x51, I2C_M_RD, 1, []⟩]).2,
        w.log ++ [[⟨0x51, 0, 1, [0x7f]⟩, ⟨0x51, I2C_M_RD, 1, []⟩]], w.out⟩) := by
    have h1 : (i2c_read_byte bus w 0x51 0x7f).1 = e := by
      simp only [i2c_read_byte, u8] at hfail ⊢
      simp only [Nat.reduceMod] at hfail ⊢
      rw [hfail]; simp [he]
    have h2 := i2c_read_byte_log bus w 0x51 0x7f
    have h3 : (i2c_read_byte bus w 0x51 0x7f).2.dev = (bus.ioctl w.dev
              [⟨0x51, 0, 1, [0x7f]⟩, ⟨0x51, I2C_M_RD, 1, []⟩]).2 := by
      simp only [i2c_read_byte, u8, Nat.reduceMod]
      split <;> simp [i2c_transfer_dev]
    have h4 : (i2c_read_byte bus w 0x51 0x7f).2.out = w.out := by
      simp only [i2c_read_byte]
      split <;> simp [i2c_transfer_out]
    simp only [u8, Nat.reduceMod] at h2
    rcases hx : i2c_read_byte bus w 0x51 0x7f with ⟨r, ⟨d, l, o⟩⟩
    rw [hx] at h1 h2 h3 h4
    simp only at h1 h2 h3 h4
    subst h1 h2 h3 h4
    rfl
  have hx : ∀ msgs, i2c_transfer_rollball bus w msgs =
      (e, [], ⟨(bus.ioctl w.dev [⟨0x51, 0, 1, [0x7f]⟩, ⟨0x51, I2C_M_RD, 1, []⟩]).2,
        w.log ++ [[⟨0x51, 0, 1, [0x7f]⟩, ⟨0x51, I2C_M_RD, 1, []⟩]], w.out⟩) := by
    intro msgs
    unfold i2c_transfer_rollball
    simp [hrb, he]
  refine ⟨?_, ?_, by decide⟩
  · unfold i2c_mii_write_rollball
    simp [hx, he]
  · unfold i2c_mii_read_rollball
    simp [hx, he]

theorem rollball_page_save_failure_witness :
    let save_x : List i2c_msg := [⟨0x51, 0, 1, [0x7f]⟩, ⟨0x51, I2C_M_RD, 1, []⟩]
    let w : World (List ioctl_result) := ⟨firstFailScript, [], []⟩
    let after : World (List ioctl_result) :=
      { w with dev := (scriptBus.ioctl w.dev save_x).2, log := w.log ++ [save_x] }
    i2c_mii_write_rollball scriptBus w 1 0x8000 0x1234 = (-5, after) ∧
      i2c_mii_read_rollball scriptBus w 1 0x8000 = (-5, after) ∧
      writesData save_x = false :=
  rollball_page_save_failure scriptBus ⟨firstFailScript, [], []⟩ 1 0x8000 0x1234 (-5)
    (by decide) (by decide)

/-! ### Wire format of the direct adapters -/

theorem u8_of_lt {x : Nat} (h : x < 256) : u8 x = x := Nat.mod_eq_of_lt h

theorem u16_of_lt {x : Nat} (h : x < 65536) : u16 x = x := Nat.mod_eq_of_lt h

theorem shr8_lt {x : Nat} (h : x < 65536) : x >>> 8 < 256 := by
  rw [Nat.shiftRight_eq_div_pow]
  omega

theorem and_ff (x : Nat) : x &&& 0xFF = x % 256 :=
  Nat.and_pow_two_sub_one_eq_mod x 8

/-- Big-endian composition of two bytes gives back the 16-bit value. -/
theorem hi_lo (v : Nat) : (v >>> 8) <<< 8 ||| v % 256 = v := by
  rw [Nat.shiftRight_eq_div_pow, Nat.shiftLeft_eq, Nat.mul_comm,
    ← Nat.mul_add_lt_is_or (Nat.mod_lt _ (by decide))]
  exact Nat.div_add_mod v 256

theorem snd_ite_same {α β : Type} (c : Prop) [Decidable c] (a b : α) (x : β) :
    (if c then (a, x) else (b, x)).2 = x := by
  split <;> rfl

theorem i2c_mii_write_default_c45_log {σ : Type} (bus : Bus σ) (w : World σ)
    (phy_id devad reg val : Nat) :
    (i2c_mii_write_default_c45 bus w phy_id devad reg val).2.log =
      w.log ++ [[⟨if u8 phy_id < 0x40 then u8 phy_id + 0x40 else u8 phy_id, 0, 5,
        [u8 devad, u8 (u16 reg >>> 8), u8 (u16 reg), u8 (u16 val >>> 8), u8 (u16 val)]⟩]] := by
  simp only [i2c_mii_write_default_c45, snd_ite_same, i2c_transfer_log]

theorem i2c_mii_write_default_c22_log {σ : Type} (bus : Bus σ) (w : World σ)
    (phy_id reg val : Nat) :
    (i2c_mii_write_default_c22 bus w phy_id reg val).2.log =
      w.log ++ [[⟨if u8 phy_id < 0x40 then u8 phy_id + 0x40 else u8 phy_id, 0, 3,
        [u8 reg, u8 (u16 val >>> 8), u8 (u16 val)]⟩]] := by
  simp only [i2c_mii_write_default_c22, snd_ite_same, i2c_transfer_log]

/-- C7: a Direct-45 write issues exactly one exchange of one write message to
the mapped address with payload `[devad, reg >> 8, reg & 0xFF, val >> 8,
val & 0xFF]`; a Direct-22 write issues exactly one write message to the mapped
address with payload `[reg, val >> 8, val & 0xFF]`; the mapped address of a
`phy_id` in `0x00..0x7F` lies in `0x40..0x7F`; and a read whose exchange
succeeds returns `(data[0] << 8) | data[1]` of the two bytes read. -/
theorem direct_adapters_wire_format {σ : Type} (bus : Bus σ) (w : World σ)
    (phy_id devad reg val : Nat)
    (hp : phy_id < 256) (hd : devad < 256) (hr : reg < 65536) (hv : val < 65536) :
    let bus_addr := if phy_id < 0x40 then phy_id + 0x40 else phy_id
    (i2c_mii_write_default_c45 bus w phy_id devad reg val).2.log =
        w.log ++ [[⟨bus_addr, 0, 5,
          [devad, reg >>> 8, reg &&& 0xFF, val >>> 8, val &&& 0xFF]⟩]] ∧
      (reg < 256 → (i2c_mii_write_default_c22 bus w phy_id reg val).2.log =
        w.log ++ [[⟨bus_addr, 0, 3, [reg, val >>> 8, val &&& 0xFF]⟩]]) ∧
      (phy_id ≤ 0x7F → 0x40 ≤ bus_addr ∧ bus_addr ≤ 0x7F) ∧
      (∀ x22, x22 = i2c_transfer bus w
          [⟨bus_addr, 0, 1, [u8 reg]⟩, ⟨bus_addr, I2C_M_RD, 2, []⟩] → 0 ≤ x22.1 →
        (i2c_mii_read_default_c22 bus w phy_id reg).1 =
          ((byteAt x22.2.1 1 0 <<< 8 ||| byteAt x22.2.1 1 1 : Nat) : Int)) ∧
      (∀ x45, x45 = i2c_transfer bus w
          [⟨bus_addr, 0, 3, [devad, reg >>> 8, reg &&& 0xFF]⟩,
            ⟨bus_addr, I2C_M_RD, 2, []⟩] → 0 ≤ x45.1 →
        (i2c_mii_read_default_c45 bus w phy_id devad reg).1 =
          ((byteAt x45.2.1 1 0 <<< 8 ||| byteAt x45.2.1 1 1 : Nat) : Int)) := by
  intro bus_addr
  have hr8 := shr8_lt hr
  have hv8 := shr8_lt hv
  refine ⟨?_, ?_, ?_, ?_, ?_⟩
  · rw [i2c_mii_write_default_c45_log]
    simp only [u8_of_lt hp, u8_of_lt hd, u16_of_lt hr, u16_of_lt hv, u8_of_lt hr8,
      u8_of_lt hv8, and_ff, bus_addr]
    simp only [u8]
  · intro hr'
    rw [i2c_mii_write_default_c22_log]
    simp only [u8_of_lt hp, u8_of_lt hr', u16_of_lt hv, u8_of_lt hv8, and_ff, bus_addr]
    simp only [u8]
  · intro _
    simp only [bus_addr]
    split <;> omega
  · intro x22 hx h0
    subst hx
    simp only [i2c_mii_read_default_c22, u8_of_lt hp]
    rw [if_neg (not_lt.mpr h0)]
  · intro x45 hx h0
    subst hx
    simp only [i2c_mii_read_default_c45, u8_of_lt hp, u8_of_lt hd, u16_of_lt hr,
      u8_of_lt hr8]
    simp only [and_ff] at h0 ⊢
    simp only [u8] at h0 ⊢
    rw [if_neg (not_lt.mpr h0)]

theorem direct_adapters_wire_format_witness :
    (i2c_mii_write_default_c45 scriptBus ⟨[], [], []⟩ 0x16 0x1e 0xc04a 0x1234).2.log =
      [[⟨0x56, 0, 5, [0x1e, 0xc0, 0x4a, 0x12, 0x34]⟩]] :=
  ((direct_adapters_wire_format scriptBus ⟨[], [], []⟩ 0x16 0x1e 0xc04a 0x1234
    (by decide) (by decide) (by decide) (by decide)).1).trans (by decide)

/-! ### The byte store -/

theorem i2c_read_byte_out {σ : Type} (bus : Bus σ) (w : World σ) (a r : Nat) :
    (i2c_read_byte bus w a r).2.out = w.out := by
  simp only [i2c_read_byte, snd_ite_same, i2c_transfer_out]

theorem i2c_write_byte_out {σ : Type} (bus : Bus σ) (w : World σ) (a r v : Nat) :
    (i2c_write_byte bus w a r v).2.out = w.out := by
  simp only [i2c_write_byte, i2c_transfer_out]

theorem u8_u8 (x : Nat) : u8 (u8 x) = u8 x := by
  simp [u8]

theorem eeprom_read_byte_val (w : World Eeprom) (a r : Nat) :
    (i2c_read_byte eepromBus w a r).1 = (w.dev.peek (u8 a) (u8 r) : Nat) := by
  simp [i2c_read_byte, i2c_transfer, eepromBus, Eeprom.exchange, Eeprom.msg, I2C_M_RD,
    Eeprom.seek, Eeprom.peek, byteAt, u8]

theorem eeprom_read_byte_mem (w : World Eeprom) (a r : Nat) :
    (i2c_read_byte eepromBus w a r).2.dev.mem = w.dev.mem := by
  simp [i2c_read_byte, i2c_transfer, eepromBus, Eeprom.exchange, Eeprom.msg, I2C_M_RD,
    Eeprom.seek]

theorem eeprom_write_byte_val (w : World Eeprom) (a r v : Nat) :
    (i2c_write_byte eepromBus w a r v).1 = 1 := by
  simp [i2c_write_byte, i2c_transfer, eepromBus]

theorem eeprom_write_byte_mem (w : World Eeprom) (a r v : Nat) :
    (i2c_write_byte eepromBus w a r v).2.dev.mem =
      fun a' r' => if a' = u8 a ∧ r' = u8 r then u8 v else w.dev.mem a' r' := by
  simp [i2c_write_byte, i2c_transfer, eepromBus, Eeprom.exchange, Eeprom.msg, I2C_M_RD,
    Eeprom.seek, Eeprom.store, u8]

theorem i2c_read_byte_dataWrites {σ : Type} (bus : Bus σ) (w : World σ) (a r : Nat) :
    dataWrites (i2c_read_byte bus w a r).2.log = dataWrites w.log := by
  simp [dataWrites, i2c_read_byte_log, writesData, I2C_M_RD]

theorem i2c_write_byte_dataWrites {σ : Type} (bus : Bus σ) (w : World σ) (a r v : Nat) :
    dataWrites (i2c_write_byte bus w a r v).2.log =
      dataWrites w.log ++ [[⟨u8 a, 0, 2, [u8 r, u8 v]⟩]] := by
  simp [dataWrites, i2c_write_byte_log, writesData, I2C_M_RD]

theorem regionBytes_succ (e : Eeprom) (c n : Nat) :
    regionBytes e c (n + 1) = e.peek 0x50 c :: regionBytes e (c + 1) n := by
  simp only [regionBytes, List.range_succ_eq_map, List.map_cons, List.map_map, Nat.add_zero]
  congr 1
  apply List.map_congr_left
  intro i _
  simp only [Function.comp, Nat.succ_eq_add_one]
  congr 1
  omega

theorem regionBytes_mem_congr (e e' : Eeprom) (h : e'.mem = e.mem) (c n : Nat) :
    regionBytes e' c n = regionBytes e c n := by
  simp only [regionBytes, Eeprom.peek, h]

/-- The loop of `checksum` on the byte store: every read succeeds, the sum is
the sum of the bytes modulo 256, the content of the store, stdout and the data
writes of the log are as before. -/
theorem checksum_loop_eeprom (n : Nat) : ∀ (c sum : Nat) (w : World Eeprom), c + n ≤ 256 →
    (checksum_loop eepromBus n c sum w).1 = 0 ∧
    (checksum_loop eepromBus n c sum w).2.1 = c + n ∧
    (checksum_loop eepromBus n c sum w).2.2.1 % 256 =
      (sum + (regionBytes w.dev c n).sum) % 256 ∧
    (n ≠ 0 → (checksum_loop eepromBus n c sum w).2.2.1 < 256) ∧
    (checksum_loop eepromBus n c sum w).2.2.2.dev.mem = w.dev.mem ∧
    (checksum_loop eepromBus n c sum w).2.2.2.out = w.out ∧
    dataWrites (checksum_loop eepromBus n c sum w).2.2.2.log = dataWrites w.log := by
  induction n with
  | zero =>
    intro c sum w _
    simp [checksum_loop, regionBytes]
  | succ n ih =>
    intro c sum w hc
    have hv := eeprom_read_byte_val w 0x50 c
    have hcu : u8 c = c := u8_of_lt (by omega)
    have h50 : u8 0x50 = 0x50 := rfl
    rw [h50, hcu] at hv
    have hnn : ¬ (i2c_read_byte eepromBus w 0x50 c).1 < 0 := by
      rw [hv]; exact not_lt.mpr (Int.natCast_nonneg _)
    have ih' := ih (c + 1) ((sum + (i2c_read_byte eepromBus w 0x50 c).1.toNat) &&& 0xff)
      (i2c_read_byte eepromBus w 0x50 c).2 (by omega)
    simp only [checksum_loop, if_neg hnn]
    obtain ⟨h1, h2, h3, h4, h5, h6, h7⟩ := ih'
    refine ⟨h1, by rw [h2]; omega, ?_, ?_, ?_, ?_, ?_⟩
    · rw [h3, regionBytes_mem_congr _ _ (eeprom_read_byte_mem w 0x50 c), regionBytes_succ,
        List.sum_cons, hv, Int.toNat_ofNat, and_ff]
      omega
    · intro _
      by_cases hn : n = 0
      · subst hn
        simp only [checksum_loop, and_ff]
        exact Nat.mod_lt _ (by decide)
      · exact h4 hn
    · rw [h5, eeprom_read_byte_mem]
    · rw [h6, i2c_read_byte_out]
    · rw [h7, i2c_read_byte_dataWrites]

/-- The function `checksum` on the byte store, for a region `start ≤ end < 0xFF`:
it returns 0; it prints the match line exactly when the stored byte equals the
sum; it writes the sum to `end + 1` exactly on a mismatch with `fix`. -/
theorem checksum_eeprom (w : World Eeprom) (start end_ : Nat) (fix : Bool)
    (hse : start ≤ end_) (he : end_ < 0xFF) :
    (checksum eepromBus w start end_ fix).1 = 0 ∧
    (checksum eepromBus w start end_ fix).2.out = w.out ++
      (if w.dev.peek 0x50 (end_ + 1) = (regionBytes w.dev start (end_ + 1 - start)).sum % 256
        then [Out.checksum_matched start end_
          ((regionBytes w.dev start (end_ + 1 - start)).sum % 256)]
        else if fix then
          [Out.checksum_failed start end_ (w.dev.peek 0x50 (end_ + 1))
            ((regionBytes w.dev start (end_ + 1 - start)).sum % 256),
           Out.writing_checksum ((regionBytes w.dev start (end_ + 1 - start)).sum % 256)]
        else
          [Out.checksum_failed start end_ (w.dev.peek 0x50 (end_ + 1))
            ((regionBytes w.dev start (end_ + 1 - start)).sum % 256)]) ∧
    (checksum eepromBus w start end_ fix).2.dev.mem =
      (if w.dev.peek 0x50 (end_ + 1) = (regionBytes w.dev start (end_ + 1 - start)).sum % 256
          ∨ fix = false
        then w.dev.mem
        else fun a r => if a = 0x50 ∧ r = end_ + 1
          then (regionBytes w.dev start (end_ + 1 - start)).sum % 256 else w.dev.mem a r) ∧
    dataWrites (checksum eepromBus w start end_ fix).2.log = dataWrites w.log ++
      (if w.dev.peek 0x50 (end_ + 1) = (regionBytes w.dev start (end_ + 1 - start)).sum % 256
          ∨ fix = false
        then []
        else [[⟨0x50, 0, 2, [end_ + 1,
          (regionBytes w.dev start (end_ + 1 - start)).sum % 256]⟩]]) := by
  obtain ⟨h1, h2, h3, h4, h5, h6, h7⟩ :=
    checksum_loop_eeprom (end_ + 1 - start) start 0 w (by omega)
  have h4' := h4 (by omega)
  rw [Nat.mod_eq_of_lt h4', Nat.zero_add] at h3
  have hc : start + (end_ + 1 - start) = end_ + 1 := by omega
  rw [hc] at h2
  simp only [checksum]
  generalize checksum_loop eepromBus (end_ + 1 - start) start 0 w = L at h1 h2 h3 h4' h5 h6 h7 ⊢
  obtain ⟨r, c, sm, w'⟩ := L
  simp only at h1 h2 h3 h4' h5 h6 h7
  subst h1 h2
  generalize (regionBytes w.dev start (end_ + 1 - start)).sum % 256 = S at h3 ⊢
  subst h3
  have hcu : u8 (end_ + 1) = end_ + 1 := u8_of_lt (by omega)
  have hsu : u8 sm = sm := u8_of_lt h4'
  have h50 : u8 0x50 = 0x50 := rfl
  have hv := eeprom_read_byte_val w' 0x50 (end_ + 1)
  have hm := eeprom_read_byte_mem w' 0x50 (end_ + 1)
  have ho := i2c_read_byte_out eepromBus w' 0x50 (end_ + 1)
  have hd := i2c_read_byte_dataWrites eepromBus w' 0x50 (end_ + 1)
  rw [h50, hcu] at hv
  have hpk : w'.dev.peek 0x50 (end_ + 1) = w.dev.peek 0x50 (end_ + 1) := by
    simp only [Eeprom.peek, h5]
  rw [hpk] at hv
  generalize i2c_read_byte eepromBus w' 0x50 (end_ + 1) = R at hv hm ho hd ⊢
  obtain ⟨rv, w2⟩ := R
  simp only at hv hm ho hd
  subst hv
  simp only [lt_self_iff_false, if_false, Int.toNat_ofNat, Nat.cast_inj,
    not_lt.mpr (Int.natCast_nonneg _)]
  by_cases hmatch : w.dev.peek 0x50 (end_ + 1) = sm
  · simp [hmatch, ho, h6, hm, h5, hd, h7]
  · cases fix
    · simp [hmatch, ho, h6, hm, h5, hd, h7]
    · simp [hmatch, ho, h6, hm, h5, hd, h7, eeprom_write_byte_val, eeprom_write_byte_mem,
        i2c_write_byte_out, i2c_write_byte_dataWrites, hcu, hsu, h50]

theorem regionBytes_congr (e e' : Eeprom) (c n : Nat)
    (h : ∀ i, i < n → e'.peek 0x50 (c + i) = e.peek 0x50 (c + i)) :
    regionBytes e' c n = regionBytes e c n := by
  simp only [regionBytes]
  apply List.map_congr_left
  intro i hi
  exact h i (List.mem_range.mp hi)

/-- What `checksum` leaves in the store at an offset other than `end + 1`. -/
theorem checksum_eeprom_peek_other (w : World Eeprom) (start end_ : Nat) (fix : Bool)
    (hse : start ≤ end_) (he : end_ < 0xFF) (r : Nat) (hr : r ≠ end_ + 1) :
    (checksum eepromBus w start end_ fix).2.dev.peek 0x50 r = w.dev.peek 0x50 r := by
  have h := (checksum_eeprom w start end_ fix hse he).2.2.1
  simp only [Eeprom.peek, h]
  split
  · rfl
  · simp [hr]

/-- After `checksum` with `fix` the region has its checksum. -/
theorem checksum_fix_regionOk (w : World Eeprom) (start end_ : Nat)
    (hse : start ≤ end_) (he : end_ < 0xFF) :
    regionOk (checksum eepromBus w start end_ true).2.dev start end_ := by
  have hb : regionBytes (checksum eepromBus w start end_ true).2.dev start (end_ + 1 - start) =
      regionBytes w.dev start (end_ + 1 - start) := by
    apply regionBytes_congr
    intro i hi
    exact checksum_eeprom_peek_other w start end_ true hse he (start + i) (by omega)
  have h := (checksum_eeprom w start end_ true hse he).2.2.1
  have hp : (checksum eepromBus w start end_ true).2.dev.peek 0x50 (end_ + 1) =
      u8 ((checksum eepromBus w start end_ true).2.dev.mem 0x50 (end_ + 1)) := rfl
  unfold regionOk
  rw [hb, hp, h]
  by_cases hm : w.dev.peek 0x50 (end_ + 1) =
      (regionBytes w.dev start (end_ + 1 - start)).sum % 256
  · rw [if_pos (Or.inl hm)]
    exact hm
  · rw [if_neg (by simp [hm])]
    simp [u8]

/-- A call of `checksum` on a region keeps the checksum of a region that does
not hold the checksum byte of the first. -/
theorem checksum_keeps_regionOk (w : World Eeprom) (start end_ : Nat) (fix : Bool)
    (hse : start ≤ end_) (he : end_ < 0xFF) (s2 e2 : Nat) (hs2 : s2 ≤ e2)
    (hdis : end_ + 1 < s2 ∨ e2 + 1 < end_ + 1) (hok : regionOk w.dev s2 e2) :
    regionOk (checksum eepromBus w start end_ fix).2.dev s2 e2 := by
  unfold regionOk at hok ⊢
  have hb : regionBytes (checksum eepromBus w start end_ fix).2.dev s2 (e2 + 1 - s2) =
      regionBytes w.dev s2 (e2 + 1 - s2) :=
    regionBytes_congr _ _ _ _ (fun i hi =>
      checksum_eeprom_peek_other w start end_ fix hse he (s2 + i) (by omega))
  rw [checksum_eeprom_peek_other w start end_ fix hse he (e2 + 1) (by omega), hb]
  exact hok

/-- On a region that has its checksum, `checksum` prints the match line, writes
nothing and returns 0. -/
theorem checksum_of_regionOk (w : World Eeprom) (start end_ : Nat) (fix : Bool)
    (hse : start ≤ end_) (he : end_ < 0xFF) (hok : regionOk w.dev start end_) :
    (checksum eepromBus w start end_ fix).1 = 0 ∧
    (checksum eepromBus w start end_ fix).2.out = w.out ++
      [Out.checksum_matched start end_
        ((regionBytes w.dev start (end_ + 1 - start)).sum % 256)] ∧
    (checksum eepromBus w start end_ fix).2.dev.mem = w.dev.mem ∧
    dataWrites (checksum eepromBus w start end_ fix).2.log = dataWrites w.log := by
  obtain ⟨h1, h2, h3, h4⟩ := checksum_eeprom w start end_ fix hse he
  unfold regionOk at hok
  refine ⟨h1, ?_, ?_, ?_⟩
  · rw [h2, if_pos hok]
  · rw [h3, if_pos (Or.inl hok)]
  · rw [h4, if_pos (Or.inl hok), List.append_nil]

theorem regionOk_mem_congr (e e' : Eeprom) (h : e'.mem = e.mem) (s2 e2 : Nat) :
    regionOk e' s2 e2 ↔ regionOk e s2 e2 := by
  simp only [regionOk, regionBytes, Eeprom.peek, h]

theorem checksums_eeprom_eq (w : World Eeprom) (fix : Bool) :
    checksums eepromBus w fix =
      (0, (checksum eepromBus (checksum eepromBus w 0x0 0x3e fix).2 0x40 0x5e fix).2) := by
  have h1 := (checksum_eeprom w 0x0 0x3e fix (by decide) (by decide)).1
  have h2 := (checksum_eeprom (checksum eepromBus w 0x0 0x3e fix).2 0x40 0x5e fix
    (by decide) (by decide)).1
  simp only [checksums, h1, h2, lt_self_iff_false, if_false]

/-- After `checksums` with `fix` both regions have their checksum. -/
theorem checksums_fix_regionOk (w : World Eeprom) :
    regionOk (checksums eepromBus w true).2.dev 0x0 0x3e ∧
    regionOk (checksums eepromBus w true).2.dev 0x40 0x5e := by
  rw [checksums_eeprom_eq]
  constructor
  · exact checksum_keeps_regionOk _ 0x40 0x5e true (by decide) (by decide) 0x0 0x3e
      (by decide) (Or.inr (by decide))
      (checksum_fix_regionOk w 0x0 0x3e (by decide) (by decide))
  · exact checksum_fix_regionOk _ 0x40 0x5e (by decide) (by decide)

/-- On a store whose two regions have their checksums, `checksums` prints the
two match lines, writes nothing and returns 0. -/
theorem checksums_of_regionOk (w : World Eeprom) (fix : Bool)
    (h1 : regionOk w.dev 0x0 0x3e) (h2 : regionOk w.dev 0x40 0x5e) :
    (checksums eepromBus w fix).1 = 0 ∧
    (checksums eepromBus w fix).2.out = w.out ++
      [Out.checksum_matched 0x0 0x3e ((regionBytes w.dev 0x0 0x3f).sum % 256),
       Out.checksum_matched 0x40 0x5e ((regionBytes w.dev 0x40 0x1f).sum % 256)] ∧
    (checksums eepromBus w fix).2.dev.mem = w.dev.mem ∧
    dataWrites (checksums eepromBus w fix).2.log = dataWrites w.log := by
  obtain ⟨_, a2, a3, a4⟩ := checksum_of_regionOk w 0x0 0x3e fix (by decide) (by decide) h1
  have h2' : regionOk (checksum eepromBus w 0x0 0x3e fix).2.dev 0x40 0x5e :=
    (regionOk_mem_congr _ _ a3 _ _).mpr h2
  obtain ⟨_, b2, b3, b4⟩ := checksum_of_regionOk (checksum eepromBus w 0x0 0x3e fix).2
    0x40 0x5e fix (by decide) (by decide) h2'
  rw [checksums_eeprom_eq]
  refine ⟨rfl, ?_, ?_, ?_⟩
  · simp only [b2, a2, regionBytes_mem_congr _ _ a3, List.append_assoc, List.singleton_append]
  · simp only [b3, a3]
  · simp only [b4, a4]

/-- C8: for every content of the store, after `checksums(fix = true)` a following
`checksums(fix = false)` prints the match line for `[0x00,0x3E]` and for
`[0x40,0x5E]` (and returns 0), and a second `checksums(fix = true)` issues no
write: the data writes of the log and the content of the store are unchanged. -/
theorem checksums_fix_idempotent (w : World Eeprom) :
    (checksums eepromBus (checksums eepromBus w true).2 false).1 = 0 ∧
    (checksums eepromBus (checksums eepromBus w true).2 false).2.out =
      (checksums eepromBus w true).2.out ++
        [Out.checksum_matched 0x00 0x3E
          ((regionBytes (checksums eepromBus w true).2.dev 0x00 0x3F).sum % 256),
         Out.checksum_matched 0x40 0x5E
          ((regionBytes (checksums eepromBus w true).2.dev 0x40 0x1F).sum % 256)] ∧
    (checksums eepromBus (checksums eepromBus w true).2 true).1 = 0 ∧
    dataWrites (checksums eepromBus (checksums eepromBus w true).2 true).2.log =
      dataWrites (checksums eepromBus w true).2.log ∧
    (checksums eepromBus (checksums eepromBus w true).2 true).2.dev.mem =
      (checksums eepromBus w true).2.dev.mem := by
  obtain ⟨h1, h2⟩ := checksums_fix_regionOk w
  obtain ⟨v1, v2, _, _⟩ := checksums_of_regionOk (checksums eepromBus w true).2 false h1 h2
  obtain ⟨f1, _, f3, f4⟩ := checksums_of_regionOk (checksums eepromBus w true).2 true h1 h2
  exact ⟨v1, v2, f1, f4, f3⟩

/-- C10: on the byte store, for a region `0 ≤ start ≤ end < 0xFF`,
`checksum(start, end, fix = false)` prints the match line exactly when the byte
at `end + 1` equals the sum of the bytes at `start..end` modulo 256 (else the
mismatch line); the sum the loop computes is that sum for every store whose
region bytes are a permutation of these; the call returns 0 in both cases,
issues no write and leaves the store as it was; with `fix = true` on a mismatch
the only write is that sum to `end + 1`. -/
theorem checksum_contract (w : World Eeprom) (start end_ : Nat)
    (hse : start ≤ end_) (he : end_ < 0xFF) :
    let bytes := (List.range (end_ + 1 - start)).map (fun i => w.dev.peek 0x50 (start + i))
    let sum := bytes.sum % 256
    let stored := w.dev.peek 0x50 (end_ + 1)
    let v := checksum eepromBus w start end_ false
    let f := checksum eepromBus w start end_ true
    (stored = sum → v.2.out = w.out ++ [Out.checksum_matched start end_ sum]) ∧
    (stored ≠ sum → v.2.out = w.out ++ [Out.checksum_failed start end_ stored sum]) ∧
    (∀ w2 : World Eeprom,
      ((List.range (end_ + 1 - start)).map (fun i => w2.dev.peek 0x50 (start + i))).Perm bytes →
        (checksum_loop eepromBus (end_ + 1 - start) start 0 w2).2.2.1 = sum) ∧
    v.1 = 0 ∧ dataWrites v.2.log = dataWrites w.log ∧ v.2.dev.mem = w.dev.mem ∧
    (stored ≠ sum →
      f.1 = 0 ∧
      dataWrites f.2.log = dataWrites w.log ++ [[⟨0x50, 0, 2, [end_ + 1, sum]⟩]] ∧
      f.2.dev.mem = fun a r => if a = 0x50 ∧ r = end_ + 1 then sum else w.dev.mem a r) := by
  intro bytes sum stored v f
  obtain ⟨v1, v2, v3, v4⟩ := checksum_eeprom w start end_ false hse he
  obtain ⟨f1, _, f3, f4⟩ := checksum_eeprom w start end_ true hse he
  have hb : regionBytes w.dev start (end_ + 1 - start) = bytes := rfl
  rw [hb] at v2 v3 v4 f3 f4
  refine ⟨?_, ?_, ?_, v1, ?_, ?_, ?_⟩
  · intro h
    rw [v2, if_pos h]
  · intro h
    rw [v2, if_neg h]
    rfl
  · intro w2 hperm
    obtain ⟨_, _, l3, l4, _⟩ := checksum_loop_eeprom (end_ + 1 - start) start 0 w2 (by omega)
    rw [Nat.mod_eq_of_lt (l4 (by omega)), Nat.zero_add] at l3
    rw [l3]
    show (List.map (fun i => w2.dev.peek 0x50 (start + i)) (List.range (end_ + 1 - start))).sum
      % 256 = bytes.sum % 256
    rw [hperm.sum_eq]
  · rw [v4]
    simp
  · rw [v3]
    simp
  · intro h
    refine ⟨f1, ?_, ?_⟩
    · rw [f4, if_neg (by simp; exact h)]
    · rw [f3, if_neg (by simp; exact h)]

theorem checksum_contract_witness :
    (checksum eepromBus (scenario 0) 0x00 0x3e false).1 = 0 ∧
    (checksum eepromBus (scenario 0) 0x00 0x3e true).1 = 0 ∧
    dataWrites (checksum eepromBus (scenario 0) 0x00 0x3e true).2.log =
      [[⟨0x50, 0, 2, [0x3f, 0x3f]⟩]] :=
  have h := checksum_contract (scenario 0) 0x00 0x3e (by decide) (by decide)
  ⟨h.2.2.2.1, (h.2.2.2.2.2.2 (by decide)).1, (h.2.2.2.2.2.2 (by decide)).2.1.trans (by decide)⟩

/-- C9 (as amended): the bytes `0x00..0x3E` are 63 bytes, so with all of them
`0x01` the sum is `0x3F`.  With byte `0x3F = 0x3F`, `checksums(fix = false)`
prints the match line for `[0x00,0x3E]`; with byte `0x3F = 0x00` it prints the
mismatch line (stored `0x00`, computed `0x3F`); after `checksums(fix = true)`
on that store byte `0x3F` is `0x3F`, and a following verify prints the match
line. -/
theorem checksum_scenario :
    (checksums eepromBus (scenario 0x3f) false).2.out =
      [Out.checksum_matched 0x00 0x3e 0x3f, Out.checksum_matched 0x40 0x5e 0x00] ∧
    (checksums eepromBus (scenario 0x00) false).2.out =
      [Out.checksum_failed 0x00 0x3e 0x00 0x3f, Out.checksum_matched 0x40 0x5e 0x00] ∧
    (checksums eepromBus (scenario 0x00) true).2.dev.peek 0x50 0x3f = 0x3f ∧
    (checksums eepromBus (checksums eepromBus (scenario 0x00) true).2 false).2.out =
      (checksums eepromBus (scenario 0x00) true).2.out ++
        [Out.checksum_matched 0x00 0x3e 0x3f, Out.checksum_matched 0x40 0x5e 0x00] := by
  decide

/-- C9 (as stated) fails: with bytes `0x00..0x3E` all `0x01` and byte
`0x3F = 0x3E`, `checksums(fix = false)` prints the mismatch line for
`[0x00,0x3E]` (stored `0x3E`, computed `0x3F`), not the match line; and
`checksums(fix = true)` on the store with byte `0x3F = 0x00` leaves `0x3F`, not
`0x3E`, in byte `0x3F`. -/
theorem checksum_scenario_counterexample :
    (checksums eepromBus (scenario 0x3e) false).2.out =
      [Out.checksum_failed 0x00 0x3e 0x3e 0x3f, Out.checksum_matched 0x40 0x5e 0x00] ∧
    Out.checksum_matched 0x00 0x3e 0x3e ∉ (checksums eepromBus (scenario 0x3e) false).2.out ∧
    (checksums eepromBus (scenario 0x00) true).2.dev.peek 0x50 0x3f ≠ 0x3e := by
  decide

/-! ### Round trip of the direct adapters on the byte store -/

/-- C6: on the byte store, for `phy_id ≤ 0x7F`, a Direct-22 write of `v` to a
register `r ≤ 0x1F` followed by a Direct-22 read of `r` returns `v`, and a
Direct-45 write of `v` to `(devad, r)` with `devad ≤ 0x1F`, `r ≤ 0xFFFF`
followed by a Direct-45 read of `(devad, r)` returns `v`, for `v ≤ 0xFFFF`. -/
theorem direct_adapters_round_trip (w : World Eeprom) (phy_id devad r v : Nat)
    (hp : phy_id ≤ 0x7F) (hd : devad ≤ 0x1F) (hr : r ≤ 0xFFFF) (hv : v ≤ 0xFFFF) :
    (r ≤ 0x1F →
      (i2c_mii_write_default_c22 eepromBus w phy_id r v).1 = 0 ∧
      (i2c_mii_read_default_c22 eepromBus
        (i2c_mii_write_default_c22 eepromBus w phy_id r v).2 phy_id r).1 = v) ∧
    (i2c_mii_write_default_c45 eepromBus w phy_id devad r v).1 = 0 ∧
    (i2c_mii_read_default_c45 eepromBus
      (i2c_mii_write_default_c45 eepromBus w phy_id devad r v).2 phy_id devad r).1 = v := by
  have h1 : u8 phy_id = phy_id := u8_of_lt (by omega)
  have h2 : u8 devad = devad := u8_of_lt (by omega)
  have h3 : u16 v = v := u16_of_lt (by omega)
  have h4 : u8 (v >>> 8) = v >>> 8 := u8_of_lt (shr8_lt (by omega))
  have h6 : u16 r = r := u16_of_lt (by omega)
  have h7 : u8 (r >>> 8) = r >>> 8 := u8_of_lt (shr8_lt (by omega))
  refine ⟨?_, ?_, ?_⟩
  · intro hr'
    have h8 : u8 r = r := u8_of_lt (by omega)
    have h9 : ¬ r = u8 (r + 1) := by simp only [u8]; omega
    constructor
    · simp [i2c_mii_write_default_c22, i2c_transfer, eepromBus]
    · simp only [i2c_mii_read_default_c22, i2c_mii_write_default_c22, h1, h3, h4, h8]
      simp [i2c_transfer, eepromBus, Eeprom.exchange, Eeprom.msg, Eeprom.seek, Eeprom.store,
        Eeprom.peek, byteAt, I2C_M_RD, u8_u8, h4, h8, h9]
      simp only [u8, Nat.mod_mod]
      exact hi_lo v
  · simp [i2c_mii_write_default_c45, i2c_transfer, eepromBus]
  · have e1 : u8 (devad + 1) = devad + 1 := u8_of_lt (by omega)
    have e2 : u8 (devad + 1 + 1) = devad + 2 := u8_of_lt (by omega)
    have e2' : u8 (devad + 2) = devad + 2 := u8_of_lt (by omega)
    have e3 : u8 (devad + 2 + 1) = devad + 3 := u8_of_lt (by omega)
    have e3' : u8 (devad + 3) = devad + 3 := u8_of_lt (by omega)
    simp only [i2c_mii_read_default_c45, i2c_mii_write_default_c45, h1, h2, h3, h4, h6, h7]
    simp [i2c_transfer, eepromBus, Eeprom.exchange, Eeprom.msg, Eeprom.seek, Eeprom.store,
      Eeprom.peek, byteAt, I2C_M_RD, u8_u8, h2, h4]
    simp [e1, e2, e2', e3, e3', h4]
    simp only [u8, Nat.mod_mod]
    exact hi_lo v

theorem direct_adapters_round_trip_witness :
    (i2c_mii_read_default_c45 eepromBus
      (i2c_mii_write_default_c45 eepromBus (scenario 0) 0x16 0x1e 0xc04a 0x1234).2
        0x16 0x1e 0xc04a).1 = 0x1234 :=
  (direct_adapters_round_trip (scenario 0) 0x16 0x1e 0xc04a 0x1234
    (by decide) (by decide) (by decide) (by decide)).2.2

/-! ### The rollball engine on the rollball fake -/

/-- One page-bracketed poll on the rollball fake: it succeeds, delivers the
response of this poll, counts as one poll and leaves the page register as it
was. -/
theorem transfer_rollball_poll (resp : Nat → List Nat) (w : World RollballDev) (len : Nat) :
    (i2c_transfer_rollball (rollballBus resp) w (pollMsgs len)).1 = 2 ∧
    (i2c_transfer_rollball (rollballBus resp) w (pollMsgs len)).2.1 =
      [[ROLLBALL_CMD_ADDR],
        (List.range len).map (fun i => u8 ((resp w.dev.polls).getD i 0))] ∧
    (i2c_transfer_rollball (rollballBus resp) w (pollMsgs len)).2.2.dev.page = w.dev.page ∧
    (i2c_transfer_rollball (rollballBus resp) w (pollMsgs len)).2.2.dev.polls =
      w.dev.polls + 1 ∧
    pollCount (i2c_transfer_rollball (rollballBus resp) w (pollMsgs len)).2.2.log =
      pollCount w.log + 1 := by
  have h1 : ¬ ((w.dev.ee.mem 81 127 : Int) % 256 < 0) := by omega
  have h2 : ((w.dev.ee.mem 81 127 : Int) % 256).toNat = w.dev.ee.mem 81 127 % 256 := by omega
  simp [i2c_transfer_rollball, i2c_read_byte, i2c_write_byte, i2c_transfer, rollballBus,
    isStatusRead, pollMsgs, eepromBus, Eeprom.exchange, Eeprom.msg, Eeprom.seek, Eeprom.store,
    Eeprom.peek, RollballDev.page, byteAt, I2C_M_RD, ROLLBALL_CMD_ADDR, u8, pollCount, h1, h2]

/-- The page-bracketed submit of a write command on the rollball fake: it
succeeds, is no poll and leaves the page register as it was. -/
theorem transfer_rollball_submit_write (resp : Nat → List Nat) (w : World RollballDev)
    (a b c d e : Nat) :
    (i2c_transfer_rollball (rollballBus resp) w
      [⟨0x51, 0, 6, [ROLLBALL_DATA_ADDR, a, b, c, d, e]⟩,
        ⟨0x51, 0, 2, [ROLLBALL_CMD_ADDR, ROLLBALL_CMD_WRITE]⟩]).1 = 2 ∧
    (i2c_transfer_rollball (rollballBus resp) w
      [⟨0x51, 0, 6, [ROLLBALL_DATA_ADDR, a, b, c, d, e]⟩,
        ⟨0x51, 0, 2, [ROLLBALL_CMD_ADDR, ROLLBALL_CMD_WRITE]⟩]).2.2.dev.page = w.dev.page ∧
    (i2c_transfer_rollball (rollballBus resp) w
      [⟨0x51, 0, 6, [ROLLBALL_DATA_ADDR, a, b, c, d, e]⟩,
        ⟨0x51, 0, 2, [ROLLBALL_CMD_ADDR, ROLLBALL_CMD_WRITE]⟩]).2.2.dev.polls = w.dev.polls ∧
    pollCount (i2c_transfer_rollball (rollballBus resp) w
      [⟨0x51, 0, 6, [ROLLBALL_DATA_ADDR, a, b, c, d, e]⟩,
        ⟨0x51, 0, 2, [ROLLBALL_CMD_ADDR, ROLLBALL_CMD_WRITE]⟩]).2.2.log = pollCount w.log := by
  have h1 : ¬ ((w.dev.ee.mem 81 127 : Int) % 256 < 0) := by omega
  have h2 : ((w.dev.ee.mem 81 127 : Int) % 256).toNat = w.dev.ee.mem 81 127 % 256 := by omega
  simp [i2c_transfer_rollball, i2c_read_byte, i2c_write_byte, i2c_transfer, rollballBus,
    isStatusRead, eepromBus, Eeprom.exchange, Eeprom.msg, Eeprom.seek, Eeprom.store,
    Eeprom.peek, RollballDev.page, byteAt, I2C_M_RD, ROLLBALL_CMD_ADDR, ROLLBALL_DATA_ADDR,
    ROLLBALL_CMD_WRITE, u8, pollCount, h1, h2]

/-- The page-bracketed submit of a read command on the rollball fake: it
succeeds, is no poll and leaves the page register as it was. -/
theorem transfer_rollball_submit_read (resp : Nat → List Nat) (w : World RollballDev)
    (a b c : Nat) :
    (i2c_transfer_rollball (rollballBus resp) w
      [⟨0x51, 0, 4, [ROLLBALL_DATA_ADDR, a, b, c]⟩,
        ⟨0x51, 0, 2, [ROLLBALL_CMD_ADDR, ROLLBALL_CMD_READ]⟩]).1 = 2 ∧
    (i2c_transfer_rollball (rollballBus resp) w
      [⟨0x51, 0, 4, [ROLLBALL_DATA_ADDR, a, b, c]⟩,
        ⟨0x51, 0, 2, [ROLLBALL_CMD_ADDR, ROLLBALL_CMD_READ]⟩]).2.2.dev.page = w.dev.page ∧
    (i2c_transfer_rollball (rollballBus resp) w
      [⟨0x51, 0, 4, [ROLLBALL_DATA_ADDR, a, b, c]⟩,
        ⟨0x51, 0, 2, [ROLLBALL_CMD_ADDR, ROLLBALL_CMD_READ]⟩]).2.2.dev.polls = w.dev.polls ∧
    pollCount (i2c_transfer_rollball (rollballBus resp) w
      [⟨0x51, 0, 4, [ROLLBALL_DATA_ADDR, a, b, c]⟩,
        ⟨0x51, 0, 2, [ROLLBALL_CMD_ADDR, ROLLBALL_CMD_READ]⟩]).2.2.log = pollCount w.log := by
  have h1 : ¬ ((w.dev.ee.mem 81 127 : Int) % 256 < 0) := by omega
  have h2 : ((w.dev.ee.mem 81 127 : Int) % 256).toNat = w.dev.ee.mem 81 127 % 256 := by omega
  simp [i2c_transfer_rollball, i2c_read_byte, i2c_write_byte, i2c_transfer, rollballBus,
    isStatusRead, eepromBus, Eeprom.exchange, Eeprom.msg, Eeprom.seek, Eeprom.store,
    Eeprom.peek, RollballDev.page, byteAt, I2C_M_RD, ROLLBALL_CMD_ADDR, ROLLBALL_DATA_ADDR,
    ROLLBALL_CMD_READ, u8, pollCount, h1, h2]

/-- The poll loop of the write call on the rollball fake, with the status DONE
first on the `k`-th poll from now and `k` within the budget `n`: it returns 0
after exactly `k` polls, the page register as before. -/
theorem write_rollball_poll_done (resp : Nat → List Nat) (n : Nat) :
    ∀ (k : Nat) (w : World RollballDev), 1 ≤ k → k ≤ n →
    (∀ j, j + 1 < k → statusByte (resp (w.dev.polls + j)) ≠ ROLLBALL_CMD_DONE) →
    statusByte (resp (w.dev.polls + (k - 1))) = ROLLBALL_CMD_DONE →
    (i2c_mii_write_rollball_poll (rollballBus resp) (pollMsgs 1) n w).1 = 0 ∧
    (i2c_mii_write_rollball_poll (rollballBus resp) (pollMsgs 1) n w).2.dev.page = w.dev.page ∧
    (i2c_mii_write_rollball_poll (rollballBus resp) (pollMsgs 1) n w).2.dev.polls =
      w.dev.polls + k ∧
    pollCount (i2c_mii_write_rollball_poll (rollballBus resp) (pollMsgs 1) n w).2.log =
      pollCount w.log + k := by
  induction n with
  | zero => intro k w h1 h0; omega
  | succ n ih =>
    intro k w h1 hk hpend hdone
    obtain ⟨p1, p2, p3, p4, p5⟩ := transfer_rollball_poll resp w 1
    have hst : byteAt (i2c_transfer_rollball (rollballBus resp) w (pollMsgs 1)).2.1 1 0 =
        statusByte (resp w.dev.polls) := by
      rw [p2]; simp [byteAt, statusByte, u8]
    simp only [i2c_mii_write_rollball_poll, p1, hst]
    by_cases hk1 : k = 1
    · subst hk1
      have hd : statusByte (resp w.dev.polls) = ROLLBALL_CMD_DONE := by simpa using hdone
      simp [hd, p3, p4, p5]
    · have hp : statusByte (resp w.dev.polls) ≠ ROLLBALL_CMD_DONE := by
        simpa using hpend 0 (by omega)
      have ih' := ih (k - 1) (i2c_transfer_rollball (rollballBus resp) w (pollMsgs 1)).2.2
        (by omega) (by omega)
        (by
          intro j hj
          rw [p4]
          have e : w.dev.polls + 1 + j = w.dev.polls + (j + 1) := by omega
          rw [e]
          exact hpend (j + 1) (by omega))
        (by rw [p4]; have e : w.dev.polls + 1 + (k - 1 - 1) = w.dev.polls + (k - 1) := by omega
            rw [e]; exact hdone)
      obtain ⟨q1, q2, q3, q4⟩ := ih'
      simp only [hp, if_false, show ¬ ((2 : Int) < 0) by decide]
      refine ⟨q1, by rw [q2, p3], by rw [q3, p4]; omega, by rw [q4, p5]; omega⟩

/-- The poll loop of the read call on the rollball fake, with the status DONE
first on the `k`-th poll from now and `k` within the budget `n`: it returns
bytes 4 and 5 of that response, big-endian, after exactly `k` polls, the page
register as before. -/
theorem read_rollball_poll_done (resp : Nat → List Nat) (n : Nat) :
    ∀ (k : Nat) (w : World RollballDev), 1 ≤ k → k ≤ n →
    (∀ j, j + 1 < k → statusByte (resp (w.dev.polls + j)) ≠ ROLLBALL_CMD_DONE) →
    statusByte (resp (w.dev.polls + (k - 1))) = ROLLBALL_CMD_DONE →
    (i2c_mii_read_rollball_poll (rollballBus resp) (pollMsgs 6) n w).1 =
      ((u8 ((resp (w.dev.polls + (k - 1))).getD 4 0) <<< 8 |||
        u8 ((resp (w.dev.polls + (k - 1))).getD 5 0) : Nat) : Int) ∧
    (i2c_mii_read_rollball_poll (rollballBus resp) (pollMsgs 6) n w).2.dev.page = w.dev.page ∧
    (i2c_mii_read_rollball_poll (rollballBus resp) (pollMsgs 6) n w).2.dev.polls =
      w.dev.polls + k ∧
    pollCount (i2c_mii_read_rollball_poll (rollballBus resp) (pollMsgs 6) n w).2.log =
      pollCount w.log + k := by
  induction n with
  | zero => intro k w h1 h0; omega
  | succ n ih =>
    intro k w h1 hk hpend hdone
    obtain ⟨p1, p2, p3, p4, p5⟩ := transfer_rollball_poll resp w 6
    have hst : byteAt (i2c_transfer_rollball (rollballBus resp) w (pollMsgs 6)).2.1 1 0 =
        statusByte (resp w.dev.polls) := by
      rw [p2]; simp [byteAt, statusByte, u8, List.range_succ]
    have hb4 : byteAt (i2c_transfer_rollball (rollballBus resp) w (pollMsgs 6)).2.1 1 4 =
        u8 ((resp w.dev.polls).getD 4 0) := by
      rw [p2]; simp [byteAt, u8, List.range_succ]
    have hb5 : byteAt (i2c_transfer_rollball (rollballBus resp) w (pollMsgs 6)).2.1 1 5 =
        u8 ((resp w.dev.polls).getD 5 0) := by
      rw [p2]; simp [byteAt, u8, List.range_succ]
    simp only [i2c_mii_read_rollball_poll, p1, hst, hb4, hb5]
    by_cases hk1 : k = 1
    · subst hk1
      have hd : statusByte (resp w.dev.polls) = ROLLBALL_CMD_DONE := by simpa using hdone
      simp [hd, p3, p4, p5]
    · have hp : statusByte (resp w.dev.polls) ≠ ROLLBALL_CMD_DONE := by
        simpa using hpend 0 (by omega)
      have e0 : w.dev.polls + 1 + (k - 1 - 1) = w.dev.polls + (k - 1) := by omega
      have ih' := ih (k - 1) (i2c_transfer_rollball (rollballBus resp) w (pollMsgs 6)).2.2
        (by omega) (by omega)
        (by
          intro j hj
          rw [p4]
          have e : w.dev.polls + 1 + j = w.dev.polls + (j + 1) := by omega
          rw [e]
          exact hpend (j + 1) (by omega))
        (by rw [p4, e0]; exact hdone)
      obtain ⟨q1, q2, q3, q4⟩ := ih'
      simp only [hp, if_false, show ¬ ((2 : Int) < 0) by decide]
      rw [p4, e0] at q1
      refine ⟨q1, by rw [q2, p3], by rw [q3, p4]; omega, by rw [q4, p5]; omega⟩

/-- The poll loop of the write call on the rollball fake when none of the next
`n` polls reads DONE: the timeout error after exactly `n` polls, the page
register as before. -/
theorem write_rollball_poll_timeout (resp : Nat → List Nat) (n : Nat) :
    ∀ (w : World RollballDev),
    (∀ j, j < n → statusByte (resp (w.dev.polls + j)) ≠ ROLLBALL_CMD_DONE) →
    (i2c_mii_write_rollball_poll (rollballBus resp) (pollMsgs 1) n w).1 = -ETIMEDOUT ∧
    (i2c_mii_write_rollball_poll (rollballBus resp) (pollMsgs 1) n w).2.dev.page = w.dev.page ∧
    (i2c_mii_write_rollball_poll (rollballBus resp) (pollMsgs 1) n w).2.dev.polls =
      w.dev.polls + n ∧
    pollCount (i2c_mii_write_rollball_poll (rollballBus resp) (pollMsgs 1) n w).2.log =
      pollCount w.log + n := by
  induction n with
  | zero => intro w _; simp [i2c_mii_write_rollball_poll]
  | succ n ih =>
    intro w hpend
    obtain ⟨p1, p2, p3, p4, p5⟩ := transfer_rollball_poll resp w 1
    have hst : byteAt (i2c_transfer_rollball (rollballBus resp) w (pollMsgs 1)).2.1 1 0 =
        statusByte (resp w.dev.polls) := by
      rw [p2]; simp [byteAt, statusByte, u8]
    have hp : statusByte (resp w.dev.polls) ≠ ROLLBALL_CMD_DONE := by
      simpa using hpend 0 (by omega)
    obtain ⟨q1, q2, q3, q4⟩ := ih (i2c_transfer_rollball (rollballBus resp) w (pollMsgs 1)).2.2
      (by
        intro j hj
        rw [p4]
        have e : w.dev.polls + 1 + j = w.dev.polls + (j + 1) := by omega
        rw [e]
        exact hpend (j + 1) (by omega))
    simp only [i2c_mii_write_rollball_poll, p1, hst, hp, if_false,
      show ¬ ((2 : Int) < 0) by decide]
    refine ⟨q1, by rw [q2, p3], by rw [q3, p4]; omega, by rw [q4, p5]; omega⟩

/-- The poll loop of the read call on the rollball fake when none of the next
`n` polls reads DONE: the timeout error after exactly `n` polls, the page
register as before. -/
theorem read_rollball_poll_timeout (resp : Nat → List Nat) (n : Nat) :
    ∀ (w : World RollballDev),
    (∀ j, j < n → statusByte (resp (w.dev.polls + j)) ≠ ROLLBALL_CMD_DONE) →
    (i2c_mii_read_rollball_poll (rollballBus resp) (pollMsgs 6) n w).1 = -ETIMEDOUT ∧
    (i2c_mii_read_rollball_poll (rollballBus resp) (pollMsgs 6) n w).2.dev.page = w.dev.page ∧
    (i2c_mii_read_rollball_poll (rollballBus resp) (pollMsgs 6) n w).2.dev.polls =
      w.dev.polls + n ∧
    pollCount (i2c_mii_read_rollball_poll (rollballBus resp) (pollMsgs 6) n w).2.log =
      pollCount w.log + n := by
  induction n with
  | zero => intro w _; simp [i2c_mii_read_rollball_poll]
  | succ n ih =>
    intro w hpend
    obtain ⟨p1, p2, p3, p4, p5⟩ := transfer_rollball_poll resp w 6
    have hst : byteAt (i2c_transfer_rollball (rollballBus resp) w (pollMsgs 6)).2.1 1 0 =
        statusByte (resp w.dev.polls) := by
      rw [p2]; simp [byteAt, statusByte, u8, List.range_succ]
    have hp : statusByte (resp w.dev.polls) ≠ ROLLBALL_CMD_DONE := by
      simpa using hpend 0 (by omega)
    obtain ⟨q1, q2, q3, q4⟩ := ih (i2c_transfer_rollball (rollballBus resp) w (pollMsgs 6)).2.2
      (by
        intro j hj
        rw [p4]
        have e : w.dev.polls + 1 + j = w.dev.polls + (j + 1) := by omega
        rw [e]
        exact hpend (j + 1) (by omega))
    simp only [i2c_mii_read_rollball_poll, p1, hst, hp, if_false,
      show ¬ ((2 : Int) < 0) by decide]
    refine ⟨q1, by rw [q2, p3], by rw [q3, p4]; omega, by rw [q4, p5]; omega⟩

theorem i2c_mii_write_rollball_fake (resp : Nat → List Nat) (w : World RollballDev)
    (devad reg val : Nat) :
    i2c_mii_write_rollball (rollballBus resp) w devad reg val =
      i2c_mii_write_rollball_poll (rollballBus resp) (pollMsgs 1) 10
        (i2c_transfer_rollball (rollballBus resp) w
          [⟨0x51, 0, 6, [ROLLBALL_DATA_ADDR, u8 devad, u8 (u16 reg >>> 8), u8 (u16 reg),
              u8 (u16 val >>> 8), u8 (u16 val)]⟩,
            ⟨0x51, 0, 2, [ROLLBALL_CMD_ADDR, ROLLBALL_CMD_WRITE]⟩]).2.2 := by
  have h := (transfer_rollball_submit_write resp w (u8 devad) (u8 (u16 reg >>> 8))
    (u8 (u16 reg)) (u8 (u16 val >>> 8)) (u8 (u16 val))).1
  simp only [i2c_mii_write_rollball, h, pollMsgs, show ¬ ((2 : Int) < 0) by decide, if_false]

theorem i2c_mii_read_rollball_fake (resp : Nat → List Nat) (w : World RollballDev)
    (devad reg : Nat) :
    i2c_mii_read_rollball (rollballBus resp) w devad reg =
      i2c_mii_read_rollball_poll (rollballBus resp) (pollMsgs 6) 10
        (i2c_transfer_rollball (rollballBus resp) w
          [⟨0x51, 0, 4, [ROLLBALL_DATA_ADDR, u8 devad, u8 (u16 reg >>> 8), u8 (u16 reg)]⟩,
            ⟨0x51, 0, 2, [ROLLBALL_CMD_ADDR, ROLLBALL_CMD_READ]⟩]).2.2 := by
  have h := (transfer_rollball_submit_read resp w (u8 devad) (u8 (u16 reg >>> 8))
    (u8 (u16 reg))).1
  simp only [i2c_mii_read_rollball, h, pollMsgs, show ¬ ((2 : Int) < 0) by decide, if_false]

/-- C1: on the rollball fake (every exchange succeeds), when the status byte
read from `0x51:0x80` is DONE for the first time on the `k`-th poll of the
call, `1 ≤ k ≤ 10`: `i2c_mii_write_rollball` returns 0,
`i2c_mii_read_rollball` returns `(bytes[4] << 8) | bytes[5]` of the response of
that `k`-th poll, each call performs exactly `k` polls, and after each call the
page register `0x51:0x7F` holds the value it had before. -/
theorem rollball_done_on_kth_poll (resp : Nat → List Nat) (w : World RollballDev)
    (k devad reg val : Nat) (hk1 : 1 ≤ k) (hk10 : k ≤ 10)
    (hpend : ∀ j, j + 1 < k → statusByte (resp (w.dev.polls + j)) ≠ ROLLBALL_CMD_DONE)
    (hdone : statusByte (resp (w.dev.polls + (k - 1))) = ROLLBALL_CMD_DONE) :
    (i2c_mii_write_rollball (rollballBus resp) w devad reg val).1 = 0 ∧
    (i2c_mii_read_rollball (rollballBus resp) w devad reg).1 =
      ((u8 ((resp (w.dev.polls + (k - 1))).getD 4 0) <<< 8 |||
        u8 ((resp (w.dev.polls + (k - 1))).getD 5 0) : Nat) : Int) ∧
    pollCount (i2c_mii_write_rollball (rollballBus resp) w devad reg val).2.log =
      pollCount w.log + k ∧
    pollCount (i2c_mii_read_rollball (rollballBus resp) w devad reg).2.log =
      pollCount w.log + k ∧
    (i2c_mii_write_rollball (rollballBus resp) w devad reg val).2.dev.polls =
      w.dev.polls + k ∧
    (i2c_mii_read_rollball (rollballBus resp) w devad reg).2.dev.polls = w.dev.polls + k ∧
    (i2c_mii_write_rollball (rollballBus resp) w devad reg val).2.dev.page = w.dev.page ∧
    (i2c_mii_read_rollball (rollballBus resp) w devad reg).2.dev.page = w.dev.page := by
  obtain ⟨_, a2, a3, a4⟩ := transfer_rollball_submit_write resp w (u8 devad)
    (u8 (u16 reg >>> 8)) (u8 (u16 reg)) (u8 (u16 val >>> 8)) (u8 (u16 val))
  obtain ⟨_, b2, b3, b4⟩ := transfer_rollball_submit_read resp w (u8 devad)
    (u8 (u16 reg >>> 8)) (u8 (u16 reg))
  obtain ⟨w1, w2, w3, w4⟩ := write_rollball_poll_done resp 10 k _ hk1 hk10
    (by rw [a3]; exact hpend) (by rw [a3]; exact hdone)
  obtain ⟨r1, r2, r3, r4⟩ := read_rollball_poll_done resp 10 k _ hk1 hk10
    (by rw [b3]; exact hpend) (by rw [b3]; exact hdone)
  rw [i2c_mii_write_rollball_fake, i2c_mii_read_rollball_fake]
  rw [b3] at r1
  exact ⟨w1, r1, by rw [w4, a4], by rw [r4, b4], by rw [w3, a3], by rw [r3, b3],
    by rw [w2, a2], by rw [r2, b2]⟩

theorem rollball_done_on_kth_poll_witness :
    (i2c_mii_write_rollball (rollballBus doneOnThird) freshModule 0x01 0x8000 0xabcd).1 = 0 ∧
    (i2c_mii_read_rollball (rollballBus doneOnThird) freshModule 0x01 0x8000).1 = 0x1234 ∧
    pollCount (i2c_mii_read_rollball (rollballBus doneOnThird) freshModule 0x01 0x8000).2.log
      = 3 :=
  have h := rollball_done_on_kth_poll doneOnThird freshModule 3 0x01 0x8000 0xabcd
    (by decide) (by decide)
    (by
      intro j hj
      have hj2 : j < 2 := by omega
      interval_cases j <;> decide)
    (by decide)
  ⟨h.1, h.2.1.trans (by decide), h.2.2.2.1.trans (by decide)⟩

/-- C2: on the rollball fake (every exchange succeeds), when the status byte read
from `0x51:0x80` is never DONE, `i2c_mii_write_rollball` and
`i2c_mii_read_rollball` each return `-ETIMEDOUT` after exactly 10 polls, and
after each call the page register `0x51:0x7F` holds the value it had before. -/
theorem rollball_timeout (resp : Nat → List Nat) (w : World RollballDev)
    (devad reg val : Nat)
    (hnever : ∀ n, statusByte (resp n) ≠ ROLLBALL_CMD_DONE) :
    (i2c_mii_write_rollball (rollballBus resp) w devad reg val).1 = -ETIMEDOUT ∧
    (i2c_mii_read_rollball (rollballBus resp) w devad reg).1 = -ETIMEDOUT ∧
    pollCount (i2c_mii_write_rollball (rollballBus resp) w devad reg val).2.log =
      pollCount w.log + 10 ∧
    pollCount (i2c_mii_read_rollball (rollballBus resp) w devad reg).2.log =
      pollCount w.log + 10 ∧
    (i2c_mii_write_rollball (rollballBus resp) w devad reg val).2.dev.polls =
      w.dev.polls + 10 ∧
    (i2c_mii_read_rollball (rollballBus resp) w devad reg).2.dev.polls = w.dev.polls + 10 ∧
    (i2c_mii_write_rollball (rollballBus resp) w devad reg val).2.dev.page = w.dev.page ∧
    (i2c_mii_read_rollball (rollballBus resp) w devad reg).2.dev.page = w.dev.page := by
  obtain ⟨_, a2, a3, a4⟩ := transfer_rollball_submit_write resp w (u8 devad)
    (u8 (u16 reg >>> 8)) (u8 (u16 reg)) (u8 (u16 val >>> 8)) (u8 (u16 val))
  obtain ⟨_, b2, b3, b4⟩ := transfer_rollball_submit_read resp w (u8 devad)
    (u8 (u16 reg >>> 8)) (u8 (u16 reg))
  obtain ⟨w1, w2, w3, w4⟩ := write_rollball_poll_timeout resp 10 _ (fun j _ => hnever _)
  obtain ⟨r1, r2, r3, r4⟩ := read_rollball_poll_timeout resp 10 _ (fun j _ => hnever _)
  rw [i2c_mii_write_rollball_fake, i2c_mii_read_rollball_fake]
  exact ⟨w1, r1, by rw [w4, a4], by rw [r4, b4], by rw [w3, a3], by rw [r3, b3],
    by rw [w2, a2], by rw [r2, b2]⟩

theorem rollball_timeout_witness :
    (i2c_mii_write_rollball (rollballBus neverDone) freshModule 0x01 0x8000 0xabcd).1 = -110 ∧
    (i2c_mii_read_rollball (rollballBus neverDone) freshModule 0x01 0x8000).1 = -110 ∧
    pollCount (i2c_mii_read_rollball (rollballBus neverDone) freshModule 0x01 0x8000).2.log
      = 10 :=
  have h := rollball_timeout neverDone freshModule 0x01 0x8000 0xabcd (fun _ => (by decide : statusByte [0x01] ≠ ROLLBALL_CMD_DONE))
  ⟨h.1, h.2.1, h.2.2.2.1.trans (by decide)⟩

/-! ### `fillpassword` -/

theorem u8_and_ff (x : Nat) : u8 (x &&& 0xff) = x &&& 0xff := by
  rw [and_ff]; simp [u8]

theorem and_ff_mod (x : Nat) : (x &&& 255) % 256 = x &&& 255 := by
  have := and_ff x
  simp only [Nat.reducePow] at this ⊢
  omega

theorem fillpassword_eeprom (e : World Eeprom) (pw : Nat) :
    (fillpassword eepromBus e pw).1 = 0 ∧
    (fillpassword eepromBus e pw).2.dev.mem = fun a r =>
      if a = 0x51 ∧ r = 0x7e then u32 pw &&& 0xff
      else if a = 0x51 ∧ r = 0x7d then (u32 pw >>> 8) &&& 0xff
      else if a = 0x51 ∧ r = 0x7c then (u32 pw >>> 16) &&& 0xff
      else if a = 0x51 ∧ r = 0x7b then (u32 pw >>> 24) &&& 0xff
      else e.dev.mem a r := by
  simp [fillpassword, eeprom_write_byte_val, eeprom_write_byte_mem, u8, and_ff_mod]

theorem init_rollball_eeprom (e : World Eeprom) :
    (i2c_mii_init_rollball eepromBus e).2.dev.mem = fun a r =>
      if a = 0x51 ∧ r = 0x7e then 0xff
      else if a = 0x51 ∧ r = 0x7d then 0xff
      else if a = 0x51 ∧ r = 0x7c then 0xff
      else if a = 0x51 ∧ r = 0x7b then 0xff
      else e.dev.mem a r := by
  simp [i2c_mii_init_rollball, i2c_transfer, eepromBus, Eeprom.exchange, Eeprom.msg,
    Eeprom.seek, Eeprom.store, I2C_M_RD, ROLLBALL_PWD_ADDR, u8]

/-- C19: `fillpassword(pw)` stops at the first failing write and returns its
error; when the four writes succeed it returns 0 and has issued exactly the
writes of `(pw >> 24) & 0xFF` to `0x51:0x7B`, `(pw >> 16) & 0xFF` to `0x7C`,
`(pw >> 8) & 0xFF` to `0x7D` and `pw & 0xFF` to `0x7E`, in this order; on the
byte store the four registers then hold these bytes, and after
`fillpassword(0xFFFFFFFF)` they hold what the one message
`[0x7B, 0xFF, 0xFF, 0xFF, 0xFF]` of `i2c_mii_init_rollball` leaves in them. -/
theorem fillpassword_contract {σ : Type} (bus : Bus σ) (w : World σ) (pw : Nat) :
    let r1 := i2c_write_byte bus w 0x51 0x7b ((u32 pw >>> 24) &&& 0xff)
    let r2 := i2c_write_byte bus r1.2 0x51 0x7c ((u32 pw >>> 16) &&& 0xff)
    let r3 := i2c_write_byte bus r2.2 0x51 0x7d ((u32 pw >>> 8) &&& 0xff)
    let r4 := i2c_write_byte bus r3.2 0x51 0x7e (u32 pw &&& 0xff)
    (r1.1 < 0 → fillpassword bus w pw = r1 ∧
      r1.2.log = w.log ++ [[⟨0x51, 0, 2, [0x7b, (u32 pw >>> 24) &&& 0xff]⟩]]) ∧
    (0 ≤ r1.1 → r2.1 < 0 → fillpassword bus w pw = r2 ∧
      r2.2.log = w.log ++ [[⟨0x51, 0, 2, [0x7b, (u32 pw >>> 24) &&& 0xff]⟩],
        [⟨0x51, 0, 2, [0x7c, (u32 pw >>> 16) &&& 0xff]⟩]]) ∧
    (0 ≤ r1.1 → 0 ≤ r2.1 → r3.1 < 0 → fillpassword bus w pw = r3 ∧
      r3.2.log = w.log ++ [[⟨0x51, 0, 2, [0x7b, (u32 pw >>> 24) &&& 0xff]⟩],
        [⟨0x51, 0, 2, [0x7c, (u32 pw >>> 16) &&& 0xff]⟩],
        [⟨0x51, 0, 2, [0x7d, (u32 pw >>> 8) &&& 0xff]⟩]]) ∧
    (0 ≤ r1.1 → 0 ≤ r2.1 → 0 ≤ r3.1 → r4.1 < 0 → fillpassword bus w pw = r4) ∧
    (0 ≤ r1.1 → 0 ≤ r2.1 → 0 ≤ r3.1 → 0 ≤ r4.1 → fillpassword bus w pw = (0, r4.2)) ∧
    r4.2.log = w.log ++ [[⟨0x51, 0, 2, [0x7b, (u32 pw >>> 24) &&& 0xff]⟩],
        [⟨0x51, 0, 2, [0x7c, (u32 pw >>> 16) &&& 0xff]⟩],
        [⟨0x51, 0, 2, [0x7d, (u32 pw >>> 8) &&& 0xff]⟩],
        [⟨0x51, 0, 2, [0x7e, u32 pw &&& 0xff]⟩]] ∧
    (∀ e : World Eeprom,
      (fillpassword eepromBus e pw).1 = 0 ∧
      (fillpassword eepromBus e pw).2.dev.peek 0x51 0x7b = (u32 pw >>> 24) &&& 0xff ∧
      (fillpassword eepromBus e pw).2.dev.peek 0x51 0x7c = (u32 pw >>> 16) &&& 0xff ∧
      (fillpassword eepromBus e pw).2.dev.peek 0x51 0x7d = (u32 pw >>> 8) &&& 0xff ∧
      (fillpassword eepromBus e pw).2.dev.peek 0x51 0x7e = u32 pw &&& 0xff ∧
      (∀ reg, 0x7b ≤ reg → reg ≤ 0x7e →
        (fillpassword eepromBus e 0xFFFFFFFF).2.dev.peek 0x51 reg =
          (i2c_mii_init_rollball eepromBus e).2.dev.peek 0x51 reg)) := by
  intro r1 r2 r3 r4
  have l1 : r1.2.log = w.log ++ [[⟨0x51, 0, 2, [0x7b, (u32 pw >>> 24) &&& 0xff]⟩]] := by
    simp only [r1, i2c_write_byte_log, u8_and_ff]; rfl
  have l2 : r2.2.log = r1.2.log ++ [[⟨0x51, 0, 2, [0x7c, (u32 pw >>> 16) &&& 0xff]⟩]] := by
    simp only [r2, i2c_write_byte_log, u8_and_ff]; rfl
  have l3 : r3.2.log = r2.2.log ++ [[⟨0x51, 0, 2, [0x7d, (u32 pw >>> 8) &&& 0xff]⟩]] := by
    simp only [r3, i2c_write_byte_log, u8_and_ff]; rfl
  have l4 : r4.2.log = r3.2.log ++ [[⟨0x51, 0, 2, [0x7e, u32 pw &&& 0xff]⟩]] := by
    simp only [r4, i2c_write_byte_log, u8_and_ff]; rfl
  refine ⟨?_, ?_, ?_, ?_, ?_, ?_, ?_⟩
  · intro h1
    refine ⟨?_, l1⟩
    simp only [fillpassword]
    rw [if_pos h1]
  · intro h1 h2
    refine ⟨?_, by rw [l2, l1]; simp⟩
    simp only [fillpassword]
    rw [if_neg (not_lt.mpr h1), if_pos h2]
  · intro h1 h2 h3
    refine ⟨?_, by rw [l3, l2, l1]; simp⟩
    simp only [fillpassword]
    rw [if_neg (not_lt.mpr h1), if_neg (not_lt.mpr h2), if_pos h3]
  · intro h1 h2 h3 h4
    simp only [fillpassword]
    rw [if_neg (not_lt.mpr h1), if_neg (not_lt.mpr h2), if_neg (not_lt.mpr h3), if_pos h4]
  · intro h1 h2 h3 h4
    simp only [fillpassword]
    rw [if_neg (not_lt.mpr h1), if_neg (not_lt.mpr h2), if_neg (not_lt.mpr h3),
      if_neg (not_lt.mpr h4)]
  · rw [l4, l3, l2, l1]; simp
  · intro e
    obtain ⟨hv, hm⟩ := fillpassword_eeprom e pw
    refine ⟨hv, ?_, ?_, ?_, ?_, ?_⟩
    · simp [Eeprom.peek, hm, u8, and_ff_mod]
    · simp [Eeprom.peek, hm, u8, and_ff_mod]
    · simp [Eeprom.peek, hm, u8, and_ff_mod]
    · simp [Eeprom.peek, hm, u8, and_ff_mod]
    · intro reg hlo hhi
      have hf := (fillpassword_eeprom e 0xFFFFFFFF).2
      have hi := init_rollball_eeprom e
      have hreg : reg = 0x7b ∨ reg = 0x7c ∨ reg = 0x7d ∨ reg = 0x7e := by omega
      rcases hreg with h | h | h | h <;> subst h <;>
        simp [Eeprom.peek, hf, hi, u8, u32, and_ff]

/-! ### `rbpassword` -/

theorem int_to_u32_shift (b k : Nat) (hb : b < 256) (hk : k ≤ 24) :
    int_to_u32 ((b : Int) * 2 ^ k) = b <<< k := by
  have h1 : ((b : Int) * 2 ^ k) = ((b * 2 ^ k : Nat) : Int) := by push_cast; rfl
  have h2 : b * 2 ^ k < 4294967296 := by
    calc b * 2 ^ k ≤ 255 * 2 ^ 24 :=
          Nat.mul_le_mul (by omega) (Nat.pow_le_pow_right (by decide) hk)
      _ < 4294967296 := by decide
  rw [int_to_u32, h1, Nat.shiftLeft_eq]
  omega

theorem int_to_u32_byte (b : Nat) (hb : b < 256) : int_to_u32 (b : Int) = b := by
  rw [int_to_u32]
  omega

theorem u8_lt (x : Nat) : u8 x < 256 := Nat.mod_lt _ (by decide)

theorem paged_read_byte_val (w : World PagedDev) (reg : Nat) (hreg : reg < 256) :
    (i2c_read_byte pagedBus w 0x51 reg).1 =
      ((if reg = 0x7f then u8 w.dev.page
        else if 0x80 ≤ reg then u8 (w.dev.upper w.dev.page reg) else 0 : Nat) : Int) := by
  have h51 : u8 0x51 = 0x51 := rfl
  simp [i2c_read_byte, i2c_transfer, pagedBus, byteAt, u8_of_lt hreg, I2C_M_RD, h51]
  split_ifs <;> simp [u8_u8, u8]

theorem paged_read_byte_dev (w : World PagedDev) (reg : Nat) (hreg : reg < 256) :
    (i2c_read_byte pagedBus w 0x51 reg).2.dev = w.dev := by
  have h51 : u8 0x51 = 0x51 := rfl
  simp [i2c_read_byte, i2c_transfer, pagedBus, byteAt, u8_of_lt hreg, I2C_M_RD, h51]

theorem paged_write_page_val (w : World PagedDev) (val : Nat) :
    (i2c_write_byte pagedBus w 0x51 0x7f val).1 = 1 := by
  have h51 : u8 0x51 = 0x51 := rfl
  have h7f : u8 0x7f = 0x7f := rfl
  simp [i2c_write_byte, i2c_transfer, pagedBus, h51, h7f]

theorem paged_write_page_dev (w : World PagedDev) (val : Nat) :
    (i2c_write_byte pagedBus w 0x51 0x7f val).2.dev = { w.dev with page := u8 val } := by
  have h51 : u8 0x51 = 0x51 := rfl
  have h7f : u8 0x7f = 0x7f := rfl
  simp [i2c_write_byte, i2c_transfer, pagedBus, h51, h7f, u8_u8]

/-- C13: on the paged fake (every exchange succeeds), for every content of
`0x51:0xFC..0xFF` on page 3 and every initial page `p`, `rbpassword` stores
`(b0 << 24) | (b1 << 16) | (b2 << 8) | b3` in `*pw`, a value below `2^32` also
when `b0 ≥ 0x80`, returns a non-negative result and leaves the page register
equal to `p`. -/
theorem rbpassword_reads_password (w : World PagedDev) (pw0 : Nat)
    (hp : w.dev.page < 256) :
    let b0 := u8 (w.dev.upper 3 0xfc)
    let b1 := u8 (w.dev.upper 3 0xfd)
    let b2 := u8 (w.dev.upper 3 0xfe)
    let b3 := u8 (w.dev.upper 3 0xff)
    0 ≤ (rbpassword pagedBus w pw0).1 ∧
    (rbpassword pagedBus w pw0).2.1 = (b0 <<< 24) ||| (b1 <<< 16) ||| (b2 <<< 8) ||| b3 ∧
    (rbpassword pagedBus w pw0).2.1 < 4294967296 ∧
    (rbpassword pagedBus w pw0).2.2.dev.page = w.dev.page ∧
    (rbpassword pagedBus w pw0).2.2.dev.upper = w.dev.upper := by
  intro b0 b1 b2 b3
  have hb0 : b0 < 256 := u8_lt _
  have hb1 : b1 < 256 := u8_lt _
  have hb2 : b2 < 256 := u8_lt _
  have hb3 : b3 < 256 := u8_lt _
  have hn : ∀ x : Nat, ¬ ((x : Int) < 0) := fun x => not_lt.mpr (Int.natCast_nonneg x)
  have h3 : u8 3 = 3 := rfl
  have s24 : int_to_u32 ((b0 : Int) * 16777216) = b0 <<< 24 :=
    int_to_u32_shift b0 24 hb0 (by decide)
  have s16 : int_to_u32 ((b1 : Int) * 65536) = b1 <<< 16 :=
    int_to_u32_shift b1 16 hb1 (by decide)
  have s8 : int_to_u32 ((b2 : Int) * 256) = b2 <<< 8 :=
    int_to_u32_shift b2 8 hb2 (by decide)
  have s0 : int_to_u32 (b3 : Int) = b3 := int_to_u32_byte b3 hb3
  have hpw : (rbpassword pagedBus w pw0).2.1 =
      (b0 <<< 24) ||| (b1 <<< 16) ||| (b2 <<< 8) ||| b3 := by
    simp [rbpassword, paged_read_byte_val, paged_read_byte_dev, paged_write_page_val,
      paged_write_page_dev, hn, h3]
    rw [s24, s16, s8, s0]
  refine ⟨?_, hpw, ?_, ?_, ?_⟩
  · simp [rbpassword, paged_read_byte_val, paged_read_byte_dev, paged_write_page_val,
      paged_write_page_dev, hn]
  · rw [hpw]
    have e0 : b0 <<< 24 < 2 ^ 32 := by rw [Nat.shiftLeft_eq]; omega
    have e1 : b1 <<< 16 < 2 ^ 32 := by rw [Nat.shiftLeft_eq]; omega
    have e2 : b2 <<< 8 < 2 ^ 32 := by rw [Nat.shiftLeft_eq]; omega
    have e3 : b3 < 2 ^ 32 := by omega
    exact Nat.or_lt_two_pow (Nat.or_lt_two_pow (Nat.or_lt_two_pow e0 e1) e2) e3
  · simp [rbpassword, paged_read_byte_val, paged_read_byte_dev, paged_write_page_val,
      paged_write_page_dev, hn, u8_u8, u8_of_lt hp]
  · simp [rbpassword, paged_read_byte_val, paged_read_byte_dev, paged_write_page_val,
      paged_write_page_dev, hn]

theorem rbpassword_reads_password_witness :
    (rbpassword pagedBus pagedModule 0).2.1 = 0x92345678 ∧
    (rbpassword pagedBus pagedModule 0).2.2.dev.page = 2 :=
  have h := rbpassword_reads_password pagedModule 0 (by decide)
  ⟨h.2.1.trans (by decide), h.2.2.2.1⟩

/-- C12 (the code at the failing input): the read of `0x51:0xfc` fails with `-5`
and `rbpassword` goes on: it returns 1, the result of the restore write, and
leaves in `*pw` the value `0xFB345678` built from the `-5` of the failed
read. -/
theorem rbpassword_ignores_read_error :
    let w0 : World (List ioctl_result) := ⟨readFailScript, [], []⟩
    let saved_page := i2c_read_byte scriptBus w0 0x51 0x7f
    let sel := i2c_write_byte scriptBus saved_page.2 0x51 0x7f 0x03
    (i2c_read_byte scriptBus sel.2 0x51 0xfc).1 = -5 ∧
    (rbpassword scriptBus w0 0).1 = 1 ∧
    (rbpassword scriptBus w0 0).2.1 = 0xFB345678 := by
  decide

/-! ### `fillstring` -/

theorem fieldWrites_succ (str : List Nat) (c i k : Nat) :
    fieldWrites str c i (k + 1) =
      [⟨0x50, 0, 2, [u8 c, u8 (fieldByte str i)]⟩] :: fieldWrites str (c + 1) (i + 1) k := by
  simp only [fieldWrites, List.range_succ_eq_map, List.map_cons, List.map_map, Nat.add_zero]
  congr 1
  apply List.map_congr_left
  intro t _
  simp only [Function.comp, Nat.succ_eq_add_one]
  have e1 : c + (t + 1) = c + 1 + t := by omega
  have e2 : i + (t + 1) = i + 1 + t := by omega
  rw [e1, e2]

theorem fieldWrites_snoc (str : List Nat) (c i k : Nat) :
    fieldWrites str c i (k + 1) =
      fieldWrites str c i k ++ [[⟨0x50, 0, 2, [u8 (c + k), u8 (fieldByte str (i + k))]⟩]] := by
  simp [fieldWrites, List.range_succ]

/-- After the end of the string the index stays, and the bytes are spaces
whatever the index. -/
theorem fieldByte_next (str : List Nat) (i t : Nat) (hi : i ≤ str.length) :
    fieldByte str ((if i < str.length then i + 1 else i) + t) = fieldByte str (i + 1 + t) := by
  by_cases h : i < str.length
  · rw [if_pos h]
  · rw [if_neg h]
    have h1 : ¬ (i + t < str.length) := by omega
    have h2 : ¬ (i + 1 + t < str.length) := by omega
    simp only [fieldByte, if_neg h1, if_neg h2]

theorem fieldWrites_next (str : List Nat) (c i k : Nat) (hi : i ≤ str.length) :
    fieldWrites str c (if i < str.length then i + 1 else i) k = fieldWrites str c (i + 1) k := by
  simp only [fieldWrites]
  apply List.map_congr_left
  intro t _
  rw [fieldByte_next str i t hi]

/-- The loop of `fillstring` on any bus: either every write succeeded, the
result is 0 and the log grew by the `n` writes of the field in order, or
the write of some byte `k` failed after the writes of the bytes before it, the
result is the result of that write and nothing was issued after it. -/
theorem fillstring_loop_spec {σ : Type} (bus : Bus σ) (str : List Nat) (n : Nat) :
    ∀ (c i : Nat) (w : World σ), i ≤ str.length →
    ((fillstring_loop bus str n c i w).1 = 0 ∧
      (fillstring_loop bus str n c i w).2.log = w.log ++ fieldWrites str c i n) ∨
    (∃ k, k < n ∧ ∃ wk : World σ, wk.log = w.log ++ fieldWrites str c i k ∧
      (i2c_write_byte bus wk 0x50 (c + k) (fieldByte str (i + k))).1 < 0 ∧
      fillstring_loop bus str n c i w =
        i2c_write_byte bus wk 0x50 (c + k) (fieldByte str (i + k))) := by
  induction n with
  | zero =>
    intro c i w _
    left
    simp [fillstring_loop, fieldWrites]
  | succ n ih =>
    intro c i w hi
    have hval : (if i < str.length then str.getD i 0 else 0x20) = fieldByte str i := rfl
    simp only [fillstring_loop, hval]
    by_cases hneg : (i2c_write_byte bus w 0x50 c (fieldByte str i)).1 < 0
    · right
      refine ⟨0, by omega, w, by simp [fieldWrites], by simpa using hneg, ?_⟩
      rw [if_pos hneg]
      simp
    · rw [if_neg hneg]
      have hi' : (if i < str.length then i + 1 else i) ≤ str.length := by
        split <;> omega
      rcases ih (c + 1) (if i < str.length then i + 1 else i)
        (i2c_write_byte bus w 0x50 c (fieldByte str i)).2 hi' with ⟨h0, hl⟩ | ⟨k, hk, wk, hwl, hwn, hwe⟩
      · left
        refine ⟨h0, ?_⟩
        rw [hl, i2c_write_byte_log, fieldWrites_next str (c + 1) i n hi, fieldWrites_succ]
        simp [u8]
      · right
        refine ⟨k + 1, by omega, wk, ?_, ?_, ?_⟩
        · rw [hwl, i2c_write_byte_log, fieldWrites_next str (c + 1) i k hi, fieldWrites_succ]
          simp [u8]
        · rw [fieldByte_next str i k hi] at hwn
          have e1 : c + (k + 1) = c + 1 + k := by omega
          have e2 : i + (k + 1) = i + 1 + k := by omega
          rw [e1, e2]; exact hwn
        · rw [fieldByte_next str i k hi] at hwe
          have e1 : c + (k + 1) = c + 1 + k := by omega
          have e2 : i + (k + 1) = i + 1 + k := by omega
          rw [e1, e2]; exact hwe

/-- The loop of `fillstring` on the byte store: it returns 0 and the `n` bytes
from `c` on hold the bytes of the field; the rest of the store is as before. -/
theorem fillstring_loop_eeprom (str : List Nat) (n : Nat) :
    ∀ (c i : Nat) (w : World Eeprom), i ≤ str.length → c + n ≤ 256 →
    (fillstring_loop eepromBus str n c i w).1 = 0 ∧
    (fillstring_loop eepromBus str n c i w).2.dev.mem = fun a r =>
      if a = 0x50 ∧ c ≤ r ∧ r < c + n then u8 (fieldByte str (i + (r - c)))
      else w.dev.mem a r := by
  induction n with
  | zero =>
    intro c i w _ _
    refine ⟨rfl, ?_⟩
    funext a r
    have h : ¬ (a = 0x50 ∧ c ≤ r ∧ r < c + 0) := by omega
    simp only [fillstring_loop, if_neg h]
  | succ n ih =>
    intro c i w hi hc
    have hval : (if i < str.length then str.getD i 0 else 0x20) = fieldByte str i := rfl
    have hi' : (if i < str.length then i + 1 else i) ≤ str.length := by
      split <;> omega
    obtain ⟨h0, hm⟩ := ih (c + 1) (if i < str.length then i + 1 else i)
      (i2c_write_byte eepromBus w 0x50 c (fieldByte str i)).2 hi' (by omega)
    simp only [fillstring_loop, hval, eeprom_write_byte_val, show ¬ ((1 : Int) < 0) by decide,
      if_false]
    refine ⟨h0, ?_⟩
    rw [hm, eeprom_write_byte_mem]
    funext a r
    have hcu : u8 c = c := u8_of_lt (by omega)
    have h50 : u8 0x50 = 0x50 := rfl
    simp only [hcu, h50, fieldByte_next str i _ hi]
    by_cases ha : a = 0x50
    · by_cases hr : r = c
      · subst hr
        simp [ha]
      · by_cases hin : c + 1 ≤ r ∧ r < c + 1 + n
        · have e : i + 1 + (r - (c + 1)) = i + (r - c) := by omega
          have hin' : c ≤ r ∧ r < c + (n + 1) := by omega
          simp [ha, hin, hin', e]
        · have hin' : ¬ (c ≤ r ∧ r < c + (n + 1)) := by omega
          simp [ha, hr, hin, hin']
    · simp [ha]

theorem fieldByte_lt (str : List Nat) (hstr : ∀ b ∈ str, b < 256) (i : Nat) :
    fieldByte str i < 256 := by
  unfold fieldByte
  split
  · rename_i h
    rw [List.getD_eq_getElem _ _ h]
    exact hstr _ (List.getElem_mem h)
  · decide

theorem fieldWrites_eq (str : List Nat) (hstr : ∀ b ∈ str, b < 256) (c k : Nat)
    (hc : c + k ≤ 256) :
    fieldWrites str c 0 k = (List.range k).map (fun i =>
      [⟨0x50, 0, 2, [c + i, if i < str.length then str.getD i 0 else 0x20]⟩]) := by
  simp only [fieldWrites]
  apply List.map_congr_left
  intro t ht
  have ht' := List.mem_range.mp ht
  rw [u8_of_lt (by omega : c + t < 256), u8_of_lt (fieldByte_lt str hstr _), Nat.zero_add]
  rfl

/-- Past the end of the string the loop of `fillstring` does not depend on the
index. -/
theorem fillstring_loop_past {σ : Type} (bus : Bus σ) (str : List Nat) (n : Nat) :
    ∀ (c i j : Nat) (w : World σ), str.length ≤ i → str.length ≤ j →
    fillstring_loop bus str n c i w = fillstring_loop bus str n c j w := by
  induction n with
  | zero => intro c i j w _ _; rfl
  | succ n ih =>
    intro c i j w hi hj
    simp only [fillstring_loop, if_neg (not_lt.mpr hi), if_neg (not_lt.mpr hj)]
    rw [ih (c + 1) i j _ hi hj]

/-- One iteration of the loop of `fillstring`. -/
theorem fillstring_loop_step {σ : Type} (bus : Bus σ) (str : List Nat) (n c i : Nat)
    (w : World σ) :
    fillstring_loop bus str (n + 1) c i w =
      if (i2c_write_byte bus w 0x50 c (fieldByte str i)).1 < 0 then
        i2c_write_byte bus w 0x50 c (fieldByte str i)
      else fillstring_loop bus str n (c + 1) (i + 1)
        (i2c_write_byte bus w 0x50 c (fieldByte str i)).2 := by
  have hval : (if i < str.length then str.getD i 0 else 0x20) = fieldByte str i := rfl
  simp only [fillstring_loop, hval]
  by_cases h : i < str.length
  · simp only [if_pos h]
  · simp only [if_neg h]
    rw [fillstring_loop_past bus str n (c + 1) i (i + 1) _ (by omega) (by omega)]

theorem fieldPrefix_log {σ : Type} (bus : Bus σ) (str : List Nat) (k : Nat) :
    ∀ (c i : Nat) (w : World σ),
    (fieldPrefix bus str k c i w).log = w.log ++ fieldWrites str c i k := by
  induction k with
  | zero => intro c i w; simp [fieldPrefix, fieldWrites]
  | succ k ih =>
    intro c i w
    rw [fieldPrefix, ih, i2c_write_byte_log, fieldWrites_succ]
    simp [u8]

/-- The loop of `fillstring` on any bus: when the writes of the bytes before
byte `k` succeed and the write of byte `k` fails, the loop returns with what
that write gave. -/
theorem fillstring_loop_fail {σ : Type} (bus : Bus σ) (str : List Nat) (n : Nat) :
    ∀ (c i : Nat) (w : World σ) (k : Nat), k < n →
    (∀ j, j < k → 0 ≤ (i2c_write_byte bus (fieldPrefix bus str j c i w) 0x50 (c + j)
      (fieldByte str (i + j))).1) →
    (i2c_write_byte bus (fieldPrefix bus str k c i w) 0x50 (c + k)
      (fieldByte str (i + k))).1 < 0 →
    fillstring_loop bus str n c i w =
      i2c_write_byte bus (fieldPrefix bus str k c i w) 0x50 (c + k) (fieldByte str (i + k)) := by
  induction n with
  | zero => intro c i w k hk; omega
  | succ n ih =>
    intro c i w k hk hok hfail
    rw [fillstring_loop_step]
    cases k with
    | zero =>
      have hf : (i2c_write_byte bus w 0x50 c (fieldByte str i)).1 < 0 := hfail
      rw [if_pos hf]
      rfl
    | succ k =>
      have h0 : 0 ≤ (i2c_write_byte bus w 0x50 c (fieldByte str i)).1 := hok 0 (by omega)
      rw [if_neg (not_lt.mpr h0)]
      have e1 : c + (k + 1) = c + 1 + k := by omega
      have e2 : i + (k + 1) = i + 1 + k := by omega
      rw [e1, e2]
      rw [e1, e2] at hfail
      refine ih (c + 1) (i + 1) _ k (by omega) (fun j hj => ?_) hfail
      have h := hok (j + 1) (by omega)
      have e3 : c + (j + 1) = c + 1 + j := by omega
      have e4 : i + (j + 1) = i + 1 + j := by omega
      rw [e3, e4] at h
      exact h

/-- C16: for a string of bytes and a field of 16 bytes inside the 256 offsets
of the EEPROM; on the byte store (every write succeeds) `fillstring(s, start,
16)` returns 0, leaves byte `start + i` equal to `s[i]` for `i < min(len, 16)`
and to the space `0x20` for `len ≤ i < 16`, leaves every other byte as it was,
and issues exactly these 16 writes in increasing address order; on any bus, if
the writes of the bytes before byte `i` succeed and the write of byte `i`
fails, it returns what that write gave, its error, and the writes issued are
those of the bytes `0..i` and no other; and if it returns an error, that is
the result of the write of some byte `i`, issued after the writes of the bytes
before `i` and followed by no exchange. -/
theorem fillstring_contract (str : List Nat) (start : Nat)
    (hstr : ∀ b ∈ str, b < 256) (hstart : start + 16 ≤ 256) :
    (∀ e : World Eeprom,
      (fillstring eepromBus e str start 16).1 = 0 ∧
      (∀ i, i < 16 → (fillstring eepromBus e str start 16).2.dev.peek 0x50 (start + i) =
        if i < str.length then str.getD i 0 else 0x20) ∧
      (∀ a r, ¬ (a = 0x50 ∧ start ≤ r ∧ r < start + 16) →
        (fillstring eepromBus e str start 16).2.dev.mem a r = e.dev.mem a r) ∧
      (fillstring eepromBus e str start 16).2.log = e.log ++ (List.range 16).map (fun i =>
        [⟨0x50, 0, 2, [start + i, if i < str.length then str.getD i 0 else 0x20]⟩])) ∧
    (∀ (σ : Type) (bus : Bus σ) (w : World σ) (i : Nat), i < 16 →
      (∀ j, j < i → 0 ≤ (i2c_write_byte bus (fieldPrefix bus str j start 0 w) 0x50
        (start + j) (fieldByte str j)).1) →
      (i2c_write_byte bus (fieldPrefix bus str i start 0 w) 0x50 (start + i)
        (fieldByte str i)).1 < 0 →
      fillstring bus w str start 16 =
        i2c_write_byte bus (fieldPrefix bus str i start 0 w) 0x50 (start + i)
          (fieldByte str i) ∧
      (fillstring bus w str start 16).1 < 0 ∧
      (fillstring bus w str start 16).2.log = w.log ++ (List.range (i + 1)).map (fun j =>
        [⟨0x50, 0, 2, [start + j, if j < str.length then str.getD j 0 else 0x20]⟩])) ∧
    (∀ (σ : Type) (bus : Bus σ) (w : World σ), (fillstring bus w str start 16).1 < 0 →
      ∃ i, i < 16 ∧ ∃ wi : World σ,
        wi.log = w.log ++ (List.range i).map (fun j =>
          [⟨0x50, 0, 2, [start + j, if j < str.length then str.getD j 0 else 0x20]⟩]) ∧
        fillstring bus w str start 16 = i2c_write_byte bus wi 0x50 (start + i)
          (if i < str.length then str.getD i 0 else 0x20) ∧
        (fillstring bus w str start 16).2.log = w.log ++ (List.range (i + 1)).map (fun j =>
          [⟨0x50, 0, 2, [start + j, if j < str.length then str.getD j 0 else 0x20]⟩])) := by
  refine ⟨?_, ?_, ?_⟩
  · intro e
    obtain ⟨h0, hm⟩ := fillstring_loop_eeprom str 16 start 0 e (Nat.zero_le _) hstart
    have hl : (fillstring eepromBus e str start 16).2.log = e.log ++ fieldWrites str start 0 16 := by
      rcases fillstring_loop_spec eepromBus str 16 start 0 e (Nat.zero_le _) with
        ⟨_, hl⟩ | ⟨k, _, wk, _, hneg, _⟩
      · exact hl
      · rw [eeprom_write_byte_val] at hneg
        exact absurd hneg (by decide)
    refine ⟨h0, ?_, ?_, ?_⟩
    · intro i hi
      have h1 : start ≤ start + i := by omega
      have h2 : start + i < start + 16 := by omega
      show u8 ((fillstring_loop eepromBus str 16 start 0 e).2.dev.mem 0x50 (start + i)) = _
      rw [hm]
      simp only [h1, h2, and_self, if_true, u8_u8, Nat.zero_add, Nat.add_sub_cancel_left]
      rw [u8_of_lt (fieldByte_lt str hstr _)]
      rfl
    · intro a r hout
      show (fillstring_loop eepromBus str 16 start 0 e).2.dev.mem a r = _
      rw [hm]
      simp only [if_neg hout]
    · rw [hl, fieldWrites_eq str hstr start 16 hstart]
  · intro σ bus w i hi hok hfail
    have hok' : ∀ j, j < i → 0 ≤ (i2c_write_byte bus (fieldPrefix bus str j start 0 w) 0x50
        (start + j) (fieldByte str (0 + j))).1 := by
      intro j hj
      rw [Nat.zero_add]
      exact hok j hj
    have hfail' : (i2c_write_byte bus (fieldPrefix bus str i start 0 w) 0x50 (start + i)
        (fieldByte str (0 + i))).1 < 0 := by
      rw [Nat.zero_add]
      exact hfail
    have he : fillstring bus w str start 16 =
        i2c_write_byte bus (fieldPrefix bus str i start 0 w) 0x50 (start + i)
          (fieldByte str i) := by
      have h := fillstring_loop_fail bus str 16 start 0 w i hi hok' hfail'
      rw [Nat.zero_add] at h
      exact h
    refine ⟨he, ?_, ?_⟩
    · rw [he]; exact hfail
    · rw [he, i2c_write_byte_log, fieldPrefix_log,
        ← fieldWrites_eq str hstr start (i + 1) (by omega), fieldWrites_snoc, Nat.zero_add]
      simp [u8]
  · intro σ bus w hneg
    rcases fillstring_loop_spec bus str 16 start 0 w (Nat.zero_le _) with
      ⟨h0, _⟩ | ⟨k, hk, wk, hwl, _, hwe⟩
    · have : (fillstring bus w str start 16).1 = 0 := h0
      omega
    · rw [Nat.zero_add] at hwe
      refine ⟨k, hk, wk, ?_, hwe, ?_⟩
      · rw [hwl, fieldWrites_eq str hstr start k (by omega)]
      · have hwe' : fillstring bus w str start 16 =
            i2c_write_byte bus wk 0x50 (start + k) (fieldByte str k) := hwe
        rw [hwe', i2c_write_byte_log, hwl, ← fieldWrites_eq str hstr start (k + 1) (by omega),
          fieldWrites_snoc, Nat.zero_add]
        simp [u8]

theorem fillstring_contract_witness :
    ((fillstring eepromBus (scenario 0) [0x41, 0x42] 20 16).1 = 0 ∧
      (fillstring eepromBus (scenario 0) [0x41, 0x42] 20 16).2.dev.peek 0x50 21 = 0x42 ∧
      (fillstring eepromBus (scenario 0) [0x41, 0x42] 20 16).2.dev.peek 0x50 35 = 0x20) ∧
    ((fillstring scriptBus ⟨thirdFailScript, [], []⟩ [0x41, 0x42] 20 16).1 = -5 ∧
      (fillstring scriptBus ⟨thirdFailScript, [], []⟩ [0x41, 0x42] 20 16).2.log =
        [[⟨0x50, 0, 2, [20, 0x41]⟩], [⟨0x50, 0, 2, [21, 0x42]⟩], [⟨0x50, 0, 2, [22, 0x20]⟩]]) :=
  have h := (fillstring_contract [0x41, 0x42] 20 (by decide) (by decide)).1 (scenario 0)
  have g := (fillstring_contract [0x41, 0x42] 20 (by decide) (by decide)).2.1 _ scriptBus
    ⟨thirdFailScript, [], []⟩ 2 (by decide)
    (fun j hj => by
      have hj2 : j < 2 := hj
      interval_cases j <;> decide)
    (by decide)
  ⟨⟨h.1, h.2.1 1 (by decide), h.2.1 15 (by decide)⟩,
    (congrArg Prod.fst g.1).trans (by decide), g.2.2.trans (by decide)⟩

/-! ### Range checks of the commands -/

theorem long_to_int_of_int (x : Int) (h1 : -2147483648 ≤ x) (h2 : x < 2147483648) :
    long_to_int x = x := by
  unfold long_to_int
  omega

/-- In the `c22` commands a REGISTER argument that is outside `0x00..0x1F` as
the `int` the code tests ends the command in `exithelp` with the world as it
was, so no exchange was issued; with enough arguments and a bus address that
passes its check the message is `"Error: dregister invalid!"`; a write with
arguments in range ends in the `exit(0)` of `main` whatever the bus did, so a
bus failure is a different outcome. -/
theorem c22_register_range {σ : Type} (bus : Bus σ) (w : World σ) (nargs : Nat)
    (rollball : Bool) (mode : Char) (busaddr dregister value : strtol_result)
    (hreg : long_to_int dregister.value < 0 ∨ 0x1f < long_to_int dregister.value) :
    (∃ str, main_c22 bus w nargs rollball mode busaddr dregister value =
      (Exit.exithelp str, w)) ∧
    (5 ≤ nargs → busaddr.rest = false → 0 ≤ long_to_int busaddr.value →
      main_c22 bus w nargs rollball mode busaddr dregister value =
        (Exit.exithelp Fatal.dregister_invalid, w)) ∧
    (∀ (reg val : strtol_result), 6 ≤ nargs → busaddr.rest = false →
      0 ≤ long_to_int busaddr.value →
      reg.rest = false → 0 ≤ long_to_int reg.value → long_to_int reg.value ≤ 0x1f →
      val.rest = false → 0 ≤ long_to_int val.value → long_to_int val.value ≤ 0xffff →
      (main_c22 bus w nargs false 'w' busaddr reg val).1 = Exit.exit0 ∧
      (main_c22 bus w nargs false 'w' busaddr reg val).2 =
        (i2c_mii_write_default_c22 bus w (long_to_int busaddr.value).toNat
          (long_to_int reg.value).toNat (long_to_int val.value).toNat).2) := by
  have hr : dregister.rest = true ∨ long_to_int dregister.value < 0 ∨
      long_to_int dregister.value > 0x1f := by
    rcases hreg with h | h
    · exact Or.inr (Or.inl h)
    · exact Or.inr (Or.inr h)
  refine ⟨?_, ?_, ?_⟩
  · by_cases h5 : nargs < 5
    · exact ⟨Fatal.not_enough_arguments, by simp only [main_c22, if_pos h5]⟩
    · by_cases hb : busaddr.rest = true ∨ long_to_int busaddr.value < 0
      · exact ⟨Fatal.bus_address_not_a_number, by simp only [main_c22, if_neg h5, if_pos hb]⟩
      · exact ⟨Fatal.dregister_invalid,
          by simp only [main_c22, if_neg h5, if_neg hb, if_pos hr]⟩
  · intro h5 hb1 hb2
    unfold main_c22
    rw [if_neg (by omega), if_neg (by simp [hb1, hb2]), if_pos hr]
  · intro reg val h6 hb1 hb2 hr1 hr2 hr3 hv1 hv2 hv3
    unfold main_c22
    rw [if_neg (by omega), if_neg (by simp [hb1, hb2]),
      if_neg (by simp [hr1]; omega)]
    simp only [Bool.false_eq_true, if_false, show ('w' : Char) ≠ 'r' by decide, if_true]
    rw [if_neg (by omega), if_neg (by simp [hv1]; omega)]
    exact ⟨rfl, rfl⟩

theorem c22_register_range_witness :
    main_c22 scriptBus ⟨[], [], []⟩ 6 false 'w' ⟨0x56, false⟩ ⟨0x20, false⟩ ⟨0x1234, false⟩ =
      (Exit.exithelp Fatal.dregister_invalid, ⟨[], [], []⟩) :=
  (c22_register_range scriptBus ⟨[], [], []⟩ 6 false 'w' ⟨0x56, false⟩ ⟨0x20, false⟩
    ⟨0x1234, false⟩ (Or.inr (by decide))).2.1 (by decide) rfl (by decide)

/-- C14 (the code at the failing input): `c22m write 0x56 0x100000005 0x1234`.
The REGISTER argument `0x100000005` is outside `0x00..0x1F`; stored in the
`int` variable `dregister` it is 5 and passes the range test, so the command
issues the write of `0x1234` to register 5 of `0x56` and ends in `exit(0)`,
exactly as for the REGISTER argument 5.  The REGISTER argument `0x20` ends in
`exithelp` with the message `"Error: dregister invalid!"` and no exchange. -/
theorem c22_register_narrowed :
    long_to_int 0x100000005 = 5 ∧
    (main_c22 scriptBus ⟨[], [], []⟩ 6 false 'w' ⟨0x56, false⟩ ⟨0x100000005, false⟩
      ⟨0x1234, false⟩).1 = Exit.exit0 ∧
    (main_c22 scriptBus ⟨[], [], []⟩ 6 false 'w' ⟨0x56, false⟩ ⟨0x100000005, false⟩
      ⟨0x1234, false⟩).2.log = [[⟨0x56, 0, 3, [0x05, 0x12, 0x34]⟩]] ∧
    (main_c22 scriptBus ⟨[], [], []⟩ 6 false 'w' ⟨0x56, false⟩ ⟨5, false⟩
      ⟨0x1234, false⟩).1 = Exit.exit0 ∧
    (main_c22 scriptBus ⟨[], [], []⟩ 6 false 'w' ⟨0x56, false⟩ ⟨5, false⟩
      ⟨0x1234, false⟩).2.log = [[⟨0x56, 0, 3, [0x05, 0x12, 0x34]⟩]] ∧
    (main_c22 scriptBus ⟨[], [], []⟩ 6 false 'w' ⟨0x56, false⟩ ⟨0x20, false⟩
      ⟨0x1234, false⟩).1 = Exit.exithelp Fatal.dregister_invalid ∧
    (main_c22 scriptBus ⟨[], [], []⟩ 6 false 'w' ⟨0x56, false⟩ ⟨0x20, false⟩
      ⟨0x1234, false⟩).2.log = [] := by
  decide

/-- The BUS-ADDRESS argument `0xFFFFFFFF` is `-1` in the `int` variable
`busaddr`: the `byte` command ends in `exithelp` and issues no exchange. -/
theorem main_byte_busaddr_narrowed :
    long_to_int 0xFFFFFFFF = -1 ∧
    (main_byte scriptBus ⟨[], [], []⟩ 5 'r' false ⟨0xFFFFFFFF, false⟩ ⟨0x00, false⟩
      ⟨0, false⟩ 0).1 = Exit.exithelp Fatal.bus_address_not_a_number ∧
    (main_byte scriptBus ⟨[], [], []⟩ 5 'r' false ⟨0xFFFFFFFF, false⟩ ⟨0x00, false⟩
      ⟨0, false⟩ 0).2.log = [] := by
  decide

/-- C15 (the code at the failing inputs): the bus address `0x150` passes the
check of the `byte` command and the read goes to the peripheral address `0x50`;
the bus address `0x80` passes the checks of the `c22m` and `c45` commands and
the exchange is issued to the address `0x80`. -/
theorem bus_address_not_range_checked :
    (main_byte scriptBus ⟨[], [], []⟩ 5 'r' false ⟨0x150, false⟩ ⟨0x00, false⟩
      ⟨0, false⟩ 0).1 = Exit.exit0 ∧
    (main_byte scriptBus ⟨[], [], []⟩ 5 'r' false ⟨0x150, false⟩ ⟨0x00, false⟩
      ⟨0, false⟩ 0).2.log = [[⟨0x50, 0, 1, [0x00]⟩, ⟨0x50, I2C_M_RD, 1, []⟩]] ∧
    (main_c22 scriptBus ⟨[], [], []⟩ 6 false 'w' ⟨0x80, false⟩ ⟨0x00, false⟩
      ⟨0x1234, false⟩).2.log = [[⟨0x80, 0, 3, [0x00, 0x12, 0x34]⟩]] ∧
    (main_c45 scriptBus ⟨[], [], []⟩ 7 'w' ⟨0x80, false⟩ ⟨0x01, false⟩ ⟨0x0002, false⟩
      ⟨0x1234, false⟩).2.log = [[⟨0x80, 0, 5, [0x01, 0x00, 0x02, 0x12, 0x34]⟩]] := by
  decide

/-- C17 (the code at the failing input): `eepromfix -p 0 -V A -E 0x1e` on a bus
where the write of the first byte of the vendor name fails with `-5`:
`fillstring` returns `-5`, and the command goes on: the next exchange is the
write of the ext-cc byte `0x50:36`, the last one the write of `0xff` to
`0x51:0x7e`, and the command ends in `exit(0)`. -/
theorem eepromfix_continues_after_error :
    let w0 : World (List ioctl_result) := ⟨fieldFailScript, [], []⟩
    let w1 := (fillpassword scriptBus (checksums scriptBus w0 false).2 0).2
    let r := main_eepromfix scriptBus w0 (some 0) (some [0x41]) none (some 0x1e)
    w1.log.length = 100 ∧
    (fillstring scriptBus w1 [0x41] 20 16).1 = -5 ∧
    r.1 = Exit.exit0 ∧
    (r.2.log.drop 100).take 2 = [[⟨0x50, 0, 2, [20, 0x41]⟩], [⟨0x50, 0, 2, [36, 0x1e]⟩]] ∧
    r.2.log.getLast? = some [⟨0x51, 0, 2, [0x7e, 0xff]⟩] := by
  decide

/-! ### Brute force -/

/-- C18 (the code at the failing input): `runbruteforce` with the start
`0x00010000` (so `sa = 0`, `sb = 1`), `min = 0`, `max = 1`, on a module whose
password is `(1, 0, 0, 0)`: the second password byte written is 1 in the first
outer iteration and 1 again in the second one, the pair `(a, b) = (1, 0)` is
never tried and the search returns 0 (not found); from the start 0 the same
search returns 1. -/
theorem runbruteforce_inner_start_not_reset :
    outerSteps (runbruteforce (lockBus 1 0 0 0) zeroStore 0x00010000 0 1
      bfread_1 bfwrite_1 bfmod_1).2.log = [1, 1] ∧
    (runbruteforce (lockBus 1 0 0 0) zeroStore 0x00010000 0 1
      bfread_1 bfwrite_1 bfmod_1).1 = 0 ∧
    (runbruteforce (lockBus 1 0 0 0) zeroStore 0 0 1 bfread_1 bfwrite_1 bfmod_1).1 = 1 := by
  decide

theorem countIn_snoc (p : List i2c_msg → Bool) (l : List (List i2c_msg)) (t : List i2c_msg) :
    countIn p (l ++ [t]) = countIn p l + (if p t then 1 else 0) := by
  simp only [countIn, List.filter_append, List.length_append, List.filter_cons, List.filter_nil]
  split <;> simp

/-- The inner loop of `bruteforcepart` adds at most `ω` per iteration. -/
theorem bruteforcepart_d_count {σ : Type} (bus : Bus σ)
    (bfread : Bus σ → World σ → Int × World σ)
    (bfwrite : Bus σ → World σ → Int → Int × World σ) (p : List i2c_msg → Bool)
    (β ω : Nat) (hB : Budget bus bfread bfwrite p β ω) (value : Int) (check : Bool) (c : Nat)
    (n : Nat) : ∀ (d : Nat) (w : World σ),
    countIn p (bruteforcepart_d bus value check bfread bfwrite c n d w).2.log ≤
      countIn p w.log + n * ω := by
  induction n with
  | zero => intro d w; simp [bruteforcepart_d]
  | succ n ih =>
    intro d w
    have h1 := hB.pw w 0x7e d (Or.inr (Or.inr rfl))
    have h2 := hB.wr (i2c_write_byte bus w 0x51 0x7e d).2 value
    have h3 := hB.rd (bfwrite bus (i2c_write_byte bus w 0x51 0x7e d).2 value).2
    have i1 := ih (d + 1) (bfread bus (bfwrite bus (i2c_write_byte bus w 0x51 0x7e d).2 value).2).2
    have i2 := ih (d + 1) (bfwrite bus (i2c_write_byte bus w 0x51 0x7e d).2 value).2
    have e : (n + 1) * ω = n * ω + ω := Nat.succ_mul n ω
    simp only [bruteforcepart_d]
    split_ifs <;> (try simp only []) <;> omega

/-- The outer loop of `bruteforcepart` adds at most `(max + 1 - min) * ω` per
iteration. -/
theorem bruteforcepart_c_count {σ : Type} (bus : Bus σ)
    (bfread : Bus σ → World σ → Int × World σ)
    (bfwrite : Bus σ → World σ → Int → Int × World σ) (p : List i2c_msg → Bool)
    (β ω : Nat) (hB : Budget bus bfread bfwrite p β ω) (value : Int) (check : Bool)
    (min max : Nat) (n : Nat) : ∀ (c : Nat) (w : World σ),
    countIn p (bruteforcepart_c bus value check min max bfread bfwrite n c w).2.log ≤
      countIn p w.log + n * ((max + 1 - min) * ω) := by
  induction n with
  | zero => intro c w; simp [bruteforcepart_c]
  | succ n ih =>
    intro c w
    have h1 := hB.pw w 0x7d c (Or.inr (Or.inl rfl))
    have h2 := bruteforcepart_d_count bus bfread bfwrite p β ω hB value check c
      (max + 1 - min) min (i2c_write_byte bus w 0x51 0x7d c).2
    have i1 := ih (c + 1) (bruteforcepart_d bus value check bfread bfwrite c (max + 1 - min) min
      (i2c_write_byte bus w 0x51 0x7d c).2).2
    have e : (n + 1) * ((max + 1 - min) * ω) = n * ((max + 1 - min) * ω) + (max + 1 - min) * ω :=
      Nat.succ_mul _ _
    simp only [bruteforcepart_c]
    split
    · (try simp only []); omega
    · split <;> (try simp only []) <;> omega

/-- One call of `bruteforcepart` adds at most `(max + 1 - min)^2 * ω`. -/
theorem bruteforcepart_count {σ : Type} (bus : Bus σ)
    (bfread : Bus σ → World σ → Int × World σ)
    (bfwrite : Bus σ → World σ → Int → Int × World σ) (bfmod : Int → Int)
    (p : List i2c_msg → Bool)
    (β ω : Nat) (hB : Budget bus bfread bfwrite p β ω) (value : Int) (check : Bool)
    (min max : Nat) (w : World σ) :
    countIn p (bruteforcepart bus w value check min max bfread bfwrite bfmod).2.log ≤
      countIn p w.log + (max + 1 - min) * ((max + 1 - min) * ω) := by
  have h1 := bruteforcepart_c_count bus bfread bfwrite p β ω hB value check min max
    (max + 1 - min) min w
  have h2 := hB.rd (bruteforcepart_c bus value check min max bfread bfwrite
    (max + 1 - min) min w).2
  simp only [bruteforcepart]
  split
  · (try simp only []); omega
  · split_ifs <;> (try simp only []) <;> omega

/-- The loop over `b` of `runbruteforce`: every iteration adds at most
`β + (max + 1 - min)^2 * ω`, and the second pass after a match, which ends the
loop, at most `(max + 1 - min)^2 * ω` more. -/
theorem runbruteforce_b_count {σ : Type} (bus : Bus σ)
    (bfread : Bus σ → World σ → Int × World σ)
    (bfwrite : Bus σ → World σ → Int → Int × World σ) (bfmod : Int → Int)
    (p : List i2c_msg → Bool)
    (β ω : Nat) (hB : Budget bus bfread bfwrite p β ω) (orig : Int)
    (min max a : Nat) (n : Nat) : ∀ (b : Nat) (w : World σ),
    countIn p (runbruteforce_b bus orig min max bfread bfwrite bfmod a n b w).2.log ≤
      countIn p w.log + n * (β + (max + 1 - min) * ((max + 1 - min) * ω)) +
        (max + 1 - min) * ((max + 1 - min) * ω) ∧
    ((runbruteforce_b bus orig min max bfread bfwrite bfmod a n b w).1 = none →
      countIn p (runbruteforce_b bus orig min max bfread bfwrite bfmod a n b w).2.log ≤
        countIn p w.log + n * (β + (max + 1 - min) * ((max + 1 - min) * ω))) := by
  induction n with
  | zero => intro b w; simp [runbruteforce_b]
  | succ n ih =>
    intro b w
    have h1 := hB.pb w b
    have h2 := bruteforcepart_count bus bfread bfwrite bfmod p β ω hB (bfmod orig) false min max
      { (i2c_write_byte bus w 0x51 0x7c b).2 with
        out := (i2c_write_byte bus w 0x51 0x7c b).2.out ++
          [Out.checking a b (1 + (a - min) * (1 + max - min) + (b - min))
            ((1 + max - min) * (1 + max - min))] }
    have h3 := bruteforcepart_count bus bfread bfwrite bfmod p β ω hB orig true min max
      (bruteforcepart bus
        { (i2c_write_byte bus w 0x51 0x7c b).2 with
          out := (i2c_write_byte bus w 0x51 0x7c b).2.out ++
            [Out.checking a b (1 + (a - min) * (1 + max - min) + (b - min))
              ((1 + max - min) * (1 + max - min))] }
        (bfmod orig) false min max bfread bfwrite bfmod).2
    obtain ⟨i1, i2⟩ := ih (b + 1) (bruteforcepart bus
        { (i2c_write_byte bus w 0x51 0x7c b).2 with
          out := (i2c_write_byte bus w 0x51 0x7c b).2.out ++
            [Out.checking a b (1 + (a - min) * (1 + max - min) + (b - min))
              ((1 + max - min) * (1 + max - min))] }
        (bfmod orig) false min max bfread bfwrite bfmod).2
    have e : (n + 1) * (β + (max + 1 - min) * ((max + 1 - min) * ω)) =
        n * (β + (max + 1 - min) * ((max + 1 - min) * ω)) +
          (β + (max + 1 - min) * ((max + 1 - min) * ω)) := Nat.succ_mul _ _
    simp only at h2 h3 i1 i2
    simp only [runbruteforce_b]
    split_ifs
    · exact ⟨by simp only []; omega, fun h => by simp at h⟩
    · exact ⟨by simp only []; omega, fun h => by simp at h⟩
    · exact ⟨by simp only []; omega, fun h => by simp at h⟩
    · exact ⟨by simp only []; omega, fun h => by simp at h⟩
    · exact ⟨by omega, fun h => by have := i2 h; omega⟩

/-- The loop over `a` of `runbruteforce`, whose every iteration runs the loop
over `b` for `max + 1 - sb` iterations. -/
theorem runbruteforce_a_count {σ : Type} (bus : Bus σ)
    (bfread : Bus σ → World σ → Int × World σ)
    (bfwrite : Bus σ → World σ → Int → Int × World σ) (bfmod : Int → Int)
    (p : List i2c_msg → Bool)
    (β ω : Nat) (hB : Budget bus bfread bfwrite p β ω) (orig : Int)
    (min max sb : Nat) (n : Nat) : ∀ (a : Nat) (w : World σ),
    countIn p (runbruteforce_a bus orig min max sb bfread bfwrite bfmod n a w).2.log ≤
      countIn p w.log +
        n * ((max + 1 - sb) * (β + (max + 1 - min) * ((max + 1 - min) * ω))) +
        (max + 1 - min) * ((max + 1 - min) * ω) := by
  induction n with
  | zero => intro a w; simp [runbruteforce_a]
  | succ n ih =>
    intro a w
    have h1 := hB.pw w 0x7b a (Or.inl rfl)
    obtain ⟨h2, h3⟩ := runbruteforce_b_count bus bfread bfwrite bfmod p β ω hB orig min max a
      (max + 1 - sb) sb (i2c_write_byte bus w 0x51 0x7b a).2
    have i1 := ih (a + 1) (runbruteforce_b bus orig min max bfread bfwrite bfmod a
      (max + 1 - sb) sb (i2c_write_byte bus w 0x51 0x7b a).2).2
    have e : (n + 1) * ((max + 1 - sb) * (β + (max + 1 - min) * ((max + 1 - min) * ω))) =
        n * ((max + 1 - sb) * (β + (max + 1 - min) * ((max + 1 - min) * ω))) +
          (max + 1 - sb) * (β + (max + 1 - min) * ((max + 1 - min) * ω)) := Nat.succ_mul _ _
    simp only [runbruteforce_a]
    split
    · simp only []
      omega
    · split
      · simp only []
        omega
      · rename_i hv
        have := h3 hv
        omega

/-- The count for the whole of `runbruteforce`, with `n = max - min + 1` (and
`max` taken as `min` when it is smaller). -/
theorem runbruteforce_count {σ : Type} (bus : Bus σ)
    (bfread : Bus σ → World σ → Int × World σ)
    (bfwrite : Bus σ → World σ → Int → Int × World σ) (bfmod : Int → Int)
    (p : List i2c_msg → Bool)
    (β ω : Nat) (hB : Budget bus bfread bfwrite p β ω)
    (start min max : Nat) (hmin : min ≤ 0xFF) (w : World σ) :
    countIn p (runbruteforce bus w start min max bfread bfwrite bfmod).2.log ≤
      countIn p w.log +
        ((if max < min then min else max) - min + 1) *
          (((if max < min then min else max) - min + 1) *
            (β + ((if max < min then min else max) - min + 1) *
              (((if max < min then min else max) - min + 1) * ω))) +
        ((if max < min then min else max) - min + 1) *
          (((if max < min then min else max) - min + 1) * ω) := by
  have hu : u8 min = min := u8_of_lt (by omega)
  generalize hm : (if max < min then min else max) = max' at *
  have hmm : min ≤ max' := by
    rw [← hm]; split <;> omega
  have hn : max' - min + 1 = max' + 1 - min := by omega
  rw [hn]
  have hs : ∀ s : Nat, max' + 1 - (if s < min ∨ s > max' then u8 min else s) ≤ max' + 1 - min := by
    intro s
    rw [hu]
    split
    · exact Nat.le_refl _
    · rename_i h
      have : min ≤ s := by
        by_contra hc
        exact h (Or.inl (by omega))
      omega
  have h0 := hB.rd w
  have h1 := runbruteforce_a_count bus bfread bfwrite bfmod p β ω hB (bfread bus w).1 min max'
    (if u8 (u32 start >>> 16) < min ∨ u8 (u32 start >>> 16) > max' then u8 min
      else u8 (u32 start >>> 16))
    (max' + 1 - (if u8 (u32 start >>> 24) < min ∨ u8 (u32 start >>> 24) > max' then u8 min
      else u8 (u32 start >>> 24)))
    (if u8 (u32 start >>> 24) < min ∨ u8 (u32 start >>> 24) > max' then u8 min
      else u8 (u32 start >>> 24)) (bfread bus w).2
  have hmono := Nat.mul_le_mul (hs (u8 (u32 start >>> 24)))
    (Nat.mul_le_mul_right (β + (max' + 1 - min) * ((max' + 1 - min) * ω))
      (hs (u8 (u32 start >>> 16))))
  have hz : 0 ≤ (max' + 1 - min) * ((max' + 1 - min) *
      (β + (max' + 1 - min) * ((max' + 1 - min) * ω))) := Nat.zero_le _
  simp only [runbruteforce, hm]
  split
  · simp only []
    omega
  · split <;> simp only [] <;> omega

theorem ite_le_one (c : Prop) [Decidable c] : (if c then 1 else 0) ≤ 1 := by
  split <;> omega

theorem budget_outer_1 {σ : Type} (bus : Bus σ) :
    Budget bus bfread_1 bfwrite_1 isOuterStep 1 0 where
  pw := by
    intro w r v hr
    rw [i2c_write_byte_log, countIn_snoc]
    rcases hr with h | h | h <;> subst h <;> simp [isOuterStep, u8]
  pb := by
    intro w v
    rw [i2c_write_byte_log, countIn_snoc]
    split <;> omega
  rd := by
    intro w
    rw [bfread_1, i2c_read_byte_log, countIn_snoc]
    simp [isOuterStep]
  wr := by
    intro w v
    rw [bfwrite_1, i2c_write_byte_log, countIn_snoc]
    simp [isOuterStep, u8]

theorem budget_oracle_1 {σ : Type} (bus : Bus σ) :
    Budget bus bfread_1 bfwrite_1 isOracleWrite_1 0 1 where
  pw := by
    intro w r v _
    rw [i2c_write_byte_log, countIn_snoc]
    simp [isOracleWrite_1, u8]
  pb := by
    intro w v
    rw [i2c_write_byte_log, countIn_snoc]
    simp [isOracleWrite_1, u8]
  rd := by
    intro w
    rw [bfread_1, i2c_read_byte_log, countIn_snoc]
    simp [isOracleWrite_1]
  wr := by
    intro w v
    rw [bfwrite_1, i2c_write_byte_log, countIn_snoc]
    split <;> omega

theorem i2c_mii_read_default_c22_log {σ : Type} (bus : Bus σ) (w : World σ)
    (phy_id reg : Nat) :
    (i2c_mii_read_default_c22 bus w phy_id reg).2.log =
      w.log ++ [[⟨if u8 phy_id < 0x40 then u8 phy_id + 0x40 else u8 phy_id, 0, 1, [u8 reg]⟩,
        ⟨if u8 phy_id < 0x40 then u8 phy_id + 0x40 else u8 phy_id, I2C_M_RD, 2, []⟩]] := by
  simp only [i2c_mii_read_default_c22, snd_ite_same, i2c_transfer_log]

theorem budget_outer_2 {σ : Type} (bus : Bus σ) :
    Budget bus bfread_2 bfwrite_2 isOuterStep 1 0 where
  pw := by
    intro w r v hr
    rw [i2c_write_byte_log, countIn_snoc]
    rcases hr with h | h | h <;> subst h <;> simp [isOuterStep, u8]
  pb := by
    intro w v
    rw [i2c_write_byte_log, countIn_snoc]
    split <;> omega
  rd := by
    intro w
    rw [bfread_2, i2c_mii_read_default_c22_log, countIn_snoc]
    simp [isOuterStep]
  wr := by
    intro w v
    rw [bfwrite_2, i2c_mii_write_default_c22_log, countIn_snoc]
    simp [isOuterStep, u8]

theorem budget_oracle_2 {σ : Type} (bus : Bus σ) :
    Budget bus bfread_2 bfwrite_2 isOracleWrite_2 0 1 where
  pw := by
    intro w r v _
    rw [i2c_write_byte_log, countIn_snoc]
    simp [isOracleWrite_2, u8]
  pb := by
    intro w v
    rw [i2c_write_byte_log, countIn_snoc]
    simp [isOracleWrite_2, u8]
  rd := by
    intro w
    rw [bfread_2, i2c_mii_read_default_c22_log, countIn_snoc]
    simp [isOracleWrite_2]
  wr := by
    intro w v
    rw [bfwrite_2, i2c_mii_write_default_c22_log, countIn_snoc]
    exact Nat.add_le_add_left (ite_le_one _) _

/-- C20: for every start and every `min`, `max` in `0x00..0xFF` (`max < min` is
taken as `max = min`), on every bus, with `n = max - min + 1`: the run of
`runbruteforce`, a total function, starts at most `n * n` outer `(a, b)`
iterations (writes of `b` to `0x51:0x7c`) and issues at most `n^4 + n^2` oracle
writes, for the oracle 1 and for the oracle 2. -/
theorem runbruteforce_bounds {σ : Type} (bus : Bus σ) (w : World σ) (start min max : Nat)
    (hmin : min ≤ 0xFF) (hmax : max ≤ 0xFF) :
    let n := (if max < min then min else max) - min + 1
    let r1 := runbruteforce bus w start min max bfread_1 bfwrite_1 bfmod_1
    let r2 := runbruteforce bus w start min max bfread_2 bfwrite_2 bfmod_2
    n ≤ 256 ∧
    countIn isOuterStep r1.2.log ≤ countIn isOuterStep w.log + n * n ∧
    countIn isOracleWrite_1 r1.2.log ≤ countIn isOracleWrite_1 w.log + n ^ 4 + n ^ 2 ∧
    countIn isOuterStep r2.2.log ≤ countIn isOuterStep w.log + n * n ∧
    countIn isOracleWrite_2 r2.2.log ≤ countIn isOracleWrite_2 w.log + n ^ 4 + n ^ 2 := by
  intro n r1 r2
  have a1 := runbruteforce_count bus bfread_1 bfwrite_1 bfmod_1 isOuterStep 1 0
    (budget_outer_1 bus) start min max hmin w
  have a2 := runbruteforce_count bus bfread_1 bfwrite_1 bfmod_1 isOracleWrite_1 0 1
    (budget_oracle_1 bus) start min max hmin w
  have a3 := runbruteforce_count bus bfread_2 bfwrite_2 bfmod_2 isOuterStep 1 0
    (budget_outer_2 bus) start min max hmin w
  have a4 := runbruteforce_count bus bfread_2 bfwrite_2 bfmod_2 isOracleWrite_2 0 1
    (budget_oracle_2 bus) start min max hmin w
  have e1 : n * (n * (1 + n * (n * 0))) + n * (n * 0) = n * n := by ring
  have e2 : n * (n * (0 + n * (n * 1))) + n * (n * 1) = n ^ 4 + n ^ 2 := by ring
  refine ⟨?_, ?_, ?_, ?_, ?_⟩
  · show (if max < min then min else max) - min + 1 ≤ 256
    split <;> omega
  · calc countIn isOuterStep r1.2.log
        ≤ countIn isOuterStep w.log + n * (n * (1 + n * (n * 0))) + n * (n * 0) := a1
      _ = countIn isOuterStep w.log + n * n := by rw [Nat.add_assoc, e1]
  · calc countIn isOracleWrite_1 r1.2.log
        ≤ countIn isOracleWrite_1 w.log + n * (n * (0 + n * (n * 1))) + n * (n * 1) := a2
      _ = countIn isOracleWrite_1 w.log + n ^ 4 + n ^ 2 := by rw [Nat.add_assoc, e2, Nat.add_assoc]
  · calc countIn isOuterStep r2.2.log
        ≤ countIn isOuterStep w.log + n * (n * (1 + n * (n * 0))) + n * (n * 0) := a3
      _ = countIn isOuterStep w.log + n * n := by rw [Nat.add_assoc, e1]
  · calc countIn isOracleWrite_2 r2.2.log
        ≤ countIn isOracleWrite_2 w.log + n * (n * (0 + n * (n * 1))) + n * (n * 1) := a4
      _ = countIn isOracleWrite_2 w.log + n ^ 4 + n ^ 2 := by rw [Nat.add_assoc, e2, Nat.add_assoc]

theorem runbruteforce_bounds_witness :
    countIn isOracleWrite_1 (runbruteforce (lockBus 1 0 0 0) zeroStore 0 0 1
      bfread_1 bfwrite_1 bfmod_1).2.log ≤ 20 :=
  le_trans (runbruteforce_bounds (lockBus 1 0 0 0) zeroStore 0 0 1
    (by decide) (by decide)).2.2.1 (by decide)

/-! ### The search on the locked fake -/

theorem eeprom_write_byte_peek (w : World Eeprom) (a r v a' r' : Nat) :
    (i2c_write_byte eepromBus w a r v).2.dev.peek a' r' =
      if a' = u8 a ∧ r' = u8 r then u8 v else w.dev.peek a' r' := by
  simp only [Eeprom.peek, eeprom_write_byte_mem]
  split <;> simp [u8]

theorem eeprom_read_byte_peek (w : World Eeprom) (a r a' r' : Nat) :
    (i2c_read_byte eepromBus w a r).2.dev.peek a' r' = w.dev.peek a' r' := by
  simp only [Eeprom.peek, eeprom_read_byte_mem]

theorem lock_write_51 (p0 p1 p2 p3 : Nat) (w : World Eeprom) (r v : Nat) :
    i2c_write_byte (lockBus p0 p1 p2 p3) w 0x51 r v = i2c_write_byte eepromBus w 0x51 r v := by
  have h51 : u8 0x51 = 0x51 := rfl
  simp [i2c_write_byte, i2c_transfer, lockBus, h51]

theorem lock_read (p0 p1 p2 p3 : Nat) (w : World Eeprom) (a r : Nat) :
    i2c_read_byte (lockBus p0 p1 p2 p3) w a r = i2c_read_byte eepromBus w a r := by
  simp [i2c_read_byte, i2c_transfer, lockBus, I2C_M_RD]

/-- A write of the first password byte on the locked fake. -/
theorem view_write_7b (p0 p1 p2 p3 : Nat) (w : World Eeprom) (v : Nat) (hv : v < 256) :
    (i2c_write_byte (lockBus p0 p1 p2 p3) w 0x51 0x7b v).1 = 1 ∧
    (i2c_write_byte (lockBus p0 p1 p2 p3) w 0x51 0x7b v).2.out = w.out ∧
    view (i2c_write_byte (lockBus p0 p1 p2 p3) w 0x51 0x7b v).2 =
      (v, (view w).2.1, (view w).2.2.1, (view w).2.2.2.1, (view w).2.2.2.2) := by
  rw [lock_write_51]
  refine ⟨eeprom_write_byte_val _ _ _ _, i2c_write_byte_out _ _ _ _ _, ?_⟩
  simp [view, eeprom_write_byte_peek, u8, Nat.mod_eq_of_lt hv]

/-- A write of the second password byte on the locked fake. -/
theorem view_write_7c (p0 p1 p2 p3 : Nat) (w : World Eeprom) (v : Nat) (hv : v < 256) :
    (i2c_write_byte (lockBus p0 p1 p2 p3) w 0x51 0x7c v).1 = 1 ∧
    (i2c_write_byte (lockBus p0 p1 p2 p3) w 0x51 0x7c v).2.out = w.out ∧
    view (i2c_write_byte (lockBus p0 p1 p2 p3) w 0x51 0x7c v).2 =
      ((view w).1, v, (view w).2.2.1, (view w).2.2.2.1, (view w).2.2.2.2) := by
  rw [lock_write_51]
  refine ⟨eeprom_write_byte_val _ _ _ _, i2c_write_byte_out _ _ _ _ _, ?_⟩
  simp [view, eeprom_write_byte_peek, u8, Nat.mod_eq_of_lt hv]

/-- A write of the third password byte on the locked fake. -/
theorem view_write_7d (p0 p1 p2 p3 : Nat) (w : World Eeprom) (v : Nat) (hv : v < 256) :
    (i2c_write_byte (lockBus p0 p1 p2 p3) w 0x51 0x7d v).1 = 1 ∧
    (i2c_write_byte (lockBus p0 p1 p2 p3) w 0x51 0x7d v).2.out = w.out ∧
    view (i2c_write_byte (lockBus p0 p1 p2 p3) w 0x51 0x7d v).2 =
      ((view w).1, (view w).2.1, v, (view w).2.2.2.1, (view w).2.2.2.2) := by
  rw [lock_write_51]
  refine ⟨eeprom_write_byte_val _ _ _ _, i2c_write_byte_out _ _ _ _ _, ?_⟩
  simp [view, eeprom_write_byte_peek, u8, Nat.mod_eq_of_lt hv]

/-- A write of the fourth password byte on the locked fake. -/
theorem view_write_7e (p0 p1 p2 p3 : Nat) (w : World Eeprom) (v : Nat) (hv : v < 256) :
    (i2c_write_byte (lockBus p0 p1 p2 p3) w 0x51 0x7e v).1 = 1 ∧
    (i2c_write_byte (lockBus p0 p1 p2 p3) w 0x51 0x7e v).2.out = w.out ∧
    view (i2c_write_byte (lockBus p0 p1 p2 p3) w 0x51 0x7e v).2 =
      ((view w).1, (view w).2.1, (view w).2.2.1, v, (view w).2.2.2.2) := by
  rw [lock_write_51]
  refine ⟨eeprom_write_byte_val _ _ _ _, i2c_write_byte_out _ _ _ _ _, ?_⟩
  simp [view, eeprom_write_byte_peek, u8, Nat.mod_eq_of_lt hv]

/-- A read of the oracle register on the locked fake. -/
theorem view_bfread (p0 p1 p2 p3 : Nat) (w : World Eeprom) :
    (bfread_1 (lockBus p0 p1 p2 p3) w).1 = ((view w).2.2.2.2 : Nat) ∧
    (bfread_1 (lockBus p0 p1 p2 p3) w).2.out = w.out ∧
    view (bfread_1 (lockBus p0 p1 p2 p3) w).2 = view w := by
  rw [bfread_1, lock_read]
  refine ⟨?_, i2c_read_byte_out _ _ _ _, ?_⟩
  · rw [eeprom_read_byte_val]; rfl
  · simp [view, eeprom_read_byte_peek]

/-- A write of the oracle register on the locked fake: it takes effect exactly
when the four password registers hold the password. -/
theorem view_bfwrite (p0 p1 p2 p3 : Nat) (w : World Eeprom) (v : Nat) (hv : v < 256) :
    (bfwrite_1 (lockBus p0 p1 p2 p3) w (v : Int)).1 = 1 ∧
    (bfwrite_1 (lockBus p0 p1 p2 p3) w (v : Int)).2.out = w.out ∧
    view (bfwrite_1 (lockBus p0 p1 p2 p3) w (v : Int)).2 =
      ((view w).1, (view w).2.1, (view w).2.2.1, (view w).2.2.2.1,
        if (view w).1 = p0 ∧ (view w).2.1 = p1 ∧ (view w).2.2.1 = p2 ∧ (view w).2.2.2.1 = p3
          then v else (view w).2.2.2.2) := by
  have hu : int_to_u8 (v : Int) = v := by
    rw [int_to_u8]; omega
  have h50 : u8 0x50 = 0x50 := rfl
  have h14 : u8 0x14 = 0x14 := rfl
  rw [bfwrite_1, hu]
  by_cases hl : w.dev.peek 0x51 0x7b = p0 ∧ w.dev.peek 0x51 0x7c = p1 ∧
      w.dev.peek 0x51 0x7d = p2 ∧ w.dev.peek 0x51 0x7e = p3
  · have he : i2c_write_byte (lockBus p0 p1 p2 p3) w 0x50 0x14 v =
        i2c_write_byte eepromBus w 0x50 0x14 v := by
      simp [i2c_write_byte, i2c_transfer, lockBus, h50, hl.1, hl.2.1, hl.2.2.1, hl.2.2.2]
    rw [he]
    refine ⟨eeprom_write_byte_val _ _ _ _, i2c_write_byte_out _ _ _ _ _, ?_⟩
    simp [view, eeprom_write_byte_peek, u8, Nat.mod_eq_of_lt hv, hl.1, hl.2.1, hl.2.2.1,
      hl.2.2.2]
  · have hl' : ¬ ((view w).1 = p0 ∧ (view w).2.1 = p1 ∧ (view w).2.2.1 = p2 ∧
        (view w).2.2.2.1 = p3) := hl
    rw [if_neg hl']
    have hd : ((¬ w.dev.peek 0x51 0x7b = p0 ∨ ¬ w.dev.peek 0x51 0x7c = p1) ∨
        ¬ w.dev.peek 0x51 0x7d = p2) ∨ ¬ w.dev.peek 0x51 0x7e = p3 := by
      by_contra hc
      simp only [not_or, not_not] at hc
      exact hl ⟨hc.1.1.1, hc.1.1.2, hc.1.2, hc.2⟩
    simp [i2c_write_byte, i2c_transfer, lockBus, h50, hd, view, I2C_M_RD]

/-- The inner sweep without readback on the locked fake: the oracle register
takes the marker `v` exactly when the sweep passes the password. -/
theorem lock_d_nocheck (p0 p1 p2 p3 v : Nat) (hv : v < 256) (c0 : Nat) (n : Nat) :
    ∀ (d : Nat) (w : World Eeprom) (a b c e R : Nat), d + n ≤ 256 → view w = (a, b, c, e, R) →
    (bruteforcepart_d (lockBus p0 p1 p2 p3) (v : Int) false bfread_1 bfwrite_1 c0 n d w).1
      = none ∧
    (bruteforcepart_d (lockBus p0 p1 p2 p3) (v : Int) false bfread_1 bfwrite_1 c0 n d w).2.out
      = w.out ∧
    ∃ e', view (bruteforcepart_d (lockBus p0 p1 p2 p3) (v : Int) false bfread_1 bfwrite_1
        c0 n d w).2 =
      (a, b, c, e', if a = p0 ∧ b = p1 ∧ c = p2 ∧ d ≤ p3 ∧ p3 < d + n then v else R) := by
  induction n with
  | zero =>
    intro d w a b c e R _ hw
    refine ⟨rfl, rfl, e, ?_⟩
    have h : ¬ (a = p0 ∧ b = p1 ∧ c = p2 ∧ d ≤ p3 ∧ p3 < d + 0) := by omega
    simp only [bruteforcepart_d, hw, if_neg h]
  | succ n ih =>
    intro d w a b c e R hd hw
    obtain ⟨x1, x2, x3⟩ := view_write_7e p0 p1 p2 p3 w d (by omega)
    obtain ⟨y1, y2, y3⟩ := view_bfwrite p0 p1 p2 p3
      (i2c_write_byte (lockBus p0 p1 p2 p3) w 0x51 0x7e d).2 v hv
    rw [hw] at x3
    rw [x3] at y3
    simp only at x3 y3
    obtain ⟨z1, z2, e', z3⟩ := ih (d + 1)
      (bfwrite_1 (lockBus p0 p1 p2 p3) (i2c_write_byte (lockBus p0 p1 p2 p3) w 0x51 0x7e d).2
        (v : Int)).2 a b c d _ (by omega) y3
    simp only [bruteforcepart_d, x1, y1, show ¬ ((1 : Int) < 0) by decide, if_false,
      Bool.false_eq_true]
    refine ⟨z1, by rw [z2, y2, x2], e', ?_⟩
    rw [z3]
    congr 4
    by_cases hit : a = p0 ∧ b = p1 ∧ c = p2
    · obtain ⟨ha, hb, hc⟩ := hit
      subst ha hb hc
      by_cases h1 : d = p3
      · subst h1
        simp
      · by_cases h2 : d + 1 ≤ p3 ∧ p3 < d + 1 + n
        · have h3 : d ≤ p3 ∧ p3 < d + (n + 1) := by omega
          simp [h2, h3]
        · have h3 : ¬ (d ≤ p3 ∧ p3 < d + (n + 1)) := by omega
          simp [h1, h2, h3]
    · have h1 : ¬ (a = p0 ∧ b = p1 ∧ c = p2 ∧ d + 1 ≤ p3 ∧ p3 < d + 1 + n) :=
        fun h => hit ⟨h.1, h.2.1, h.2.2.1⟩
      have h2 : ¬ (a = p0 ∧ b = p1 ∧ c = p2 ∧ d = p3) := fun h => hit ⟨h.1, h.2.1, h.2.2.1⟩
      have h3 : ¬ (a = p0 ∧ b = p1 ∧ c = p2 ∧ d ≤ p3 ∧ p3 < d + (n + 1)) :=
        fun h => hit ⟨h.1, h.2.1, h.2.2.1⟩
      rw [if_neg h1, if_neg h2, if_neg h3]

/-- The sweep over the third byte without readback on the locked fake, with the
full range `0x00..0xFF` for the fourth byte. -/
theorem lock_c_nocheck (p0 p1 p2 p3 v : Nat) (hv : v < 256) (hp3 : p3 < 256) (n : Nat) :
    ∀ (c : Nat) (w : World Eeprom) (a b c0 e R : Nat), c + n ≤ 256 →
    view w = (a, b, c0, e, R) →
    (bruteforcepart_c (lockBus p0 p1 p2 p3) (v : Int) false 0 0xFF bfread_1 bfwrite_1 n c w).1
      = none ∧
    (bruteforcepart_c (lockBus p0 p1 p2 p3) (v : Int) false 0 0xFF bfread_1 bfwrite_1
      n c w).2.out = w.out ∧
    ∃ c' e', view (bruteforcepart_c (lockBus p0 p1 p2 p3) (v : Int) false 0 0xFF
        bfread_1 bfwrite_1 n c w).2 =
      (a, b, c', e', if a = p0 ∧ b = p1 ∧ c ≤ p2 ∧ p2 < c + n then v else R) := by
  induction n with
  | zero =>
    intro c w a b c0 e R _ hw
    refine ⟨rfl, rfl, c0, e, ?_⟩
    have h : ¬ (a = p0 ∧ b = p1 ∧ c ≤ p2 ∧ p2 < c + 0) := by omega
    simp only [bruteforcepart_c, hw, if_neg h]
  | succ n ih =>
    intro c w a b c0 e R hc hw
    obtain ⟨x1, x2, x3⟩ := view_write_7d p0 p1 p2 p3 w c (by omega)
    rw [hw] at x3
    simp only at x3
    obtain ⟨y1, y2, e1, y3⟩ := lock_d_nocheck p0 p1 p2 p3 v hv c (0xFF + 1 - 0) 0
      (i2c_write_byte (lockBus p0 p1 p2 p3) w 0x51 0x7d c).2 a b c e R (by omega) x3
    obtain ⟨z1, z2, c', e', z3⟩ := ih (c + 1)
      (bruteforcepart_d (lockBus p0 p1 p2 p3) (v : Int) false bfread_1 bfwrite_1 c
        (0xFF + 1 - 0) 0 (i2c_write_byte (lockBus p0 p1 p2 p3) w 0x51 0x7d c).2).2
      a b c e1 _ (by omega) y3
    simp only [bruteforcepart_c, x1, y1, show ¬ ((1 : Int) < 0) by decide, if_false]
    refine ⟨z1, by rw [z2, y2, x2], c', e', ?_⟩
    rw [z3]
    congr 4
    have hr : (0 ≤ p3 ∧ p3 < 0 + (0xFF + 1 - 0)) := by omega
    by_cases hit : a = p0 ∧ b = p1
    · obtain ⟨ha, hb⟩ := hit
      subst ha hb
      by_cases h1 : c = p2
      · subst h1
        simp [hr]
      · by_cases h2 : c + 1 ≤ p2 ∧ p2 < c + 1 + n
        · have h3 : c ≤ p2 ∧ p2 < c + (n + 1) := by omega
          simp [h2, h3]
        · have h3 : ¬ (c ≤ p2 ∧ p2 < c + (n + 1)) := by omega
          simp [h1, h2, h3]
    · have h1 : ¬ (a = p0 ∧ b = p1 ∧ c + 1 ≤ p2 ∧ p2 < c + 1 + n) :=
        fun h => hit ⟨h.1, h.2.1⟩
      have h2 : ¬ (a = p0 ∧ b = p1 ∧ c = p2 ∧ 0 ≤ p3 ∧ p3 < 0 + (0xFF + 1 - 0)) :=
        fun h => hit ⟨h.1, h.2.1⟩
      have h3 : ¬ (a = p0 ∧ b = p1 ∧ c ≤ p2 ∧ p2 < c + (n + 1)) :=
        fun h => hit ⟨h.1, h.2.1⟩
      rw [if_neg h1, if_neg h2, if_neg h3]

/-- The first pass (`check = false`) on the locked fake with the range
`0x00..0xFF`: it reports a match exactly when the first two password
registers hold the first two bytes of the password; the oracle register then
holds the marker. -/
theorem lock_part_nocheck (p0 p1 p2 p3 v : Nat) (hv : v < 256) (hp2 : p2 < 256)
    (hp3 : p3 < 256) (bfmod : Int → Int) (w : World Eeprom) (a b c0 e R : Nat)
    (hw : view w = (a, b, c0, e, R)) (hR : R ≠ v) :
    (a = p0 ∧ b = p1 →
      (bruteforcepart (lockBus p0 p1 p2 p3) w (v : Int) false 0 0xFF bfread_1 bfwrite_1
        bfmod).1 = 1 ∧
      (bruteforcepart (lockBus p0 p1 p2 p3) w (v : Int) false 0 0xFF bfread_1 bfwrite_1
        bfmod).2.out = w.out ++ [Out.readback_somewhere] ∧
      ∃ c' e', view (bruteforcepart (lockBus p0 p1 p2 p3) w (v : Int) false 0 0xFF
        bfread_1 bfwrite_1 bfmod).2 = (a, b, c', e', v)) ∧
    (¬ (a = p0 ∧ b = p1) →
      (bruteforcepart (lockBus p0 p1 p2 p3) w (v : Int) false 0 0xFF bfread_1 bfwrite_1
        bfmod).1 = 0 ∧
      (bruteforcepart (lockBus p0 p1 p2 p3) w (v : Int) false 0 0xFF bfread_1 bfwrite_1
        bfmod).2.out = w.out ∧
      ∃ c' e', view (bruteforcepart (lockBus p0 p1 p2 p3) w (v : Int) false 0 0xFF
        bfread_1 bfwrite_1 bfmod).2 = (a, b, c', e', R)) := by
  obtain ⟨x1, x2, c', e', x3⟩ := lock_c_nocheck p0 p1 p2 p3 v hv hp3 (0xFF + 1 - 0) 0 w
    a b c0 e R (by omega) hw
  obtain ⟨y1, y2, y3⟩ := view_bfread p0 p1 p2 p3
    (bruteforcepart_c (lockBus p0 p1 p2 p3) (v : Int) false 0 0xFF bfread_1 bfwrite_1
      (0xFF + 1 - 0) 0 w).2
  have hn : ∀ x : Nat, ¬ ((x : Int) < 0) := fun x => not_lt.mpr (Int.natCast_nonneg x)
  constructor
  · intro hit
    have hc : a = p0 ∧ b = p1 ∧ 0 ≤ p2 ∧ p2 < 0 + (0xFF + 1 - 0) :=
      ⟨hit.1, hit.2, by omega, by omega⟩
    rw [if_pos hc] at x3
    rw [x3] at y1 y3
    simp only at y1
    simp only [bruteforcepart, x1, y1, hn, Bool.not_false, if_true, if_false]
    exact ⟨trivial, by simp only [y2, x2], c', e', y3⟩
  · intro hit
    have hc : ¬ (a = p0 ∧ b = p1 ∧ 0 ≤ p2 ∧ p2 < 0 + (0xFF + 1 - 0)) :=
      fun h => hit ⟨h.1, h.2.1⟩
    rw [if_neg hc] at x3
    rw [x3] at y1 y3
    simp only at y1
    have hne : ¬ ((R : Int) = (v : Int)) := by
      intro h; exact hR (Int.ofNat_inj.mp h)
    simp only [bruteforcepart, x1, y1, hn, Bool.not_false, if_true, if_false, hne]
    exact ⟨trivial, by simp only [y2, x2], c', e', y3⟩

/-- The inner sweep with readback on the locked fake, the first two password
registers holding the first two bytes of the password and the oracle register
a value other than `o`: it returns 1 at the fourth byte of the password when
the third register holds the third byte, with the line of the match. -/
theorem lock_d_check (p0 p1 p2 p3 o : Nat) (ho : o < 256) (c0 : Nat) (n : Nat) :
    ∀ (d : Nat) (w : World Eeprom) (c e R : Nat), d + n ≤ 256 → R ≠ o →
    view w = (p0, p1, c, e, R) →
    (c = p2 ∧ d ≤ p3 ∧ p3 < d + n →
      (bruteforcepart_d (lockBus p0 p1 p2 p3) (o : Int) true bfread_1 bfwrite_1 c0 n d w).1
        = some 1 ∧
      (bruteforcepart_d (lockBus p0 p1 p2 p3) (o : Int) true bfread_1 bfwrite_1 c0 n d w).2.out
        = w.out ++ [Out.readback_matched c0 p3] ∧
      view (bruteforcepart_d (lockBus p0 p1 p2 p3) (o : Int) true bfread_1 bfwrite_1
        c0 n d w).2 = (p0, p1, p2, p3, o)) ∧
    (¬ (c = p2 ∧ d ≤ p3 ∧ p3 < d + n) →
      (bruteforcepart_d (lockBus p0 p1 p2 p3) (o : Int) true bfread_1 bfwrite_1 c0 n d w).1
        = none ∧
      (bruteforcepart_d (lockBus p0 p1 p2 p3) (o : Int) true bfread_1 bfwrite_1 c0 n d w).2.out
        = w.out ∧
      ∃ e', view (bruteforcepart_d (lockBus p0 p1 p2 p3) (o : Int) true bfread_1 bfwrite_1
        c0 n d w).2 = (p0, p1, c, e', R)) := by
  induction n with
  | zero =>
    intro d w c e R _ _ hw
    constructor
    · intro h; omega
    · intro _
      exact ⟨rfl, rfl, e, hw⟩
  | succ n ih =>
    intro d w c e R hd hR hw
    have hn : ∀ x : Nat, ¬ ((x : Int) < 0) := fun x => not_lt.mpr (Int.natCast_nonneg x)
    obtain ⟨x1, x2, x3⟩ := view_write_7e p0 p1 p2 p3 w d (by omega)
    obtain ⟨y1, y2, y3⟩ := view_bfwrite p0 p1 p2 p3
      (i2c_write_byte (lockBus p0 p1 p2 p3) w 0x51 0x7e d).2 o ho
    obtain ⟨r1, r2, r3⟩ := view_bfread p0 p1 p2 p3
      (bfwrite_1 (lockBus p0 p1 p2 p3) (i2c_write_byte (lockBus p0 p1 p2 p3) w 0x51 0x7e d).2
        (o : Int)).2
    rw [hw] at x3
    rw [x3] at y3
    simp only [true_and] at x3 y3
    rw [y3] at r1 r3
    simp only at r1
    by_cases hnow : c = p2 ∧ d = p3
    · obtain ⟨hc, hd3⟩ := hnow
      subst hc hd3
      rw [if_pos ⟨rfl, rfl⟩] at r1 r3
      constructor
      · intro _
        simp only [bruteforcepart_d, x1, y1, r1, hn, show ¬ ((1 : Int) < 0) by decide,
          if_false, if_true]
        exact ⟨trivial, by simp only [r2, y2, x2], r3⟩
      · intro h
        exact absurd ⟨rfl, Nat.le_refl _, by omega⟩ h
    · rw [if_neg hnow] at r1 r3 y3
      have hne : ¬ ((R : Int) = (o : Int)) := by
        intro h; exact hR (Int.ofNat_inj.mp h)
      obtain ⟨i1, i2⟩ := ih (d + 1)
        (bfread_1 (lockBus p0 p1 p2 p3) (bfwrite_1 (lockBus p0 p1 p2 p3)
          (i2c_write_byte (lockBus p0 p1 p2 p3) w 0x51 0x7e d).2 (o : Int)).2).2
        c d R (by omega) hR r3
      constructor
      · intro h
        have h' : c = p2 ∧ d + 1 ≤ p3 ∧ p3 < d + 1 + n := by
          refine ⟨h.1, ?_, by omega⟩
          by_contra hc
          exact hnow ⟨h.1, by omega⟩
        obtain ⟨j1, j2, j3⟩ := i1 h'
        simp only [bruteforcepart_d, x1, y1, r1, hn, show ¬ ((1 : Int) < 0) by decide,
          if_false, if_true, hne]
        exact ⟨j1, by rw [j2, r2, y2, x2], j3⟩
      · intro h
        have h' : ¬ (c = p2 ∧ d + 1 ≤ p3 ∧ p3 < d + 1 + n) := by
          intro hc
          exact h ⟨hc.1, by omega, by omega⟩
        obtain ⟨j1, j2, j3⟩ := i2 h'
        simp only [bruteforcepart_d, x1, y1, r1, hn, show ¬ ((1 : Int) < 0) by decide,
          if_false, if_true, hne]
        exact ⟨j1, by rw [j2, r2, y2, x2], j3⟩

/-- The sweep over the third byte with readback on the locked fake. -/
theorem lock_c_check (p0 p1 p2 p3 o : Nat) (ho : o < 256) (hp3 : p3 < 256) (n : Nat) :
    ∀ (c : Nat) (w : World Eeprom) (c0 e R : Nat), c + n ≤ 256 → R ≠ o →
    view w = (p0, p1, c0, e, R) →
    (c ≤ p2 ∧ p2 < c + n →
      (bruteforcepart_c (lockBus p0 p1 p2 p3) (o : Int) true 0 0xFF bfread_1 bfwrite_1
        n c w).1 = some 1 ∧
      (bruteforcepart_c (lockBus p0 p1 p2 p3) (o : Int) true 0 0xFF bfread_1 bfwrite_1
        n c w).2.out = w.out ++ [Out.readback_matched p2 p3] ∧
      view (bruteforcepart_c (lockBus p0 p1 p2 p3) (o : Int) true 0 0xFF bfread_1 bfwrite_1
        n c w).2 = (p0, p1, p2, p3, o)) ∧
    (¬ (c ≤ p2 ∧ p2 < c + n) →
      (bruteforcepart_c (lockBus p0 p1 p2 p3) (o : Int) true 0 0xFF bfread_1 bfwrite_1
        n c w).1 = none ∧
      (bruteforcepart_c (lockBus p0 p1 p2 p3) (o : Int) true 0 0xFF bfread_1 bfwrite_1
        n c w).2.out = w.out ∧
      ∃ c' e', view (bruteforcepart_c (lockBus p0 p1 p2 p3) (o : Int) true 0 0xFF
        bfread_1 bfwrite_1 n c w).2 = (p0, p1, c', e', R)) := by
  induction n with
  | zero =>
    intro c w c0 e R _ _ hw
    constructor
    · intro h; omega
    · intro _
      exact ⟨rfl, rfl, c0, e, hw⟩
  | succ n ih =>
    intro c w c0 e R hc hR hw
    obtain ⟨x1, x2, x3⟩ := view_write_7d p0 p1 p2 p3 w c (by omega)
    rw [hw] at x3
    simp only at x3
    obtain ⟨d1, d2⟩ := lock_d_check p0 p1 p2 p3 o ho c (0xFF + 1 - 0) 0
      (i2c_write_byte (lockBus p0 p1 p2 p3) w 0x51 0x7d c).2 c e R (by omega) hR x3
    by_cases hnow : c = p2
    · subst hnow
      obtain ⟨j1, j2, j3⟩ := d1 ⟨rfl, by omega, by omega⟩
      constructor
      · intro _
        simp only [bruteforcepart_c, x1, j1, show ¬ ((1 : Int) < 0) by decide, if_false]
        exact ⟨trivial, by rw [j2, x2], j3⟩
      · intro h
        exact absurd ⟨Nat.le_refl _, by omega⟩ h
    · obtain ⟨j1, j2, e1, j3⟩ := d2 (fun h => hnow h.1)
      obtain ⟨i1, i2⟩ := ih (c + 1)
        (bruteforcepart_d (lockBus p0 p1 p2 p3) (o : Int) true bfread_1 bfwrite_1 c
          (0xFF + 1 - 0) 0 (i2c_write_byte (lockBus p0 p1 p2 p3) w 0x51 0x7d c).2).2
        c e1 R (by omega) hR j3
      constructor
      · intro h
        obtain ⟨k1, k2, k3⟩ := i1 (by omega)
        simp only [bruteforcepart_c, x1, j1, show ¬ ((1 : Int) < 0) by decide, if_false]
        exact ⟨k1, by rw [k2, j2, x2], k3⟩
      · intro h
        obtain ⟨k1, k2, k3⟩ := i2 (by omega)
        simp only [bruteforcepart_c, x1, j1, show ¬ ((1 : Int) < 0) by decide, if_false]
        exact ⟨k1, by rw [k2, j2, x2], k3⟩

/-- The second pass (`check = true`) on the locked fake with the range
`0x00..0xFF`, started with the first two bytes of the password in place and
the marker in the oracle register: it returns 1 with the four password
registers holding the password, the oracle register holding `o` again and the
line of the match printed. -/
theorem lock_part_check (p0 p1 p2 p3 o : Nat) (ho : o < 256) (hp2 : p2 < 256)
    (hp3 : p3 < 256) (bfmod : Int → Int) (w : World Eeprom) (c0 e R : Nat)
    (hw : view w = (p0, p1, c0, e, R)) (hR : R ≠ o) :
    (bruteforcepart (lockBus p0 p1 p2 p3) w (o : Int) true 0 0xFF bfread_1 bfwrite_1
      bfmod).1 = 1 ∧
    (bruteforcepart (lockBus p0 p1 p2 p3) w (o : Int) true 0 0xFF bfread_1 bfwrite_1
      bfmod).2.out = w.out ++ [Out.readback_matched p2 p3] ∧
    view (bruteforcepart (lockBus p0 p1 p2 p3) w (o : Int) true 0 0xFF bfread_1 bfwrite_1
      bfmod).2 = (p0, p1, p2, p3, o) := by
  obtain ⟨j1, j2, j3⟩ := (lock_c_check p0 p1 p2 p3 o ho hp3 (0xFF + 1 - 0) 0 w c0 e R
    (by omega) hR hw).1 ⟨by omega, by omega⟩
  simp only [bruteforcepart, j1]
  exact ⟨trivial, j2, j3⟩

theorem bfmod_1_nat (o : Nat) : bfmod_1 (o : Int) = ((o ^^^ 1 : Nat) : Int) := rfl

theorem xor_one_ne (o : Nat) : o ≠ o ^^^ 1 := by
  intro h
  have h2 : o ^^^ o = o ^^^ (o ^^^ 1) := congrArg (fun x => o ^^^ x) h
  rw [← Nat.xor_assoc, Nat.xor_self, Nat.zero_xor] at h2
  exact absurd h2 (by decide)

theorem xor_one_lt (o : Nat) (ho : o < 256) : o ^^^ 1 < 256 :=
  Nat.xor_lt_two_pow (n := 8) ho (by decide)

/-- The loop over the second byte on the locked fake (oracle 1, range
`0x00..0xFF`), the first password register holding `a` and the oracle register
its original content `o`: it returns 1 when it reaches the second byte of the
password under the right first byte, after the lines of that pair, of the
match of the first pass and of the match of the second pass. -/
theorem lock_b (p0 p1 p2 p3 o : Nat) (ho : o < 256) (hp2 : p2 < 256) (hp3 : p3 < 256)
    (a : Nat) (n : Nat) :
    ∀ (b : Nat) (w : World Eeprom) (b0 c0 e : Nat), b + n ≤ 256 →
    view w = (a, b0, c0, e, o) →
    (a = p0 ∧ b ≤ p1 ∧ p1 < b + n →
      (runbruteforce_b (lockBus p0 p1 p2 p3) (o : Int) 0 0xFF bfread_1 bfwrite_1 bfmod_1
        a n b w).1 = some 1 ∧
      view (runbruteforce_b (lockBus p0 p1 p2 p3) (o : Int) 0 0xFF bfread_1 bfwrite_1 bfmod_1
        a n b w).2 = (p0, p1, p2, p3, o) ∧
      ∃ pre, (runbruteforce_b (lockBus p0 p1 p2 p3) (o : Int) 0 0xFF bfread_1 bfwrite_1
        bfmod_1 a n b w).2.out = pre ++
          [Out.checking p0 p1 (1 + (p0 - 0) * (1 + 0xFF - 0) + (p1 - 0))
            ((1 + 0xFF - 0) * (1 + 0xFF - 0)),
           Out.readback_somewhere, Out.readback_matched p2 p3]) ∧
    (¬ (a = p0 ∧ b ≤ p1 ∧ p1 < b + n) →
      (runbruteforce_b (lockBus p0 p1 p2 p3) (o : Int) 0 0xFF bfread_1 bfwrite_1 bfmod_1
        a n b w).1 = none ∧
      ∃ b' c' e', view (runbruteforce_b (lockBus p0 p1 p2 p3) (o : Int) 0 0xFF
        bfread_1 bfwrite_1 bfmod_1 a n b w).2 = (a, b', c', e', o)) := by
  induction n with
  | zero =>
    intro b w b0 c0 e _ hw
    constructor
    · intro h; omega
    · intro _
      exact ⟨rfl, b0, c0, e, hw⟩
  | succ n ih =>
    intro b w b0 c0 e hb hw
    obtain ⟨x1, x2, x3⟩ := view_write_7c p0 p1 p2 p3 w b (by omega)
    rw [hw] at x3
    simp only at x3
    have hv1 : view ({ (i2c_write_byte (lockBus p0 p1 p2 p3) w 0x51 0x7c b).2 with
        out := (i2c_write_byte (lockBus p0 p1 p2 p3) w 0x51 0x7c b).2.out ++
          [Out.checking a b (1 + (a - 0) * (1 + 0xFF - 0) + (b - 0))
            ((1 + 0xFF - 0) * (1 + 0xFF - 0))] } : World Eeprom) = (a, b, c0, e, o) := x3
    obtain ⟨f1, f2⟩ := lock_part_nocheck p0 p1 p2 p3 (o ^^^ 1) (xor_one_lt o ho) hp2 hp3
      bfmod_1 _ a b c0 e o hv1 (xor_one_ne o)
    simp only [runbruteforce_b, x1, bfmod_1_nat, show ¬ ((1 : Int) < 0) by decide, if_false]
    by_cases hnow : a = p0 ∧ b = p1
    · obtain ⟨g1, g2, c', e', g3⟩ := f1 hnow
      obtain ⟨ha, hb1⟩ := hnow
      subst ha hb1
      obtain ⟨k1, k2, k3⟩ := lock_part_check a b p2 p3 o ho hp2 hp3 bfmod_1 _ c' e' (o ^^^ 1)
        g3 (fun h => xor_one_ne o h.symm)
      constructor
      · intro _
        simp only [g1, k1, show ¬ ((1 : Int) < 0) by decide, if_false, if_true]
        refine ⟨trivial, k3, (i2c_write_byte (lockBus a b p2 p3) w 0x51 0x7c b).2.out, ?_⟩
        rw [k2, g2]
        simp
      · intro h
        exact absurd ⟨rfl, Nat.le_refl _, by omega⟩ h
    · obtain ⟨g1, _, c', e', g3⟩ := f2 hnow
      obtain ⟨i1, i2⟩ := ih (b + 1) _ b c' e' (by omega) g3
      simp only [g1, show ¬ ((0 : Int) < 0) by decide, show ¬ ((0 : Int) = 1) by decide,
        if_false]
      constructor
      · intro h
        have h' : a = p0 ∧ b + 1 ≤ p1 ∧ p1 < b + 1 + n := by
          refine ⟨h.1, ?_, by omega⟩
          by_contra hc
          exact hnow ⟨h.1, by omega⟩
        exact i1 h'
      · intro h
        have h' : ¬ (a = p0 ∧ b + 1 ≤ p1 ∧ p1 < b + 1 + n) := by
          intro hc
          exact h ⟨hc.1, by omega, by omega⟩
        exact i2 h'

/-- The loop over the first byte on the locked fake (oracle 1, range
`0x00..0xFF`, the loop over the second byte starting at 0). -/
theorem lock_a (p0 p1 p2 p3 o : Nat) (ho : o < 256) (hp1 : p1 < 256) (hp2 : p2 < 256)
    (hp3 : p3 < 256) (n : Nat) :
    ∀ (a : Nat) (w : World Eeprom) (a0 b0 c0 e : Nat), a + n ≤ 256 →
    view w = (a0, b0, c0, e, o) →
    (a ≤ p0 ∧ p0 < a + n →
      (runbruteforce_a (lockBus p0 p1 p2 p3) (o : Int) 0 0xFF 0 bfread_1 bfwrite_1 bfmod_1
        n a w).1 = some 1 ∧
      view (runbruteforce_a (lockBus p0 p1 p2 p3) (o : Int) 0 0xFF 0 bfread_1 bfwrite_1
        bfmod_1 n a w).2 = (p0, p1, p2, p3, o) ∧
      ∃ pre, (runbruteforce_a (lockBus p0 p1 p2 p3) (o : Int) 0 0xFF 0 bfread_1 bfwrite_1
        bfmod_1 n a w).2.out = pre ++
          [Out.checking p0 p1 (1 + (p0 - 0) * (1 + 0xFF - 0) + (p1 - 0))
            ((1 + 0xFF - 0) * (1 + 0xFF - 0)),
           Out.readback_somewhere, Out.readback_matched p2 p3]) ∧
    (¬ (a ≤ p0 ∧ p0 < a + n) →
      (runbruteforce_a (lockBus p0 p1 p2 p3) (o : Int) 0 0xFF 0 bfread_1 bfwrite_1 bfmod_1
        n a w).1 = none ∧
      ∃ a' b' c' e', view (runbruteforce_a (lockBus p0 p1 p2 p3) (o : Int) 0 0xFF 0
        bfread_1 bfwrite_1 bfmod_1 n a w).2 = (a', b', c', e', o)) := by
  induction n with
  | zero =>
    intro a w a0 b0 c0 e _ hw
    constructor
    · intro h; omega
    · intro _
      exact ⟨rfl, a0, b0, c0, e, hw⟩
  | succ n ih =>
    intro a w a0 b0 c0 e ha hw
    obtain ⟨x1, x2, x3⟩ := view_write_7b p0 p1 p2 p3 w a (by omega)
    rw [hw] at x3
    simp only at x3
    obtain ⟨f1, f2⟩ := lock_b p0 p1 p2 p3 o ho hp2 hp3 a (0xFF + 1 - 0) 0
      (i2c_write_byte (lockBus p0 p1 p2 p3) w 0x51 0x7b a).2 b0 c0 e (by omega) x3
    simp only [runbruteforce_a, x1, show ¬ ((1 : Int) < 0) by decide, if_false]
    by_cases hnow : a = p0
    · obtain ⟨g1, g2, g3⟩ := f1 ⟨hnow, by omega, by omega⟩
      constructor
      · intro _
        simp only [g1]
        exact ⟨trivial, g2, g3⟩
      · intro h
        exact absurd ⟨by omega, by omega⟩ h
    · obtain ⟨g1, b', c', e', g3⟩ := f2 (fun h => hnow h.1)
      obtain ⟨i1, i2⟩ := ih (a + 1) _ a b' c' e' (by omega) g3
      simp only [g1]
      constructor
      · intro h
        exact i1 (by omega)
      · intro h
        exact i2 (by omega)

/-- The search on the locked fake with any password of four bytes, from the
start 0 with the range `0x00..0xFF` and the oracle 1: it returns 1, the four
password registers hold the password, the oracle register holds the content
it had before, and the last three lines printed are the pair `(p0, p1)` under
test, the match of the first pass and the match `(p2, p3)` of the second. -/
theorem lock_runbruteforce (p0 p1 p2 p3 : Nat) (hp0 : p0 < 256) (hp1 : p1 < 256)
    (hp2 : p2 < 256) (hp3 : p3 < 256) (w : World Eeprom) :
    (runbruteforce (lockBus p0 p1 p2 p3) w 0 0x00 0xFF bfread_1 bfwrite_1 bfmod_1).1 = 1 ∧
    view (runbruteforce (lockBus p0 p1 p2 p3) w 0 0x00 0xFF bfread_1 bfwrite_1 bfmod_1).2 =
      (p0, p1, p2, p3, w.dev.peek 0x50 0x14) ∧
    ∃ pre, (runbruteforce (lockBus p0 p1 p2 p3) w 0 0x00 0xFF bfread_1 bfwrite_1
      bfmod_1).2.out = pre ++
        [Out.checking p0 p1 (1 + p0 * 256 + p1) 65536,
         Out.readback_somewhere, Out.readback_matched p2 p3] := by
  obtain ⟨r1, r2, r3⟩ := view_bfread p0 p1 p2 p3 w
  have ho : w.dev.peek 0x50 0x14 < 256 := u8_lt _
  have hr : (bfread_1 (lockBus p0 p1 p2 p3) w).1 = ((w.dev.peek 0x50 0x14 : Nat) : Int) := r1
  have hw : view (bfread_1 (lockBus p0 p1 p2 p3) w).2 =
      (w.dev.peek 0x51 0x7b, w.dev.peek 0x51 0x7c, w.dev.peek 0x51 0x7d, w.dev.peek 0x51 0x7e,
        w.dev.peek 0x50 0x14) := r3
  obtain ⟨g1, g2, pre, g3⟩ := (lock_a p0 p1 p2 p3 (w.dev.peek 0x50 0x14) ho hp1 hp2 hp3
    (0xFF + 1 - 0) 0 (bfread_1 (lockBus p0 p1 p2 p3) w).2 _ _ _ _ (by omega) hw).1
    ⟨by omega, by omega⟩
  have hn : ¬ (((w.dev.peek 0x50 0x14 : Nat) : Int) < 0) := not_lt.mpr (Int.natCast_nonneg _)
  have hs : u8 (u32 0 >>> 24) = 0 := rfl
  have hs' : u8 (u32 0 >>> 16) = 0 := rfl
  have h0 : u8 0 = 0 := rfl
  simp only [runbruteforce, hs, hs', h0, hr, hn, if_false,
    show ¬ ((0xFF : Nat) < 0x00) by decide,
    show ¬ ((0 : Nat) < 0x00 ∨ (0 : Nat) > 0xFF) by decide, ite_self, g1]
  refine ⟨trivial, g2, pre, ?_⟩
  rw [g3]
  simp

/-- C11 (as amended): on the locked fake whose oracle register `0x50:0x14`
accepts a write only while `0x51:0x7B..0x7E` hold `(0x12, 0x34, 0x56, 0x78)`,
`runbruteforce` with `start = 0`, `min = 0x00`, `max = 0xFF` and the oracle 1
returns 1; the password is what it leaves in the four password registers and
what its last lines report, `Checking 0x1234XXXX`, the match of the first pass
and `Readback matched at 0xXXXX5678`; the oracle register holds the content it
had before the search. -/
theorem runbruteforce_finds_password (w : World Eeprom) :
    (runbruteforce (lockBus 0x12 0x34 0x56 0x78) w 0 0x00 0xFF
      bfread_1 bfwrite_1 bfmod_1).1 = 1 ∧
    (runbruteforce (lockBus 0x12 0x34 0x56 0x78) w 0 0x00 0xFF
      bfread_1 bfwrite_1 bfmod_1).2.dev.peek 0x51 0x7b = 0x12 ∧
    (runbruteforce (lockBus 0x12 0x34 0x56 0x78) w 0 0x00 0xFF
      bfread_1 bfwrite_1 bfmod_1).2.dev.peek 0x51 0x7c = 0x34 ∧
    (runbruteforce (lockBus 0x12 0x34 0x56 0x78) w 0 0x00 0xFF
      bfread_1 bfwrite_1 bfmod_1).2.dev.peek 0x51 0x7d = 0x56 ∧
    (runbruteforce (lockBus 0x12 0x34 0x56 0x78) w 0 0x00 0xFF
      bfread_1 bfwrite_1 bfmod_1).2.dev.peek 0x51 0x7e = 0x78 ∧
    (runbruteforce (lockBus 0x12 0x34 0x56 0x78) w 0 0x00 0xFF
      bfread_1 bfwrite_1 bfmod_1).2.dev.peek 0x50 0x14 = w.dev.peek 0x50 0x14 ∧
    ∃ pre, (runbruteforce (lockBus 0x12 0x34 0x56 0x78) w 0 0x00 0xFF
      bfread_1 bfwrite_1 bfmod_1).2.out = pre ++
        [Out.checking 0x12 0x34 4661 65536, Out.readback_somewhere,
         Out.readback_matched 0x56 0x78] := by
  obtain ⟨h1, h2, h3⟩ := lock_runbruteforce 0x12 0x34 0x56 0x78 (by decide) (by decide)
    (by decide) (by decide) w
  simp only [view, Prod.mk.injEq] at h2
  exact ⟨h1, h2.1, h2.2.1, h2.2.2.1, h2.2.2.2.1, h2.2.2.2.2, h3⟩

/-- C11 (as stated) fails in one point: on the locked fake with the password
`(0x12, 0x34, 0x56, 0x78)` and a store of zeros, `runbruteforce` with
`start = 0`, `min = 0x00`, `max = 0xFF` and the oracle 1 returns 1, not the
password `0x12345678`, which it only prints. -/
theorem runbruteforce_result_counterexample :
    (runbruteforce (lockBus 0x12 0x34 0x56 0x78) zeroStore 0 0x00 0xFF
      bfread_1 bfwrite_1 bfmod_1).1 = 1 ∧
    (runbruteforce (lockBus 0x12 0x34 0x56 0x78) zeroStore 0 0x00 0xFF
      bfread_1 bfwrite_1 bfmod_1).1 ≠ 0x12345678 := by
  have h := (lock_runbruteforce 0x12 0x34 0x56 0x78 (by decide) (by decide)
    (by decide) (by decide) zeroStore).1
  exact ⟨h, by rw [h]; decide⟩

/-! ### No false positive on a locked module -/

theorem bfmod_1_ne (v : Int) : bfmod_1 v ≠ v := by
  intro h
  have h1 := Int.testBit_lxor v 1 0
  rw [show Int.xor v 1 = v from h] at h1
  have h2 : Int.testBit 1 0 = true := by decide
  rw [h2] at h1
  cases hv : v.testBit 0 <;> rw [hv] at h1 <;> exact absurd h1 (by decide)

theorem bfmod_2_ne (v : Int) : bfmod_2 v ≠ v := by
  intro h
  have h1 := Int.testBit_lxor v 0x20 5
  rw [show Int.xor v 0x20 = v from h] at h1
  have h2 : Int.testBit 0x20 5 = true := by decide
  rw [h2] at h1
  cases hv : v.testBit 5 <;> rw [hv] at h1 <;> exact absurd h1 (by decide)

/-- The inner sweep without readback when the oracle never changes. -/
theorem frozen_d {σ : Type} (bus : Bus σ) (bfread : Bus σ → World σ → Int × World σ)
    (bfwrite : Bus σ → World σ → Int → Int × World σ) (inv : σ → Prop) (orig : Int)
    (hF : Frozen bus bfread bfwrite inv orig) (value : Int) (c : Nat) (n : Nat) :
    ∀ (d : Nat) (w : World σ), inv w.dev →
    (bruteforcepart_d bus value false bfread bfwrite c n d w).1 = none ∧
    inv (bruteforcepart_d bus value false bfread bfwrite c n d w).2.dev := by
  induction n with
  | zero => intro d w hw; exact ⟨rfl, hw⟩
  | succ n ih =>
    intro d w hw
    obtain ⟨x1, x2⟩ := hF.pw w 0x7e d hw
    obtain ⟨y1, y2⟩ := hF.wr (i2c_write_byte bus w 0x51 0x7e d).2 value x2
    simp only [bruteforcepart_d, not_lt.mpr x1, not_lt.mpr y1, if_false, Bool.false_eq_true]
    exact ih (d + 1) _ y2

/-- The sweep over the third byte without readback when the oracle never
changes. -/
theorem frozen_c {σ : Type} (bus : Bus σ) (bfread : Bus σ → World σ → Int × World σ)
    (bfwrite : Bus σ → World σ → Int → Int × World σ) (inv : σ → Prop) (orig : Int)
    (hF : Frozen bus bfread bfwrite inv orig) (value : Int) (min max : Nat) (n : Nat) :
    ∀ (c : Nat) (w : World σ), inv w.dev →
    (bruteforcepart_c bus value false min max bfread bfwrite n c w).1 = none ∧
    inv (bruteforcepart_c bus value false min max bfread bfwrite n c w).2.dev := by
  induction n with
  | zero => intro c w hw; exact ⟨rfl, hw⟩
  | succ n ih =>
    intro c w hw
    obtain ⟨x1, x2⟩ := hF.pw w 0x7d c hw
    obtain ⟨y1, y2⟩ := frozen_d bus bfread bfwrite inv orig hF value c (max + 1 - min) min
      (i2c_write_byte bus w 0x51 0x7d c).2 x2
    simp only [bruteforcepart_c, not_lt.mpr x1, if_false, y1]
    exact ih (c + 1) _ y2

/-- The first pass when the oracle never changes: no match for a marker other
than the content of the oracle. -/
theorem frozen_part {σ : Type} (bus : Bus σ) (bfread : Bus σ → World σ → Int × World σ)
    (bfwrite : Bus σ → World σ → Int → Int × World σ) (bfmod : Int → Int)
    (inv : σ → Prop) (orig : Int) (hF : Frozen bus bfread bfwrite inv orig)
    (h0 : 0 ≤ orig) (value : Int) (hv : orig ≠ value) (min max : Nat) (w : World σ)
    (hw : inv w.dev) :
    (bruteforcepart bus w value false min max bfread bfwrite bfmod).1 = 0 ∧
    inv (bruteforcepart bus w value false min max bfread bfwrite bfmod).2.dev := by
  obtain ⟨x1, x2⟩ := frozen_c bus bfread bfwrite inv orig hF value min max (max + 1 - min)
    min w hw
  obtain ⟨y1, y2⟩ := hF.rd (bruteforcepart_c bus value false min max bfread bfwrite
    (max + 1 - min) min w).2 x2
  simp only [bruteforcepart, x1, y1, not_lt.mpr h0, hv, Bool.not_false, if_true, if_false]
  exact ⟨trivial, y2⟩

/-- The loop over the second byte when the oracle never changes. -/
theorem frozen_b {σ : Type} (bus : Bus σ) (bfread : Bus σ → World σ → Int × World σ)
    (bfwrite : Bus σ → World σ → Int → Int × World σ) (bfmod : Int → Int)
    (inv : σ → Prop) (orig : Int) (hF : Frozen bus bfread bfwrite inv orig)
    (h0 : 0 ≤ orig) (hmod : bfmod orig ≠ orig) (min max a : Nat) (n : Nat) :
    ∀ (b : Nat) (w : World σ), inv w.dev →
    (runbruteforce_b bus orig min max bfread bfwrite bfmod a n b w).1 = none ∧
    inv (runbruteforce_b bus orig min max bfread bfwrite bfmod a n b w).2.dev := by
  induction n with
  | zero => intro b w hw; exact ⟨rfl, hw⟩
  | succ n ih =>
    intro b w hw
    obtain ⟨x1, x2⟩ := hF.pw w 0x7c b hw
    obtain ⟨y1, y2⟩ := frozen_part bus bfread bfwrite bfmod inv orig hF h0 (bfmod orig)
      (fun h => hmod h.symm) min max
      { (i2c_write_byte bus w 0x51 0x7c b).2 with
        out := (i2c_write_byte bus w 0x51 0x7c b).2.out ++
          [Out.checking a b (1 + (a - min) * (1 + max - min) + (b - min))
            ((1 + max - min) * (1 + max - min))] } x2
    simp only [runbruteforce_b, not_lt.mpr x1, if_false, y1,
      show ¬ ((0 : Int) < 0) by decide, show ¬ ((0 : Int) = 1) by decide]
    exact ih (b + 1) _ y2

/-- The loop over the first byte when the oracle never changes. -/
theorem frozen_a {σ : Type} (bus : Bus σ) (bfread : Bus σ → World σ → Int × World σ)
    (bfwrite : Bus σ → World σ → Int → Int × World σ) (bfmod : Int → Int)
    (inv : σ → Prop) (orig : Int) (hF : Frozen bus bfread bfwrite inv orig)
    (h0 : 0 ≤ orig) (hmod : bfmod orig ≠ orig) (min max sb : Nat) (n : Nat) :
    ∀ (a : Nat) (w : World σ), inv w.dev →
    (runbruteforce_a bus orig min max sb bfread bfwrite bfmod n a w).1 = none ∧
    inv (runbruteforce_a bus orig min max sb bfread bfwrite bfmod n a w).2.dev := by
  induction n with
  | zero => intro a w hw; exact ⟨rfl, hw⟩
  | succ n ih =>
    intro a w hw
    obtain ⟨x1, x2⟩ := hF.pw w 0x7b a hw
    obtain ⟨y1, y2⟩ := frozen_b bus bfread bfwrite bfmod inv orig hF h0 hmod min max a
      (max + 1 - sb) sb (i2c_write_byte bus w 0x51 0x7b a).2 x2
    simp only [runbruteforce_a, not_lt.mpr x1, if_false, y1]
    exact ih (a + 1) _ y2

/-- The search when the oracle never changes: it returns 0, whatever the start
and the range. -/
theorem frozen_runbruteforce {σ : Type} (bus : Bus σ)
    (bfread : Bus σ → World σ → Int × World σ)
    (bfwrite : Bus σ → World σ → Int → Int × World σ) (bfmod : Int → Int)
    (inv : σ → Prop) (orig : Int) (hF : Frozen bus bfread bfwrite inv orig)
    (h0 : 0 ≤ orig) (hmod : bfmod orig ≠ orig) (start min max : Nat) (w : World σ)
    (hw : inv w.dev) :
    (runbruteforce bus w start min max bfread bfwrite bfmod).1 = 0 ∧
    inv (runbruteforce bus w start min max bfread bfwrite bfmod).2.dev := by
  obtain ⟨x1, x2⟩ := hF.rd w hw
  simp only [runbruteforce, x1, not_lt.mpr h0, if_false]
  obtain ⟨y1, y2⟩ := frozen_a bus bfread bfwrite bfmod inv orig hF h0 hmod min
    (if max < min then min else max)
    (if u8 (u32 start >>> 16) < min ∨ u8 (u32 start >>> 16) > (if max < min then min else max)
      then u8 min else u8 (u32 start >>> 16))
    ((if max < min then min else max) + 1 -
      (if u8 (u32 start >>> 24) < min ∨ u8 (u32 start >>> 24) > (if max < min then min else max)
        then u8 min else u8 (u32 start >>> 24)))
    (if u8 (u32 start >>> 24) < min ∨ u8 (u32 start >>> 24) > (if max < min then min else max)
      then u8 min else u8 (u32 start >>> 24))
    (bfread bus w).2 x2
  rw [y1]
  exact ⟨rfl, y2⟩

/-! ### The frozen fake -/

theorem frozen_write_51 (w : World Eeprom) (r v : Nat) :
    i2c_write_byte frozenBus w 0x51 r v = i2c_write_byte eepromBus w 0x51 r v := by
  have h51 : u8 0x51 = 0x51 := rfl
  simp [i2c_write_byte, i2c_transfer, frozenBus, h51]

theorem frozen_read (w : World Eeprom) (a r : Nat) :
    i2c_read_byte frozenBus w a r = i2c_read_byte eepromBus w a r := by
  simp [i2c_read_byte, i2c_transfer, frozenBus, I2C_M_RD]

/-- A write of the first oracle on the frozen fake succeeds and stores
nothing. -/
theorem frozen_bfwrite_1 (w : World Eeprom) (v : Int) :
    (bfwrite_1 frozenBus w v).1 = 1 ∧ (bfwrite_1 frozenBus w v).2.dev = w.dev := by
  have h50 : u8 0x50 = 0x50 := rfl
  simp [bfwrite_1, i2c_write_byte, i2c_transfer, frozenBus, h50, I2C_M_RD]

/-- A read of the first oracle on the frozen fake. -/
theorem frozen_bfread_1 (w : World Eeprom) :
    (bfread_1 frozenBus w).1 = (w.dev.peek 0x50 0x14 : Nat) ∧
    ∀ a r, (bfread_1 frozenBus w).2.dev.peek a r = w.dev.peek a r := by
  rw [bfread_1, frozen_read]
  exact ⟨eeprom_read_byte_val _ _ _, fun a r => eeprom_read_byte_peek _ _ _ _ _⟩

/-- A write of the second oracle on the frozen fake succeeds and stores
nothing. -/
theorem frozen_bfwrite_2 (w : World Eeprom) (v : Int) :
    (bfwrite_2 frozenBus w v).1 = 0 ∧ (bfwrite_2 frozenBus w v).2.dev = w.dev := by
  have h56 : u8 0x56 = 0x56 := rfl
  simp [bfwrite_2, i2c_mii_write_default_c22, i2c_transfer, frozenBus, h56, I2C_M_RD]

/-- A read of the second oracle on the frozen fake. -/
theorem frozen_bfread_2 (w : World Eeprom) :
    (bfread_2 frozenBus w).1 =
      ((w.dev.peek 0x50 0x14 <<< 8 ||| w.dev.peek 0x50 0x15 : Nat) : Int) ∧
    ∀ a r, (bfread_2 frozenBus w).2.dev.peek a r = w.dev.peek a r := by
  have h50 : u8 0x50 = 0x50 := rfl
  have h14 : u8 0x14 = 0x14 := rfl
  constructor
  · simp [bfread_2, i2c_mii_read_default_c22, i2c_transfer, frozenBus, eepromBus,
      Eeprom.exchange, Eeprom.msg, Eeprom.seek, Eeprom.peek, I2C_M_RD, byteAt, h50, h14]
    rw [u8_u8, u8_u8, show u8 21 = 21 from rfl]
  · intro a r
    simp [bfread_2, i2c_mii_read_default_c22, i2c_transfer, frozenBus, eepromBus,
      Eeprom.exchange, Eeprom.msg, Eeprom.seek, Eeprom.peek, I2C_M_RD, h50, h14]

/-- A write of a password register on the frozen fake succeeds and leaves the
chip `0x50` as it is. -/
theorem frozen_pw (w : World Eeprom) (r v : Nat) :
    (i2c_write_byte frozenBus w 0x51 r v).1 = 1 ∧
    ∀ r', (i2c_write_byte frozenBus w 0x51 r v).2.dev.peek 0x50 r' = w.dev.peek 0x50 r' := by
  rw [frozen_write_51]
  refine ⟨eeprom_write_byte_val _ _ _ _, fun r' => ?_⟩
  have h51 : u8 0x51 = 0x51 := rfl
  simp [eeprom_write_byte_peek, h51]

/-- The first oracle on the frozen fake never changes. -/
theorem frozen_oracle_1 (e0 : Eeprom) :
    Frozen frozenBus bfread_1 bfwrite_1 (fun e => ∀ r, e.peek 0x50 r = e0.peek 0x50 r)
      (e0.peek 0x50 0x14 : Nat) where
  pw := fun w r v hw => by
    obtain ⟨h1, h2⟩ := frozen_pw w r v
    exact ⟨by rw [h1]; decide, fun r' => (h2 r').trans (hw r')⟩
  wr := fun w v hw => by
    obtain ⟨h1, h2⟩ := frozen_bfwrite_1 w v
    exact ⟨by rw [h1]; decide, by rw [h2]; exact hw⟩
  rd := fun w hw => by
    obtain ⟨h1, h2⟩ := frozen_bfread_1 w
    exact ⟨by rw [h1, hw], fun r' => (h2 _ r').trans (hw r')⟩

/-- The second oracle on the frozen fake never changes. -/
theorem frozen_oracle_2 (e0 : Eeprom) :
    Frozen frozenBus bfread_2 bfwrite_2 (fun e => ∀ r, e.peek 0x50 r = e0.peek 0x50 r)
      ((e0.peek 0x50 0x14 <<< 8 ||| e0.peek 0x50 0x15 : Nat) : Int) where
  pw := fun w r v hw => by
    obtain ⟨h1, h2⟩ := frozen_pw w r v
    exact ⟨by rw [h1]; decide, fun r' => (h2 r').trans (hw r')⟩
  wr := fun w v hw => by
    obtain ⟨h1, h2⟩ := frozen_bfwrite_2 w v
    exact ⟨by rw [h1], by rw [h2]; exact hw⟩
  rd := fun w hw => by
    obtain ⟨h1, h2⟩ := frozen_bfread_2 w
    exact ⟨by rw [h1, hw, hw], fun r' => (h2 _ r').trans (hw r')⟩

/-- C21: no false positive on a locked module.  `bfmod_1 v` and `bfmod_2 v`
differ from `v` for every `int` value `v`; and on the frozen fake, where every
exchange succeeds and a write of the oracle stores nothing, `runbruteforce`
returns 0 (not found) for every store, start, `min` and `max`, with the first
oracle and with the second, and every register of the chip `0x50`, the oracle
register among them, holds afterwards what it held before. -/
theorem no_false_positive :
    (∀ v : Int, bfmod_1 v ≠ v) ∧ (∀ v : Int, bfmod_2 v ≠ v) ∧
    (∀ (w : World Eeprom) (start min max : Nat),
      (runbruteforce frozenBus w start min max bfread_1 bfwrite_1 bfmod_1).1 = 0 ∧
      ∀ r, (runbruteforce frozenBus w start min max bfread_1 bfwrite_1 bfmod_1).2.dev.peek
        0x50 r = w.dev.peek 0x50 r) ∧
    (∀ (w : World Eeprom) (start min max : Nat),
      (runbruteforce frozenBus w start min max bfread_2 bfwrite_2 bfmod_2).1 = 0 ∧
      ∀ r, (runbruteforce frozenBus w start min max bfread_2 bfwrite_2 bfmod_2).2.dev.peek
        0x50 r = w.dev.peek 0x50 r) :=
  ⟨bfmod_1_ne, bfmod_2_ne,
    fun w start min max =>
      frozen_runbruteforce frozenBus bfread_1 bfwrite_1 bfmod_1 _ _ (frozen_oracle_1 w.dev)
        (Int.natCast_nonneg _) (bfmod_1_ne _) start min max w (fun _ => rfl),
    fun w start min max =>
      frozen_runbruteforce frozenBus bfread_2 bfwrite_2 bfmod_2 _ _ (frozen_oracle_2 w.dev)
        (Int.natCast_nonneg _) (bfmod_2_ne _) start min max w (fun _ => rfl)⟩

end I2csfp
